import Mathlib

/-!
# Kitten Idle (`main.c`)

A shallow embedding of the game loop of `main.c` and the properties of its
economy, its command handlers, its passive-income ticks and its save file.

Modelling conventions, used throughout:

* a `double` is read in two ways. In the namespace `Kittremental` itself it is
  an exact rational (`ℚ`): the program in exact arithmetic, for the properties
  that do not depend on rounding. In the namespace `Machine` it is a binary64
  value (`Double`): every operation is rounded to nearest, ties to even, and
  there are infinities, signed zeros and NaN; the properties of the arithmetic
  the program really performs are stated there;
* an `int` is an `Int`; the two `+= 1` on the counters wrap around as on the
  usual 32-bit two's-complement targets (`int_add`), and `is_int` says that a
  value fits the type;
* `save.dat` is `Option SaveFile`: `none` when `fopen(path, "rb")` would return
  NULL, otherwise the bytes of the file cut into blocks of `sizeof(Game)`;
* what `printf` writes is a list of `Msg` values, one per format string, with
  the values that are formatted as arguments;
* the standard input is the list of buffers that the successive calls of
  `fgets` store, its end being the call that returns NULL; what one call stores
  of the characters still to be read is `fgets`; `sleep_ms` only waits and has
  no counterpart.
-/

namespace Kittremental

/-! ## Machine integers -/

/-- Largest value of a 32-bit `int`. -/
def INT_MAX : Int := 2147483647

/-- Smallest value of a 32-bit `int`. -/
def INT_MIN : Int := -2147483648

/-- The value fits a 32-bit `int`. -/
def is_int (n : Int) : Prop := INT_MIN ≤ n ∧ n ≤ INT_MAX

instance (n : Int) : Decidable (is_int n) := by
  unfold is_int
  infer_instance

/-- Sum of two `int`s, wrapped around into the range of the type. -/
def int_add (a b : Int) : Int := (a + b - INT_MIN) % 4294967296 + INT_MIN

/-! ## The game record and its economy -/

/-- The record `Game` of `main.c`. -/
structure Game where
  yarn : ℚ
  kittens : Int
  bowls : Int
  kitten_base_rate : ℚ
deriving DecidableEq

/-- Both counters of the record fit the type `int`. -/
def Game.wf (g : Game) : Prop := is_int g.kittens ∧ is_int g.bowls

instance (g : Game) : Decidable g.wf := by
  unfold Game.wf
  infer_instance

/-- `kitten_cost`: `10.0 * (1.0 + 0.2 * g->kittens)`. -/
def kitten_cost (g : Game) : ℚ := 10.0 * (1.0 + 0.2 * (g.kittens : ℚ))

/-- `bowl_cost`: `25.0 + 10.0 * g->bowls`. -/
def bowl_cost (g : Game) : ℚ := 25.0 + 10.0 * (g.bowls : ℚ)

/-- `kitten_rate`: the base rate times `1.0 + 0.25 * g->bowls`. -/
def kitten_rate (g : Game) : ℚ :=
  let mult : ℚ := 1.0 + 0.25 * (g.bowls : ℚ)
  g.kitten_base_rate * mult

/-! ## Output -/

/-- One `printf` of the program (the status screen counts as one). -/
inductive Msg where
  | ui (yarn : ℚ) (kittens bowls : Int) (passive_rate kitten_price bowl_price : ℚ)
  | gathered
  | kitten_joins (kittens : Int)
  | not_enough_yarn
  | bought_bowl (bowls : Int)
  | saved
  | save_failed
  | loaded
  | load_failed
  | unknown_command
  | goodbye
deriving DecidableEq

/-- `print_ui`: the status screen with the values it formats. -/
def print_ui (g : Game) : Msg :=
  Msg.ui g.yarn g.kittens g.bowls ((g.kittens : ℚ) * kitten_rate g) (kitten_cost g) (bowl_cost g)

/-! ## The save file -/

/-- Bytes of `save.dat`: the complete blocks of `sizeof(Game)` bytes, each read
as the record it is the image of, and the number of bytes left after them
(fewer than one block). -/
structure SaveFile where
  records : List Game
  tail : Nat
deriving DecidableEq

/-- How the file system answers one `save_game`: `fopen` returns NULL; `fwrite`
returns less than 1, `written` bytes having reached the file; `fwrite` returns 1
but the flush in `fclose` fails, `written` bytes (fewer than one record) having
reached the file; or all of the record is written. -/
inductive Disk where
  | fopen_fails
  | fwrite_fails (written : Nat)
  | fclose_fails (written : Nat)
  | ok
deriving DecidableEq

/-- `save_game`: whether it returns true, and `save.dat` afterwards. Opening
with mode "wb" empties the file, so a failed `fwrite` leaves less than one
record in it. The result of `fclose` is not looked at, so when only the flush
in `fclose` fails the function returns true over a file that holds less than
one record. -/
def save_game (g : Game) (d : Disk) (file : Option SaveFile) : Bool × Option SaveFile :=
  match d with
  | Disk.fopen_fails => (false, file)
  | Disk.fwrite_fails written => (false, some ⟨[], written⟩)
  | Disk.fclose_fails written => (true, some ⟨[], written⟩)
  | Disk.ok => (true, some ⟨[g], 0⟩)

/-- `load_game`: whether it returns true, and the caller's record afterwards. -/
def load_game (g : Game) (file : Option SaveFile) : Bool × Game :=
  match file with
  | none => (false, g)
  | some f =>
    match f.records with
    | [] => (false, g)
    | tmp :: _ => (true, tmp)

/-! ## The command handlers -/

/-- Case `g`/`G` of the switch. -/
def gather (g : Game) : Game × Msg :=
  ({ g with yarn := g.yarn + 1.0 }, Msg.gathered)

/-- Case `b`/`B` of the switch. -/
def buy_kitten (g : Game) : Game × Msg :=
  let cost := kitten_cost g
  if g.yarn ≥ cost then
    let g1 := { g with yarn := g.yarn - cost }
    let g2 := { g1 with kittens := int_add g1.kittens 1 }
    (g2, Msg.kitten_joins g2.kittens)
  else
    (g, Msg.not_enough_yarn)

/-- Case `u`/`U` of the switch. -/
def buy_bowl (g : Game) : Game × Msg :=
  let cost := bowl_cost g
  if g.yarn ≥ cost then
    let g1 := { g with yarn := g.yarn - cost }
    let g2 := { g1 with bowls := int_add g1.bowls 1 }
    (g2, Msg.bought_bowl g2.bowls)
  else
    (g, Msg.not_enough_yarn)

/-- What the loop owns: the record, `save.dat` and what was printed so far. -/
structure World where
  g : Game
  file : Option SaveFile
  out : List Msg
deriving DecidableEq

/-- The switch on `cmd` of the loop body. The boolean is `running`: false for
`q`/`Q` only, where the `continue` skips the ticks and leaves the loop. -/
def switch_cmd (cmd : Char) (d : Disk) (w : World) : World × Bool :=
  if cmd = 'g' ∨ cmd = 'G' then
    ({ w with g := (gather w.g).1, out := w.out ++ [(gather w.g).2] }, true)
  else if cmd = 'b' ∨ cmd = 'B' then
    ({ w with g := (buy_kitten w.g).1, out := w.out ++ [(buy_kitten w.g).2] }, true)
  else if cmd = 'u' ∨ cmd = 'U' then
    ({ w with g := (buy_bowl w.g).1, out := w.out ++ [(buy_bowl w.g).2] }, true)
  else if cmd = 's' ∨ cmd = 'S' then
    if (save_game w.g d w.file).1 then
      ({ w with file := (save_game w.g d w.file).2, out := w.out ++ [Msg.saved] }, true)
    else
      ({ w with file := (save_game w.g d w.file).2, out := w.out ++ [Msg.save_failed] }, true)
  else if cmd = 'l' ∨ cmd = 'L' then
    if (load_game w.g w.file).1 then
      ({ w with g := (load_game w.g w.file).2, out := w.out ++ [Msg.loaded] }, true)
    else
      ({ w with g := (load_game w.g w.file).2, out := w.out ++ [Msg.load_failed] }, true)
  else if cmd = 'q' ∨ cmd = 'Q' then
    (w, false)
  else
    ({ w with out := w.out ++ [Msg.unknown_command] }, true)

/-! ## Passive income -/

/-- `tick_ms`. -/
def tick_ms : Int := 100

/-- `dt`: seconds per tick, `tick_ms / 1000.0`. -/
def dt : ℚ := (tick_ms : ℚ) / 1000.0

/-- Body of the tick loop: `rate = g.kittens * kitten_rate(&g); g.yarn += rate * dt`. -/
def tick (g : Game) : Game :=
  let rate : ℚ := (g.kittens : ℚ) * kitten_rate g
  { g with yarn := g.yarn + rate * dt }

/-- The tick loop run `n` times (`n` is 5 in the program). -/
def ticks : Nat → Game → Game
  | 0, g => g
  | n + 1, g => ticks n (tick g)

/-! ## The game loop -/

/-- One successful `fgets`: the buffer it stored, and how the file system
answers if the command saves. -/
structure Input where
  buf : List Char
  disk : Disk

/-- The character `buf[0]` (the terminating NUL when the buffer is empty). -/
def first_char (buf : List Char) : Char := buf.headD (Char.ofNat 0)

/-- One pass through the body of the loop after a successful `fgets`:
the status screen, the switch and, unless the command quits, the five ticks. -/
def iteration (i : Input) (w : World) : World × Bool :=
  let w1 := { w with out := w.out ++ [print_ui w.g] }
  let r := switch_cmd (first_char i.buf) i.disk w1
  if r.2 then ({ r.1 with g := ticks 5 r.1.g }, true) else (r.1, false)

/-- The loop `while (running)`: it ends when `fgets` returns NULL (after the
status screen was printed) or on a quit command. -/
def game_loop : List Input → World → World
  | [], w => { w with out := w.out ++ [print_ui w.g] }
  | i :: rest, w =>
    if (iteration i w).2 then game_loop rest (iteration i w).1 else (iteration i w).1

/-- The record `main` starts from. -/
def initial : Game :=
  { yarn := 0.0, kittens := 0, bowls := 0, kitten_base_rate := 0.5 }

/-- `main`: the exit code and the final world, from the standard input and the
`save.dat` found at start. -/
def main (stdin : List Input) (file : Option SaveFile) : Int × World :=
  let w := game_loop stdin { g := initial, file := file, out := [] }
  (0, { w with out := w.out ++ [Msg.goodbye] })

/-! ## Reading a line -/

/-- What `fgets` reads when there is room for `n` more characters: it stops
after a newline, which it keeps, when the room is used up or at the end of the
input. The result is what was read and what is left of the input. -/
def fgets_read : Nat → List Char → List Char × List Char
  | 0, s => ([], s)
  | _ + 1, [] => ([], [])
  | n + 1, c :: s =>
    if c = '\n' then ([c], s) else (c :: (fgets_read n s).1, (fgets_read n s).2)

/-- The call `fgets(buf, size, stdin)` on the characters still to be read: NULL
(`none`) at the end of the input, otherwise the buffer stored, of at most
`size - 1` characters, and the characters left. -/
def fgets (size : Nat) (stdin : List Char) : Option (List Char × List Char) :=
  match stdin with
  | [] => none
  | _ :: _ => some (fgets_read (size - 1) stdin)

/-- The twelve characters that have a case of their own in the switch. -/
def command_chars : List Char :=
  ['g', 'G', 'b', 'B', 'u', 'U', 's', 'S', 'l', 'L', 'q', 'Q']

/-- Two characters are equal, or are the lower and upper case of one of the
letters g, b, u, s, l, q. -/
def same_letter (c1 c2 : Char) : Prop :=
  c1 = c2 ∨
  ∃ p ∈ [('g', 'G'), ('b', 'B'), ('u', 'U'), ('s', 'S'), ('l', 'L'), ('q', 'Q')],
    (c1 = p.1 ∨ c1 = p.2) ∧ (c2 = p.1 ∨ c2 = p.2)

instance (c1 c2 : Char) : Decidable (same_letter c1 c2) := by
  unfold same_letter
  infer_instance

/-- The switch applied to each character of a list in turn, with no ticks in
between: the command handlers in sequence. -/
def handlers (cmds : List Char) (w : World) : World :=
  cmds.foldl (fun v c => (switch_cmd c Disk.ok v).1) w

/-! ## Records that stay in range -/

/-- The record a `load_game` would read from the file, if there is one, has
the base rate 0.5 of the initial record. -/
def half_rate_file (file : Option SaveFile) : Prop :=
  match file with
  | none => True
  | some f =>
    match f.records with
    | [] => True
    | r :: _ => r.kitten_base_rate = 0.5

instance (file : Option SaveFile) : Decidable (half_rate_file file) := by
  unfold half_rate_file
  split
  · infer_instance
  · split <;> infer_instance

/-! ## Sample states -/

/-- A save file with one record that is in range. -/
def tidy : SaveFile :=
  { records := [{ yarn := 40, kittens := 2, bowls := 1, kitten_base_rate := 0.5 }], tail := 0 }

/-- The standard input of a short session: gather, load, buy a kitten. -/
def session : List Input :=
  [⟨['g', '\n'], Disk.ok⟩, ⟨['l', '\n'], Disk.ok⟩, ⟨['b', '\n'], Disk.ok⟩]

/-- The start of a game with no save file: no yarn, so nothing can be bought. -/
def start : World := { g := initial, file := none, out := [] }

/-- A record with the largest number of kittens an `int` holds and the yarn
for one more. -/
def full_house : Game :=
  { yarn := 10000000000, kittens := INT_MAX, bowls := 0, kitten_base_rate := 0.5 }

/-- A game with three kittens, two bowls and the yarn for a kitten and for a
bowl, and no save file. -/
def wealthy : World :=
  { g := { yarn := 100, kittens := 3, bowls := 2, kitten_base_rate := 0.5 },
    file := none, out := [] }

/-- A game with three kittens and two bowls in memory, and on file the record
saved when there were two kittens and one bowl. -/
def saved_earlier : World := { wealthy with file := some tidy }

/-- A save file whose record has another base rate than the program ever sets. -/
def foreign : SaveFile :=
  { records := [{ yarn := 0, kittens := 1, bowls := 0, kitten_base_rate := 2 }], tail := 0 }

/-- The record of the scenario with two kittens and one bowl, with yarn `y`. -/
def two_kittens_one_bowl (y : ℚ) : Game :=
  { yarn := y, kittens := 2, bowls := 1, kitten_base_rate := 0.5 }

/-! ## Binary64 arithmetic -/

/-- A value of the C type `double`, an IEEE 754 binary64. A finite value is
`(-1)^sign * mant * 2^(expo - 1074)`: the exponent counts from the smallest
subnormal, so that `expo` is a natural number. The payload of a NaN is not
modelled. -/
inductive Double where
  | fin (sign : Bool) (mant : Nat) (expo : Nat)
  | inf (sign : Bool)
  | nan
deriving DecidableEq

namespace Double

/-- The fields of a finite value are those of a binary64: 53 bits of mantissa,
with the leading bit set unless the exponent is the smallest one, and an
exponent up to that of the largest finite value. -/
def wf : Double → Prop
  | fin _ m e => m < 2 ^ 53 ∧ e ≤ 2045 ∧ (2 ^ 52 ≤ m ∨ e = 0)
  | inf _ => True
  | nan => True

instance (d : Double) : Decidable d.wf := by
  cases d <;> unfold wf <;> infer_instance

/-- The quotient `num / den` rounded to the nearest natural number, a tie
going to the even one. -/
def rne (num den : Nat) : Nat :=
  if 2 * (num % den) < den then num / den
  else if 2 * (num % den) = den ∧ (num / den) % 2 = 0 then num / den
  else num / den + 1

/-- One step of the search for the position of the leading bit: a number of at
least `2^k` is shifted right by `k` places, which are counted. -/
def log2_step (p : Nat × Nat) (k : Nat) : Nat × Nat :=
  if 2 ^ k ≤ p.1 then (p.1 / 2 ^ k, p.2 + k) else p

/-- The position of the leading bit of `n`, that is the integer part of its
binary logarithm, for `0 < n < 2^8192` (0 for `n = 0`). -/
def log2 (n : Nat) : Nat :=
  ([4096, 2048, 1024, 512, 256, 128, 64, 32, 16, 8, 4, 2, 1].foldl log2_step (n, 0)).2

/-- The binary64 nearest to `(-1)^s * (num / den) * 2^(-1074)`, ties to even:
the rounding every arithmetic operation ends with. The quantum `2^q` is the
spacing of the binary64 values around the quotient; a result beyond the largest
finite value is an infinity. -/
def round (s : Bool) (num den : Nat) : Double :=
  let q := log2 (num / den) - 52
  let n := rne num (den * 2 ^ q)
  let m := if n = 2 ^ 53 then 2 ^ 52 else n
  let e := if n = 2 ^ 53 then q + 1 else q
  if e ≤ 2045 then fin s m e else inf s

/-- A finite value as a signed multiple of `2^(-1074)` (0 for the others). -/
def units : Double → Int
  | fin s m e => if s then -((m * 2 ^ e : Nat) : Int) else ((m * 2 ^ e : Nat) : Int)
  | inf _ => 0
  | nan => 0

/-- The finite value as a rational number (0 for an infinity or a NaN). -/
def value (d : Double) : ℚ := (units d : ℚ) / 2 ^ 1074

/-- The value is neither an infinity nor a NaN. -/
def finite : Double → Bool
  | fin _ _ _ => true
  | inf _ => false
  | nan => false

/-- Unary minus. -/
def neg : Double → Double
  | fin s m e => fin (!s) m e
  | inf s => inf (!s)
  | nan => nan

/-- The sum `x + y` of C. An exact sum of zero is `+0` unless both terms are
`-0`. -/
def add : Double → Double → Double
  | nan, _ => nan
  | _, nan => nan
  | inf s, inf t => if s = t then inf s else nan
  | inf s, fin _ _ _ => inf s
  | fin _ _ _, inf t => inf t
  | fin s m e, fin t n f =>
    if units (fin s m e) + units (fin t n f) = 0 then fin (s && t) 0 0
    else round (decide (units (fin s m e) + units (fin t n f) < 0))
      (units (fin s m e) + units (fin t n f)).natAbs 1

/-- The difference `x - y` of C. -/
def sub (x y : Double) : Double := add x (neg y)

/-- The product `x * y` of C. -/
def mul : Double → Double → Double
  | nan, _ => nan
  | _, nan => nan
  | inf s, inf t => inf (xor s t)
  | inf s, fin t n _ => if n = 0 then nan else inf (xor s t)
  | fin s m _, inf t => if m = 0 then nan else inf (xor s t)
  | fin s m e, fin t n f => round (xor s t) (m * 2 ^ e * (n * 2 ^ f)) (2 ^ 1074)

/-- The quotient `x / y` of C. -/
def div : Double → Double → Double
  | nan, _ => nan
  | _, nan => nan
  | inf _, inf _ => nan
  | inf s, fin t _ _ => inf (xor s t)
  | fin s _ _, inf t => fin (xor s t) 0 0
  | fin s m e, fin t n f =>
    if n = 0 then (if m = 0 then nan else inf (xor s t))
    else round (xor s t) (m * 2 ^ e * 2 ^ 1074) (n * 2 ^ f)

/-- The comparison `x <= y` of C: false when either side is a NaN. -/
def le : Double → Double → Bool
  | nan, _ => false
  | _, nan => false
  | inf s, inf t => s || !t
  | inf s, fin _ _ _ => s
  | fin _ _ _, inf t => !t
  | fin s m e, fin t n f => decide (units (fin s m e) ≤ units (fin t n f))

/-- The comparison `x < y` of C: false when either side is a NaN. -/
def lt : Double → Double → Bool
  | nan, _ => false
  | _, nan => false
  | inf s, inf t => s && !t
  | inf s, fin _ _ _ => s
  | fin _ _ _, inf t => !t
  | fin s m e, fin t n f => decide (units (fin s m e) < units (fin t n f))

/-- The comparison `x >= y` of C. -/
def ge (x y : Double) : Bool := le y x

/-- The comparison `x == y` of C: `+0` and `-0` are equal, a NaN equals
nothing. -/
def eq (x y : Double) : Bool := le x y && le y x

/-- The conversion of an `int` to `double`, exact for every `int`. -/
def of_int (k : Int) : Double := round (decide (k < 0)) (k.natAbs * 2 ^ 1074) 1

/-- The `double` a decimal literal `m * 10^(-e)` (or `m * 10^e`) denotes: the
nearest binary64. -/
def of_decimal (m : Nat) (s : Bool) (e : Nat) : Double :=
  if s then round false (m * 2 ^ 1074) (10 ^ e) else round false (m * 10 ^ e * 2 ^ 1074) 1

/-- The value is finite and of magnitude at most `2^K` times `2^(-1074)`. -/
def within (K : Nat) (d : Double) : Prop := d.finite = true ∧ d.units.natAbs ≤ 2 ^ K

instance (K : Nat) (d : Double) : Decidable (within K d) := by
  unfold within
  infer_instance

/-- The value is a finite binary64 in normal form with
`2^(-1020) <= |d| <= 2^900`: far from underflow and from overflow. -/
def moderate (d : Double) : Prop :=
  d.wf ∧ d.finite = true ∧ 2 ^ 54 ≤ d.units.natAbs ∧ d.units.natAbs ≤ 2 ^ 1974

instance (d : Double) : Decidable (moderate d) := by
  unfold moderate
  infer_instance

/-- The value is `>= 0`: a zero of either sign, a positive finite value or
`+inf`; not a NaN. -/
def nonneg (d : Double) : Prop := le (fin false 0 0) d = true

instance (d : Double) : Decidable d.nonneg := by
  unfold nonneg
  infer_instance

instance : OfScientific Double := ⟨of_decimal⟩

instance : Add Double := ⟨add⟩

instance : Sub Double := ⟨sub⟩

instance : Mul Double := ⟨mul⟩

instance : Div Double := ⟨div⟩

end Double

/-! ## The program on binary64 values

The same program with every `double` a binary64 and every operation rounded as
the hardware rounds it: to nearest, ties to even, each operation on its own (no
wider intermediate precision and no fused multiply-add, as on x86-64). The
names are those of `main.c`, in the namespace `Machine`. -/

namespace Machine

/-- The record `Game` of `main.c`, its `double` fields as binary64 values. -/
structure Game where
  yarn : Double
  kittens : Int
  bowls : Int
  kitten_base_rate : Double
deriving DecidableEq

/-- The fields of the record are values of their C types. -/
def Game.wf (g : Game) : Prop :=
  g.yarn.wf ∧ is_int g.kittens ∧ is_int g.bowls ∧ g.kitten_base_rate.wf

instance (g : Game) : Decidable g.wf := by
  unfold Game.wf
  infer_instance

/-- `kitten_cost`: `10.0 * (1.0 + 0.2 * g->kittens)`. -/
def kitten_cost (g : Game) : Double := 10.0 * (1.0 + 0.2 * Double.of_int g.kittens)

/-- `bowl_cost`: `25.0 + 10.0 * g->bowls`. -/
def bowl_cost (g : Game) : Double := 25.0 + 10.0 * Double.of_int g.bowls

/-- `kitten_rate`: the base rate times `1.0 + 0.25 * g->bowls`. -/
def kitten_rate (g : Game) : Double :=
  let mult : Double := 1.0 + 0.25 * Double.of_int g.bowls
  g.kitten_base_rate * mult

/-- One `printf` of the program (the status screen counts as one). -/
inductive Msg where
  | ui (yarn : Double) (kittens bowls : Int) (passive_rate kitten_price bowl_price : Double)
  | gathered
  | kitten_joins (kittens : Int)
  | not_enough_yarn
  | bought_bowl (bowls : Int)
  | saved
  | save_failed
  | loaded
  | load_failed
  | unknown_command
  | goodbye
deriving DecidableEq

/-- `print_ui`: the status screen with the values it formats. -/
def print_ui (g : Game) : Msg :=
  Msg.ui g.yarn g.kittens g.bowls (Double.of_int g.kittens * kitten_rate g) (kitten_cost g)
    (bowl_cost g)

/-- Bytes of `save.dat`: the complete blocks of `sizeof(Game)` bytes, each read
as the record it is the image of, and the number of bytes left after them. -/
structure SaveFile where
  records : List Game
  tail : Nat
deriving DecidableEq

/-- `save_game`: whether it returns true, and `save.dat` afterwards. The result
of `fclose` is not looked at, so when only the flush in `fclose` fails the
function returns true over a file that holds less than one record. -/
def save_game (g : Game) (d : Disk) (file : Option SaveFile) : Bool × Option SaveFile :=
  match d with
  | Disk.fopen_fails => (false, file)
  | Disk.fwrite_fails written => (false, some ⟨[], written⟩)
  | Disk.fclose_fails written => (true, some ⟨[], written⟩)
  | Disk.ok => (true, some ⟨[g], 0⟩)

/-- `load_game`: whether it returns true, and the caller's record afterwards. -/
def load_game (g : Game) (file : Option SaveFile) : Bool × Game :=
  match file with
  | none => (false, g)
  | some f =>
    match f.records with
    | [] => (false, g)
    | tmp :: _ => (true, tmp)

/-- Case `g`/`G` of the switch. -/
def gather (g : Game) : Game × Msg :=
  ({ g with yarn := g.yarn + 1.0 }, Msg.gathered)

/-- Case `b`/`B` of the switch. -/
def buy_kitten (g : Game) : Game × Msg :=
  let cost := kitten_cost g
  if Double.ge g.yarn cost then
    let g1 := { g with yarn := g.yarn - cost }
    let g2 := { g1 with kittens := int_add g1.kittens 1 }
    (g2, Msg.kitten_joins g2.kittens)
  else
    (g, Msg.not_enough_yarn)

/-- Case `u`/`U` of the switch. -/
def buy_bowl (g : Game) : Game × Msg :=
  let cost := bowl_cost g
  if Double.ge g.yarn cost then
    let g1 := { g with yarn := g.yarn - cost }
    let g2 := { g1 with bowls := int_add g1.bowls 1 }
    (g2, Msg.bought_bowl g2.bowls)
  else
    (g, Msg.not_enough_yarn)

/-- What the loop owns: the record, `save.dat` and what was printed so far. -/
structure World where
  g : Game
  file : Option SaveFile
  out : List Msg
deriving DecidableEq

/-- The switch on `cmd` of the loop body. The boolean is `running`: false for
`q`/`Q` only, where the `continue` skips the ticks and leaves the loop. -/
def switch_cmd (cmd : Char) (d : Disk) (w : World) : World × Bool :=
  if cmd = 'g' ∨ cmd = 'G' then
    ({ w with g := (gather w.g).1, out := w.out ++ [(gather w.g).2] }, true)
  else if cmd = 'b' ∨ cmd = 'B' then
    ({ w with g := (buy_kitten w.g).1, out := w.out ++ [(buy_kitten w.g).2] }, true)
  else if cmd = 'u' ∨ cmd = 'U' then
    ({ w with g := (buy_bowl w.g).1, out := w.out ++ [(buy_bowl w.g).2] }, true)
  else if cmd = 's' ∨ cmd = 'S' then
    if (save_game w.g d w.file).1 then
      ({ w with file := (save_game w.g d w.file).2, out := w.out ++ [Msg.saved] }, true)
    else
      ({ w with file := (save_game w.g d w.file).2, out := w.out ++ [Msg.save_failed] }, true)
  else if cmd = 'l' ∨ cmd = 'L' then
    if (load_game w.g w.file).1 then
      ({ w with g := (load_game w.g w.file).2, out := w.out ++ [Msg.loaded] }, true)
    else
      ({ w with g := (load_game w.g w.file).2, out := w.out ++ [Msg.load_failed] }, true)
  else if cmd = 'q' ∨ cmd = 'Q' then
    (w, false)
  else
    ({ w with out := w.out ++ [Msg.unknown_command] }, true)

/-- `dt`: seconds per tick, `tick_ms / 1000.0`. -/
def dt : Double := Double.of_int tick_ms / 1000.0

/-- Body of the tick loop: `rate = g.kittens * kitten_rate(&g); g.yarn += rate * dt`. -/
def tick (g : Game) : Game :=
  let rate : Double := Double.of_int g.kittens * kitten_rate g
  { g with yarn := g.yarn + rate * dt }

/-- The tick loop run `n` times (`n` is 5 in the program). -/
def ticks : Nat → Game → Game
  | 0, g => g
  | n + 1, g => ticks n (tick g)

/-- One pass through the body of the loop after a successful `fgets`:
the status screen, the switch and, unless the command quits, the five ticks. -/
def iteration (i : Input) (w : World) : World × Bool :=
  let w1 := { w with out := w.out ++ [print_ui w.g] }
  let r := switch_cmd (first_char i.buf) i.disk w1
  if r.2 then ({ r.1 with g := ticks 5 r.1.g }, true) else (r.1, false)

/-- The loop `while (running)`: it ends when `fgets` returns NULL (after the
status screen was printed) or on a quit command. -/
def game_loop : List Input → World → World
  | [], w => { w with out := w.out ++ [print_ui w.g] }
  | i :: rest, w =>
    if (iteration i w).2 then game_loop rest (iteration i w).1 else (iteration i w).1

/-- The record `main` starts from. -/
def initial : Game :=
  { yarn := 0.0, kittens := 0, bowls := 0, kitten_base_rate := 0.5 }

/-- `main`: the exit code and the final world, from the standard input and the
`save.dat` found at start. -/
def main (stdin : List Input) (file : Option SaveFile) : Int × World :=
  let w := game_loop stdin { g := initial, file := file, out := [] }
  (0, { w with out := w.out ++ [Msg.goodbye] })

end Machine

namespace Machine

/-! ### Records that stay in range -/

/-- The record has yarn that is `>= 0` (so not a NaN), a base rate that is
`>= 0`, finite and at most `2^900`, and counters that are not negative and stay
within `int` for `n` more purchases. -/
def safe_record (n : Nat) (r : Game) : Prop :=
  Double.nonneg r.yarn ∧
  Double.nonneg r.kitten_base_rate ∧ Double.within 1974 r.kitten_base_rate ∧
  0 ≤ r.kittens ∧ r.kittens + (n : Int) ≤ INT_MAX ∧
  0 ≤ r.bowls ∧ r.bowls + (n : Int) ≤ INT_MAX

instance (n : Nat) (r : Game) : Decidable (safe_record n r) := by
  unfold safe_record
  infer_instance

/-- The record a `load_game` would read from the file, if there is one, is a
`safe_record`. -/
def safe_file (n : Nat) (file : Option SaveFile) : Prop :=
  match file with
  | none => True
  | some f =>
    match f.records with
    | [] => True
    | r :: _ => safe_record n r

instance (n : Nat) (file : Option SaveFile) : Decidable (safe_file n file) := by
  unfold safe_file
  split
  · infer_instance
  · split <;> infer_instance

/-- The total passive rate as the program computes it for the status screen
and in each tick: `g.kittens * kitten_rate(&g)`. -/
def passive_rate (g : Game) : Double := Double.of_int g.kittens * kitten_rate g

/-- The record a `load_game` would read from the file, if there is one, has
the base rate 0.5 of the initial record. -/
def half_rate_file (file : Option SaveFile) : Prop :=
  match file with
  | none => True
  | some f =>
    match f.records with
    | [] => True
    | r :: _ => r.kitten_base_rate = 0.5

instance (file : Option SaveFile) : Decidable (half_rate_file file) := by
  unfold half_rate_file
  split
  · infer_instance
  · split <;> infer_instance

/-- The switch applied to each character of a list in turn, with no ticks in
between: the command handlers in sequence. -/
def handlers (cmds : List Char) (w : World) : World :=
  cmds.foldl (fun v c => (switch_cmd c Disk.ok v).1) w

/-! ### Sample states -/

/-- The start of a game with no save file. -/
def start : World := { g := initial, file := none, out := [] }

/-- A game with three kittens, two bowls and the yarn for a kitten and for a
bowl, and no save file. -/
def wealthy : World :=
  { g := { yarn := 100.0, kittens := 3, bowls := 2, kitten_base_rate := 0.5 },
    file := none, out := [] }

/-- A record with the largest number of kittens an `int` holds and the yarn
for one more. -/
def full_house : Game :=
  { yarn := 1e10, kittens := INT_MAX, bowls := 0, kitten_base_rate := 0.5 }

/-- A record with so much yarn that the cost of a kitten is below the spacing
of the binary64 values around it. -/
def hoard : Game :=
  { yarn := 1e17, kittens := 0, bowls := 0, kitten_base_rate := 0.5 }

/-- A save file of the right length whose record has negative yarn, kittens and
bowls. -/
def garbage : SaveFile :=
  { records := [{ yarn := Double.neg 5.0, kittens := -1, bowls := -1, kitten_base_rate := 0.5 }],
    tail := 0 }

/-- A record with no kittens, four bowls and a base rate so large that the rate
of a kitten overflows. -/
def overflowing_record : Game :=
  { yarn := 0.0, kittens := 0, bowls := 4, kitten_base_rate := 1e308 }

/-- A save file of the right length that holds `overflowing_record`. -/
def overflowing : SaveFile := { records := [overflowing_record], tail := 0 }

/-- A record with three kittens, one bowl, the base rate 0.1 and the yarn for
a bowl. -/
def tenth_rate : Game :=
  { yarn := 100.0, kittens := 3, bowls := 1, kitten_base_rate := 0.1 }

/-- A save file with one record that is in range. -/
def tidy : SaveFile :=
  { records := [{ yarn := 40.0, kittens := 2, bowls := 1, kitten_base_rate := 0.5 }],
    tail := 0 }

/-- The standard input of a short session: gather, load, buy a kitten. -/
def session : List Input :=
  [⟨['g', '\n'], Disk.ok⟩, ⟨['l', '\n'], Disk.ok⟩, ⟨['b', '\n'], Disk.ok⟩]

/-- A record with seven kittens. -/
def seven_kittens : Game :=
  { yarn := 24.0, kittens := 7, bowls := 0, kitten_base_rate := 0.5 }

/-- A record whose yarn is `2^53`, where the binary64 values are 2 apart. -/
def yarn_2_53 : Game :=
  { yarn := 9007199254740992.0, kittens := 0, bowls := 0, kitten_base_rate := 0.5 }

/-- A record with one kitten, the yarn for a bowl and the smallest positive
base rate. -/
def tiny_rate : Game :=
  { yarn := 25.0, kittens := 1, bowls := 0, kitten_base_rate := 5e-324 }

end Machine

/-! ## Purchases -/

theorem switch_buy_kitten (cmd : Char) (d : Disk) (w : World) (h : cmd = 'b' ∨ cmd = 'B') :
    switch_cmd cmd d w =
      ({ w with g := (buy_kitten w.g).1, out := w.out ++ [(buy_kitten w.g).2] }, true) := by
  rcases h with rfl | rfl <;> simp [switch_cmd]

theorem switch_buy_bowl (cmd : Char) (d : Disk) (w : World) (h : cmd = 'u' ∨ cmd = 'U') :
    switch_cmd cmd d w =
      ({ w with g := (buy_bowl w.g).1, out := w.out ++ [(buy_bowl w.g).2] }, true) := by
  rcases h with rfl | rfl <;> simp [switch_cmd]

theorem buy_kitten_poor (g : Game) (h : g.yarn < kitten_cost g) :
    buy_kitten g = (g, Msg.not_enough_yarn) := by
  simp [buy_kitten, not_le.mpr h]

theorem buy_bowl_poor (g : Game) (h : g.yarn < bowl_cost g) :
    buy_bowl g = (g, Msg.not_enough_yarn) := by
  simp [buy_bowl, not_le.mpr h]

theorem buy_kitten_rich (g : Game) (h : g.yarn ≥ kitten_cost g) :
    buy_kitten g =
      ({ g with yarn := g.yarn - kitten_cost g, kittens := int_add g.kittens 1 },
        Msg.kitten_joins (int_add g.kittens 1)) := by
  simp [buy_kitten, ge_iff_le.mp h]

theorem buy_bowl_rich (g : Game) (h : g.yarn ≥ bowl_cost g) :
    buy_bowl g =
      ({ g with yarn := g.yarn - bowl_cost g, bowls := int_add g.bowls 1 },
        Msg.bought_bowl (int_add g.bowls 1)) := by
  simp [buy_bowl, ge_iff_le.mp h]

theorem int_add_one (n : Int) (lo : INT_MIN ≤ n) (hi : n < INT_MAX) : int_add n 1 = n + 1 := by
  unfold int_add
  unfold INT_MIN at *
  unfold INT_MAX at hi
  omega

/-- C1: a purchase command (`b`/`B` for a kitten, `u`/`U` for a bowl) given
when yarn is strictly below the current cost of the item leaves the record
(yarn, kittens, bowls, kitten_base_rate) and the save file as they were, prints
"Not enough yarn." and lets the loop go on. -/
theorem purchase_rejected (cmd : Char) (d : Disk) (w : World)
    (h : ((cmd = 'b' ∨ cmd = 'B') ∧ w.g.yarn < kitten_cost w.g) ∨
         ((cmd = 'u' ∨ cmd = 'U') ∧ w.g.yarn < bowl_cost w.g)) :
    (switch_cmd cmd d w).1.g = w.g ∧
    (switch_cmd cmd d w).1.file = w.file ∧
    (switch_cmd cmd d w).1.out = w.out ++ [Msg.not_enough_yarn] ∧
    (switch_cmd cmd d w).2 = true := by
  rcases h with ⟨hc, hy⟩ | ⟨hc, hy⟩
  · rw [switch_buy_kitten cmd d w hc, buy_kitten_poor w.g hy]
    exact ⟨rfl, rfl, rfl, rfl⟩
  · rw [switch_buy_bowl cmd d w hc, buy_bowl_poor w.g hy]
    exact ⟨rfl, rfl, rfl, rfl⟩

theorem purchase_rejected_witness :
    (switch_cmd 'b' Disk.ok start).1.g = start.g ∧
    (switch_cmd 'b' Disk.ok start).1.file = start.file ∧
    (switch_cmd 'b' Disk.ok start).1.out = start.out ++ [Msg.not_enough_yarn] ∧
    (switch_cmd 'b' Disk.ok start).2 = true :=
  purchase_rejected 'b' Disk.ok start
    (Or.inl ⟨Or.inl rfl, by norm_num [start, initial, kitten_cost]⟩)

/-! ## What the ticks leave alone -/

theorem ticks_kittens (n : Nat) (g : Game) : (ticks n g).kittens = g.kittens := by
  induction n generalizing g with
  | zero => rfl
  | succ n ih => exact ih (tick g)

theorem ticks_bowls (n : Nat) (g : Game) : (ticks n g).bowls = g.bowls := by
  induction n generalizing g with
  | zero => rfl
  | succ n ih => exact ih (tick g)

theorem ticks_base_rate (n : Nat) (g : Game) :
    (ticks n g).kitten_base_rate = g.kitten_base_rate := by
  induction n generalizing g with
  | zero => rfl
  | succ n ih => exact ih (tick g)

/-! ## Counters across a pass of the loop -/

theorem iteration_kittens (i : Input) (w : World) :
    (iteration i w).1.g.kittens =
      (switch_cmd (first_char i.buf) i.disk { w with out := w.out ++ [print_ui w.g] }).1.g.kittens := by
  unfold iteration
  dsimp only
  split_ifs
  · exact ticks_kittens 5 _
  · rfl

theorem iteration_bowls (i : Input) (w : World) :
    (iteration i w).1.g.bowls =
      (switch_cmd (first_char i.buf) i.disk { w with out := w.out ++ [print_ui w.g] }).1.g.bowls := by
  unfold iteration
  dsimp only
  split_ifs
  · exact ticks_bowls 5 _
  · rfl

theorem buy_kitten_counters (g : Game) (lo : INT_MIN ≤ g.kittens) (hi : g.kittens < INT_MAX) :
    g.kittens ≤ (buy_kitten g).1.kittens ∧ (buy_kitten g).1.bowls = g.bowls := by
  by_cases hy : g.yarn ≥ kitten_cost g
  · rw [buy_kitten_rich g hy]
    refine ⟨?_, rfl⟩
    show g.kittens ≤ int_add g.kittens 1
    rw [int_add_one g.kittens lo hi]
    omega
  · rw [buy_kitten_poor g (not_le.mp hy)]
    exact ⟨le_refl _, rfl⟩

theorem buy_bowl_counters (g : Game) (lo : INT_MIN ≤ g.bowls) (hi : g.bowls < INT_MAX) :
    (buy_bowl g).1.kittens = g.kittens ∧ g.bowls ≤ (buy_bowl g).1.bowls := by
  by_cases hy : g.yarn ≥ bowl_cost g
  · rw [buy_bowl_rich g hy]
    refine ⟨rfl, ?_⟩
    show g.bowls ≤ int_add g.bowls 1
    rw [int_add_one g.bowls lo hi]
    omega
  · rw [buy_bowl_poor g (not_le.mp hy)]
    exact ⟨rfl, le_refl _⟩

theorem load_game_failed (g : Game) (file : Option SaveFile)
    (h : (load_game g file).1 = false) : (load_game g file).2 = g := by
  unfold load_game at *
  split
  · rfl
  · split
    · rfl
    · rename_i hr
      simp [hr] at h

/-- C4, as stated, fails: with three kittens and two bowls in memory and a
record of two kittens and one bowl on file, the command load lowers both
counters. And with 2147483647 kittens and the yarn for one more, the command
buy-kitten lowers kittens. -/
theorem load_lowers_counters :
    ((iteration ⟨['l', '\n'], Disk.ok⟩ saved_earlier).1.g.kittens < saved_earlier.g.kittens ∧
      (iteration ⟨['l', '\n'], Disk.ok⟩ saved_earlier).1.g.bowls < saved_earlier.g.bowls) ∧
    (iteration ⟨['b', '\n'], Disk.ok⟩ ⟨full_house, none, []⟩).1.g.kittens < full_house.kittens := by
  rw [iteration_kittens, iteration_bowls, iteration_kittens]
  constructor
  · simp [first_char, switch_cmd, load_game, saved_earlier, wealthy, tidy]
  · have hy : full_house.yarn ≥ kitten_cost full_house := by
      norm_num [full_house, kitten_cost, INT_MAX]
    simp [first_char, switch_cmd, buy_kitten_rich _ hy]
    decide

/-- C4 (amended): one pass of the loop body (the command and the ticks after
it) never lowers kittens or bowls, provided the command is not a load that
succeeds and, when it buys a kitten (a bowl), the kittens (bowls) counter is an
`int` below INT_MAX. A load that succeeds replaces both counters by those of
the record on file, which may be lower. -/
theorem counters_never_drop (i : Input) (w : World)
    (hl : (first_char i.buf = 'l' ∨ first_char i.buf = 'L') → (load_game w.g w.file).1 = false)
    (hk : (first_char i.buf = 'b' ∨ first_char i.buf = 'B') →
      INT_MIN ≤ w.g.kittens ∧ w.g.kittens < INT_MAX)
    (hb : (first_char i.buf = 'u' ∨ first_char i.buf = 'U') →
      INT_MIN ≤ w.g.bowls ∧ w.g.bowls < INT_MAX) :
    w.g.kittens ≤ (iteration i w).1.g.kittens ∧ w.g.bowls ≤ (iteration i w).1.g.bowls := by
  rw [iteration_kittens, iteration_bowls]
  unfold switch_cmd
  split_ifs with c1 c2 c3 c4 c5 c6 c7 c8
  · exact ⟨le_refl _, le_refl _⟩
  · have h := buy_kitten_counters w.g (hk c2).1 (hk c2).2
    exact ⟨h.1, le_of_eq h.2.symm⟩
  · have h := buy_bowl_counters w.g (hb c3).1 (hb c3).2
    exact ⟨le_of_eq h.1.symm, h.2⟩
  · exact ⟨le_refl _, le_refl _⟩
  · exact ⟨le_refl _, le_refl _⟩
  · have h := hl c6
    simp [h] at c7
  · have h := load_game_failed w.g w.file (hl c6)
    dsimp only
    rw [h]
    exact ⟨le_refl _, le_refl _⟩
  · exact ⟨le_refl _, le_refl _⟩
  · exact ⟨le_refl _, le_refl _⟩

theorem counters_never_drop_witness :
    wealthy.g.kittens ≤ (iteration ⟨['b', '\n'], Disk.ok⟩ wealthy).1.g.kittens ∧
    wealthy.g.bowls ≤ (iteration ⟨['b', '\n'], Disk.ok⟩ wealthy).1.g.bowls :=
  counters_never_drop ⟨['b', '\n'], Disk.ok⟩ wealthy
    (by simp [first_char]) (fun _ => by decide) (by simp [first_char])

/-! ## The save file -/

/-- C6: when `save.dat` cannot be opened or holds less than one full record,
`load_game` returns false and the record in memory is unchanged, and the load
command prints the failure and changes neither the record nor the file. The
record is replaced only by a full record read from the file: `load_game`
returns either false with the record unchanged or true with the first record
of the file. -/
theorem load_rejected (g : Game) (file : Option SaveFile) :
    ((file = none ∨ ∃ f, file = some f ∧ f.records = []) →
      load_game g file = (false, g) ∧
      ∀ (cmd : Char) (d : Disk) (out : List Msg), cmd = 'l' ∨ cmd = 'L' →
        switch_cmd cmd d ⟨g, file, out⟩ = (⟨g, file, out ++ [Msg.load_failed]⟩, true)) ∧
    (load_game g file = (false, g) ∨
      ∃ f r rest, file = some f ∧ f.records = r :: rest ∧ load_game g file = (true, r)) := by
  constructor
  · intro h
    have e : load_game g file = (false, g) := by
      rcases h with rfl | ⟨f, rfl, hf⟩
      · rfl
      · simp [load_game, hf]
    refine ⟨e, ?_⟩
    intro cmd d out hc
    rcases hc with rfl | rfl <;> simp [switch_cmd, e]
  · cases file with
    | none => exact Or.inl rfl
    | some f =>
      cases hr : f.records with
      | nil => exact Or.inl (by simp [load_game, hr])
      | cons r rest => exact Or.inr ⟨f, r, rest, rfl, hr, by simp [load_game, hr]⟩

theorem load_rejected_witness :
    load_game wealthy.g none = (false, wealthy.g) ∧
    switch_cmd 'l' Disk.ok ⟨wealthy.g, none, []⟩ = (⟨wealthy.g, none, [Msg.load_failed]⟩, true) :=
  ⟨((load_rejected wealthy.g none).1 (Or.inl rfl)).1,
    ((load_rejected wealthy.g none).1 (Or.inl rfl)).2 'l' Disk.ok [] (Or.inl rfl)⟩

/-! ## The economy -/

/-- C8: the cost of a bowl is 25 + 10 * bowls (25, 35, 45 with 0, 1, 2 bowls),
and it is strictly increasing in the number of bowls. -/
theorem bowl_cost_formula (g g2 : Game) :
    bowl_cost g = 25 + 10 * (g.bowls : ℚ) ∧
    (g.bowls = 0 → bowl_cost g = 25) ∧
    (g.bowls = 1 → bowl_cost g = 35) ∧
    (g.bowls = 2 → bowl_cost g = 45) ∧
    (g.bowls < g2.bowls → bowl_cost g < bowl_cost g2) := by
  have e : bowl_cost g = 25 + 10 * (g.bowls : ℚ) := by
    unfold bowl_cost
    norm_num
  refine ⟨e, ?_, ?_, ?_, ?_⟩
  · intro h
    rw [e, h]
    norm_num
  · intro h
    rw [e, h]
    norm_num
  · intro h
    rw [e, h]
    norm_num
  · intro h
    have hq : (g.bowls : ℚ) < (g2.bowls : ℚ) := by exact_mod_cast h
    unfold bowl_cost
    norm_num
    linarith

theorem bowl_cost_formula_witness :
    bowl_cost initial = 25 ∧ bowl_cost wealthy.g = 45 ∧
    bowl_cost initial < bowl_cost wealthy.g :=
  ⟨(bowl_cost_formula initial wealthy.g).2.1 rfl,
    (bowl_cost_formula wealthy.g initial).2.2.2.1 rfl,
    (bowl_cost_formula initial wealthy.g).2.2.2.2 (by decide)⟩

/-! ## Passive income -/

theorem tick_rate (g : Game) :
    ((tick g).kittens : ℚ) * kitten_rate (tick g) = (g.kittens : ℚ) * kitten_rate g := rfl

theorem ticks_rate (n : Nat) (g : Game) :
    ((ticks n g).kittens : ℚ) * kitten_rate (ticks n g) = (g.kittens : ℚ) * kitten_rate g := by
  induction n generalizing g with
  | zero => rfl
  | succ n ih => exact (ih (tick g)).trans (tick_rate g)

theorem ticks_yarn (n : Nat) (g : Game) :
    (ticks n g).yarn = g.yarn + (n : ℚ) * ((g.kittens : ℚ) * kitten_rate g * dt) := by
  induction n generalizing g with
  | zero => simp [ticks]
  | succ n ih =>
    show (ticks n (tick g)).yarn = _
    rw [ih (tick g), tick_rate g]
    show g.yarn + (g.kittens : ℚ) * kitten_rate g * dt + _ = _
    push_cast
    ring

theorem switch_cmd_running (cmd : Char) (d : Disk) (w : World) (h : cmd ≠ 'q' ∧ cmd ≠ 'Q') :
    (switch_cmd cmd d w).2 = true := by
  unfold switch_cmd
  split_ifs with c1 c2 c3 c4 c5 c6 c7 c8
  all_goals first
    | rfl
    | (rcases c8 with c | c
       · exact absurd c h.1
       · exact absurd c h.2)

/-- C10: a tick adds (kittens * kitten_rate) * 0.1 to yarn and changes no other
field. On a line that is not a quit command, one pass of the loop body gives
what the switch gives (after the status screen is printed), with kittens, bowls
and kitten_base_rate as the command left them and yarn increased, in exact
arithmetic, by 0.5 * kittens * kitten_base_rate * (1 + 0.25 * bowls) computed
from those values: five ticks of 0.1 s. The loop then goes on. -/
theorem five_ticks_after_command (i : Input) (w : World)
    (h : first_char i.buf ≠ 'q' ∧ first_char i.buf ≠ 'Q') :
    (∀ g : Game, tick g = { g with yarn := g.yarn + ((g.kittens : ℚ) * kitten_rate g) * 0.1 }) ∧
    (iteration i w).2 = true ∧
    (iteration i w).1.file =
      (switch_cmd (first_char i.buf) i.disk { w with out := w.out ++ [print_ui w.g] }).1.file ∧
    (iteration i w).1.out =
      (switch_cmd (first_char i.buf) i.disk { w with out := w.out ++ [print_ui w.g] }).1.out ∧
    (iteration i w).1.g =
      (let g1 :=
        (switch_cmd (first_char i.buf) i.disk { w with out := w.out ++ [print_ui w.g] }).1.g
       { g1 with yarn := g1.yarn +
          0.5 * (g1.kittens : ℚ) * g1.kitten_base_rate * (1 + 0.25 * (g1.bowls : ℚ)) }) := by
  have hr := switch_cmd_running (first_char i.buf) i.disk
    { w with out := w.out ++ [print_ui w.g] } h
  refine ⟨?_, ?_, ?_, ?_, ?_⟩
  · intro g
    show { g with yarn := g.yarn + (g.kittens : ℚ) * kitten_rate g * dt } = _
    norm_num [dt, tick_ms]
  · unfold iteration
    dsimp only
    rw [if_pos hr]
  · unfold iteration
    dsimp only
    rw [if_pos hr]
  · unfold iteration
    dsimp only
    rw [if_pos hr]
  · unfold iteration
    dsimp only
    rw [if_pos hr]
    dsimp only
    generalize (switch_cmd (first_char i.buf) i.disk
      { g := w.g, file := w.file, out := w.out ++ [print_ui w.g] }).1.g = g1
    have hy := ticks_yarn 5 g1
    have hk := ticks_kittens 5 g1
    have hb := ticks_bowls 5 g1
    have hbr := ticks_base_rate 5 g1
    cases hg : ticks 5 g1 with
    | mk y k b r =>
      rw [hg] at hy hk hb hbr
      simp only at hy hk hb hbr
      subst hk hb hbr
      rw [hy]
      congr 1
      unfold kitten_rate
      norm_num [dt, tick_ms]
      ring

theorem five_ticks_after_command_witness :
    (iteration ⟨['g', '\n'], Disk.ok⟩ wealthy).2 = true ∧
    (iteration ⟨['g', '\n'], Disk.ok⟩ wealthy).1.g =
      { yarn := 101 + 9 / 8, kittens := 3, bowls := 2, kitten_base_rate := 0.5 } := by
  have h := five_ticks_after_command ⟨['g', '\n'], Disk.ok⟩ wealthy (by decide)
  refine ⟨h.2.1, ?_⟩
  rw [h.2.2.2.2]
  simp [first_char, switch_cmd, gather, wealthy]
  norm_num

/-! ## The dispatch on the first character -/

theorem fgets_first_char (n : Nat) (c : Char) (s : List Char) :
    ∃ b r, fgets (n + 2) (c :: s) = some (b, r) ∧ first_char b = c := by
  refine ⟨(fgets_read (n + 1) (c :: s)).1, (fgets_read (n + 1) (c :: s)).2, rfl, ?_⟩
  unfold fgets_read
  split_ifs <;> rfl

theorem switch_default (cmd : Char) (d : Disk) (w : World) (h : cmd ∉ command_chars) :
    switch_cmd cmd d w = ({ w with out := w.out ++ [Msg.unknown_command] }, true) := by
  simp only [command_chars, List.mem_cons, List.mem_singleton, not_or, List.mem_nil_iff,
    not_false_eq_true, and_true] at h
  obtain ⟨h1, h2, h3, h4, h5, h6, h7, h8, h9, h10, h11, h12⟩ := h
  simp [switch_cmd, h1, h2, h3, h4, h5, h6, h7, h8, h9, h10, h11, h12]

theorem switch_gather (cmd : Char) (d : Disk) (w : World) (h : cmd = 'g' ∨ cmd = 'G') :
    switch_cmd cmd d w =
      ({ w with g := (gather w.g).1, out := w.out ++ [(gather w.g).2] }, true) := by
  rcases h with rfl | rfl <;> simp [switch_cmd]

theorem switch_load (cmd : Char) (d : Disk) (w : World) (h : cmd = 'l' ∨ cmd = 'L') :
    switch_cmd cmd d w =
      ({ w with g := (load_game w.g w.file).2,
                out := w.out ++ [if (load_game w.g w.file).1 then Msg.loaded
                                 else Msg.load_failed] }, true) := by
  rcases h with rfl | rfl <;> simp [switch_cmd] <;> split_ifs <;> rfl

theorem switch_quit (cmd : Char) (d : Disk) (w : World) (h : cmd = 'q' ∨ cmd = 'Q') :
    switch_cmd cmd d w = (w, false) := by
  rcases h with rfl | rfl <;> simp [switch_cmd]

/-- C11: when the first character of the line to be read is none of g, G, b,
B, u, U, s, S, l, L, q, Q (a line that is only a newline and a line that starts
with a space included), `fgets` stores a buffer on whose first character the
switch takes the default case: it prints "Unknown command." and changes
neither the record (yarn, kittens, bowls, kitten_base_rate) nor the save
file, and the loop goes on. -/
theorem unknown_command_no_effect (c : Char) (s : List Char) (d : Disk) (w : World)
    (h : c ∉ command_chars) :
    ∃ b r, fgets 64 (c :: s) = some (b, r) ∧
      switch_cmd (first_char b) d w =
        ({ g := w.g, file := w.file, out := w.out ++ [Msg.unknown_command] }, true) := by
  obtain ⟨b, r, hb, hc⟩ := fgets_first_char 62 c s
  refine ⟨b, r, hb, ?_⟩
  rw [hc, switch_default c d w h]

theorem unknown_command_no_effect_witness :
    (∃ b r, fgets 64 ['\n'] = some (b, r) ∧
      switch_cmd (first_char b) Disk.ok wealthy =
        ({ g := wealthy.g, file := wealthy.file,
           out := wealthy.out ++ [Msg.unknown_command] }, true)) ∧
    (∃ b r, fgets 64 [' ', 'g', '\n'] = some (b, r) ∧
      switch_cmd (first_char b) Disk.ok wealthy =
        ({ g := wealthy.g, file := wealthy.file,
           out := wealthy.out ++ [Msg.unknown_command] }, true)) :=
  ⟨unknown_command_no_effect '\n' [] Disk.ok wealthy (by decide),
    unknown_command_no_effect ' ' ['g', '\n'] Disk.ok wealthy (by decide)⟩

/-! ## Scenarios -/

theorem handlers_append (a b : List Char) (w : World) :
    handlers (a ++ b) w = handlers b (handlers a w) := by
  simp [handlers, List.foldl_append]

theorem handlers_gather (n : Nat) (w : World) :
    (handlers (List.replicate n 'g') w).g = { w.g with yarn := w.g.yarn + (n : ℚ) } := by
  induction n generalizing w with
  | zero => simp [handlers]
  | succ n ih =>
    show (handlers (List.replicate n 'g') (switch_cmd 'g' Disk.ok w).1).g = _
    rw [ih, switch_gather 'g' Disk.ok w (Or.inl rfl)]
    have e : (1.0 : ℚ) = 1 := by norm_num
    simp [gather, e]
    ring

theorem handlers_buy_kitten (w : World) (h : w.g.yarn ≥ kitten_cost w.g)
    (lo : INT_MIN ≤ w.g.kittens) (hi : w.g.kittens < INT_MAX) :
    (handlers ['b'] w).g = { w.g with yarn := w.g.yarn - kitten_cost w.g,
                                      kittens := w.g.kittens + 1 } := by
  show (switch_cmd 'b' Disk.ok w).1.g = _
  rw [switch_buy_kitten 'b' Disk.ok w (Or.inl rfl), buy_kitten_rich w.g h,
    int_add_one w.g.kittens lo hi]

/-- C13: from the initial state, with the command handlers applied in sequence
(no ticks in between): after 10 gathers yarn is 10 and a kitten costs 10; the
purchase leaves yarn 0 and 1 kitten; after 15 more gathers yarn is 15 and a
kitten costs 12; the purchase leaves yarn 3 and 2 kittens; bowls is 0 and
kitten_base_rate 0.5 throughout. -/
theorem scenario_two_purchases :
    (handlers (List.replicate 10 'g') start).g =
      { yarn := 10, kittens := 0, bowls := 0, kitten_base_rate := 0.5 } ∧
    kitten_cost (handlers (List.replicate 10 'g') start).g = 10 ∧
    (handlers (List.replicate 10 'g' ++ ['b']) start).g =
      { yarn := 0, kittens := 1, bowls := 0, kitten_base_rate := 0.5 } ∧
    (handlers (List.replicate 10 'g' ++ ['b'] ++ List.replicate 15 'g') start).g =
      { yarn := 15, kittens := 1, bowls := 0, kitten_base_rate := 0.5 } ∧
    kitten_cost (handlers (List.replicate 10 'g' ++ ['b'] ++ List.replicate 15 'g') start).g
      = 12 ∧
    (handlers (List.replicate 10 'g' ++ ['b'] ++ List.replicate 15 'g' ++ ['b']) start).g =
      { yarn := 3, kittens := 2, bowls := 0, kitten_base_rate := 0.5 } := by
  have e1 : (handlers (List.replicate 10 'g') start).g =
      { yarn := 10, kittens := 0, bowls := 0, kitten_base_rate := 0.5 } := by
    rw [handlers_gather]
    norm_num [start, initial]
  have c1 : kitten_cost (handlers (List.replicate 10 'g') start).g = 10 := by
    rw [e1]
    norm_num [kitten_cost]
  have e2 : (handlers (List.replicate 10 'g' ++ ['b']) start).g =
      { yarn := 0, kittens := 1, bowls := 0, kitten_base_rate := 0.5 } := by
    rw [handlers_append, handlers_buy_kitten _ (by rw [c1, e1]) (by rw [e1]; decide)
      (by rw [e1]; decide), c1, e1]
    norm_num
  have e3 : (handlers (List.replicate 10 'g' ++ ['b'] ++ List.replicate 15 'g') start).g =
      { yarn := 15, kittens := 1, bowls := 0, kitten_base_rate := 0.5 } := by
    rw [handlers_append, handlers_gather, e2]
    norm_num
  have c3 : kitten_cost
      (handlers (List.replicate 10 'g' ++ ['b'] ++ List.replicate 15 'g') start).g = 12 := by
    rw [e3]
    norm_num [kitten_cost]
  refine ⟨e1, c1, e2, e3, c3, ?_⟩
  rw [handlers_append, handlers_buy_kitten _ (by rw [c3, e3]; norm_num) (by rw [e3]; decide)
    (by rw [e3]; decide), c3, e3]
  norm_num

/-- C14: with 2 kittens, 1 bowl and the base rate 0.5, whatever the yarn, the
rate of a kitten is 0.5 * 1.25 = 0.625, the total passive rate
kittens * kitten_rate is 1.25, and one tick of 0.1 s adds exactly 0.125 to yarn
and changes nothing else. -/
theorem scenario_one_tick (y : ℚ) :
    kitten_rate (two_kittens_one_bowl y) = 0.5 * 1.25 ∧
    kitten_rate (two_kittens_one_bowl y) = 0.625 ∧
    ((two_kittens_one_bowl y).kittens : ℚ) * kitten_rate (two_kittens_one_bowl y) = 1.25 ∧
    dt = 0.1 ∧
    tick (two_kittens_one_bowl y) = two_kittens_one_bowl (y + 0.125) := by
  refine ⟨?_, ?_, ?_, ?_, ?_⟩
  · norm_num [kitten_rate, two_kittens_one_bowl]
  · norm_num [kitten_rate, two_kittens_one_bowl]
  · norm_num [kitten_rate, two_kittens_one_bowl]
  · norm_num [dt, tick_ms]
  · norm_num [tick, kitten_rate, two_kittens_one_bowl, dt, tick_ms]

/-! ## Quitting, and the case of the letter -/

theorem iteration_quit (i : Input) (w : World)
    (h : first_char i.buf = 'q' ∨ first_char i.buf = 'Q') :
    iteration i w = ({ w with out := w.out ++ [print_ui w.g] }, false) := by
  unfold iteration
  dsimp only
  rw [switch_quit _ _ _ h]
  simp

theorem game_loop_quit (pre rest : List Input) (i : Input) (w : World)
    (h : first_char i.buf = 'q' ∨ first_char i.buf = 'Q') :
    game_loop (pre ++ i :: rest) w = game_loop (pre ++ [i]) w := by
  induction pre generalizing w with
  | nil =>
    show game_loop (i :: rest) w = game_loop [i] w
    unfold game_loop
    rw [iteration_quit i w h]
    simp
  | cons j pre ih =>
    show game_loop (j :: (pre ++ i :: rest)) w = game_loop (j :: (pre ++ [i])) w
    unfold game_loop
    split_ifs
    · exact ih _
    · rfl

/-- C15: when the line to be read starts with `q` or `Q`, the pass of the loop
on the buffer `fgets` stores prints the status screen and nothing else: the
record (yarn, kittens, bowls, kitten_base_rate) and the save file are
unchanged, no tick is applied, and `running` is false. The loop ends there
whatever input follows, so no further line is read, and the program, as on
every input, returns the exit code 0. -/
theorem quit_ends_loop (c : Char) (s : List Char) (d : Disk) (w : World)
    (h : c = 'q' ∨ c = 'Q') :
    ∃ b r, fgets 64 (c :: s) = some (b, r) ∧
      iteration ⟨b, d⟩ w =
        ({ g := w.g, file := w.file, out := w.out ++ [print_ui w.g] }, false) ∧
      (∀ rest : List Input, game_loop (⟨b, d⟩ :: rest) w =
        { g := w.g, file := w.file, out := w.out ++ [print_ui w.g] }) ∧
      (∀ (pre rest : List Input) (file : Option SaveFile),
        main (pre ++ ⟨b, d⟩ :: rest) file = main (pre ++ [⟨b, d⟩]) file) ∧
      (∀ (stdin : List Input) (file : Option SaveFile), (main stdin file).1 = 0) := by
  obtain ⟨b, r, hb, hc⟩ := fgets_first_char 62 c s
  have hq : first_char (Input.mk b d).buf = 'q' ∨ first_char (Input.mk b d).buf = 'Q' := by
    show first_char b = 'q' ∨ first_char b = 'Q'
    rw [hc]
    exact h
  refine ⟨b, r, hb, iteration_quit ⟨b, d⟩ w hq, ?_, ?_, ?_⟩
  · intro rest
    unfold game_loop
    rw [iteration_quit ⟨b, d⟩ w hq]
    simp
  · intro pre rest file
    unfold main
    rw [game_loop_quit pre rest ⟨b, d⟩ _ hq]
  · intro stdin file
    rfl

theorem quit_ends_loop_witness :
    ∃ b r, fgets 64 ['Q', 'g', '\n', 'g', '\n'] = some (b, r) ∧
      iteration ⟨b, Disk.ok⟩ wealthy =
        ({ g := wealthy.g, file := wealthy.file,
           out := wealthy.out ++ [print_ui wealthy.g] }, false) := by
  obtain ⟨b, r, hb, hi, -⟩ :=
    quit_ends_loop 'Q' ['g', '\n', 'g', '\n'] Disk.ok wealthy (Or.inr rfl)
  exact ⟨b, r, hb, hi⟩

theorem switch_same_letter (c1 c2 : Char) (d : Disk) (w : World) (h : same_letter c1 c2) :
    switch_cmd c1 d w = switch_cmd c2 d w := by
  rcases h with rfl | ⟨p, hp, h1, h2⟩
  · rfl
  · simp only [List.mem_cons, List.mem_singleton, List.mem_nil_iff, or_false] at hp
    rcases hp with rfl | rfl | rfl | rfl | rfl | rfl <;>
      rcases h1 with rfl | rfl <;> rcases h2 with rfl | rfl <;> simp [switch_cmd]

/-- C16: the command depends only on the first character of the line and not
on its case: for two inputs to be read whose first characters are equal, or
are the lower and upper case of one of g, b, u, s, l, q, whatever follows them,
the switch on the first character of the buffers `fgets` stores gives the same
world and the same `running`, and so does the whole pass of the loop. -/
theorem dispatch_on_first_char (c1 c2 : Char) (s1 s2 : List Char) (d : Disk) (w : World)
    (h : same_letter c1 c2) :
    ∃ b1 r1 b2 r2, fgets 64 (c1 :: s1) = some (b1, r1) ∧ fgets 64 (c2 :: s2) = some (b2, r2) ∧
      switch_cmd (first_char b1) d w = switch_cmd (first_char b2) d w ∧
      iteration ⟨b1, d⟩ w = iteration ⟨b2, d⟩ w := by
  obtain ⟨b1, r1, hb1, hc1⟩ := fgets_first_char 62 c1 s1
  obtain ⟨b2, r2, hb2, hc2⟩ := fgets_first_char 62 c2 s2
  refine ⟨b1, r1, b2, r2, hb1, hb2, ?_, ?_⟩
  · rw [hc1, hc2]
    exact switch_same_letter c1 c2 d w h
  · unfold iteration
    dsimp only
    rw [hc1, hc2, switch_same_letter c1 c2 d _ h]

theorem dispatch_on_first_char_witness :
    ∃ b1 r1 b2 r2, fgets 64 ['g', '\n'] = some (b1, r1) ∧
      fgets 64 ['G', 'x', 'y', 'z', '\n'] = some (b2, r2) ∧
      switch_cmd (first_char b1) Disk.ok wealthy = switch_cmd (first_char b2) Disk.ok wealthy ∧
      iteration ⟨b1, Disk.ok⟩ wealthy = iteration ⟨b2, Disk.ok⟩ wealthy :=
  dispatch_on_first_char 'g' 'G' ['\n'] ['x', 'y', 'z', '\n'] Disk.ok wealthy (by decide)

/-! ## The base rate -/

theorem buy_kitten_base_rate (g : Game) :
    (buy_kitten g).1.kitten_base_rate = g.kitten_base_rate := by
  by_cases hy : g.yarn ≥ kitten_cost g
  · rw [buy_kitten_rich g hy]
  · rw [buy_kitten_poor g (not_le.mp hy)]

theorem buy_bowl_base_rate (g : Game) :
    (buy_bowl g).1.kitten_base_rate = g.kitten_base_rate := by
  by_cases hy : g.yarn ≥ bowl_cost g
  · rw [buy_bowl_rich g hy]
  · rw [buy_bowl_poor g (not_le.mp hy)]

theorem save_game_half_rate (g : Game) (d : Disk) (file : Option SaveFile)
    (hg : g.kitten_base_rate = 0.5) (hf : half_rate_file file) :
    half_rate_file (save_game g d file).2 := by
  cases d with
  | fopen_fails => exact hf
  | fwrite_fails written => simp [save_game, half_rate_file]
  | fclose_fails written => simp [save_game, half_rate_file]
  | ok => simpa [save_game, half_rate_file] using hg

theorem load_game_half_rate (g : Game) (file : Option SaveFile)
    (hg : g.kitten_base_rate = 0.5) (hf : half_rate_file file) :
    (load_game g file).2.kitten_base_rate = 0.5 := by
  unfold load_game
  unfold half_rate_file at hf
  split
  · exact hg
  · rename_i f
    split
    · exact hg
    · rename_i r rest hr
      simp only [hr] at hf
      exact hf

theorem switch_cmd_half_rate (cmd : Char) (d : Disk) (w : World)
    (hg : w.g.kitten_base_rate = 0.5) (hf : half_rate_file w.file) :
    (switch_cmd cmd d w).1.g.kitten_base_rate = 0.5 ∧
    half_rate_file (switch_cmd cmd d w).1.file := by
  unfold switch_cmd
  split_ifs
  · exact ⟨hg, hf⟩
  · exact ⟨(buy_kitten_base_rate w.g).trans hg, hf⟩
  · exact ⟨(buy_bowl_base_rate w.g).trans hg, hf⟩
  · exact ⟨hg, save_game_half_rate w.g d w.file hg hf⟩
  · exact ⟨hg, save_game_half_rate w.g d w.file hg hf⟩
  · exact ⟨load_game_half_rate w.g w.file hg hf, hf⟩
  · exact ⟨load_game_half_rate w.g w.file hg hf, hf⟩
  · exact ⟨hg, hf⟩
  · exact ⟨hg, hf⟩

theorem iteration_half_rate (i : Input) (w : World)
    (hg : w.g.kitten_base_rate = 0.5) (hf : half_rate_file w.file) :
    (iteration i w).1.g.kitten_base_rate = 0.5 ∧ half_rate_file (iteration i w).1.file := by
  have h := switch_cmd_half_rate (first_char i.buf) i.disk
    { w with out := w.out ++ [print_ui w.g] } hg hf
  unfold iteration
  dsimp only
  split_ifs
  · exact ⟨(ticks_base_rate 5 _).trans h.1, h.2⟩
  · exact h

theorem game_loop_half_rate (stdin : List Input) (w : World)
    (hg : w.g.kitten_base_rate = 0.5) (hf : half_rate_file w.file) :
    (game_loop stdin w).g.kitten_base_rate = 0.5 := by
  induction stdin generalizing w with
  | nil => exact hg
  | cons i rest ih =>
    have h := iteration_half_rate i w hg hf
    unfold game_loop
    split_ifs
    · exact ih _ h.1 h.2
    · exact h.1

/-- C17, as stated, fails: started with a save file whose record has the base
rate 2, the single command load leaves kitten_base_rate at 2, not 0.5. -/
theorem base_rate_loaded :
    (main [⟨['l', '\n'], Disk.ok⟩] (some foreign)).2.g.kitten_base_rate = 2 ∧
    (main [⟨['l', '\n'], Disk.ok⟩] (some foreign)).2.g.kitten_base_rate ≠ 0.5 := by
  have e : (main [⟨['l', '\n'], Disk.ok⟩] (some foreign)).2.g.kitten_base_rate = 2 := by
    simp [main, game_loop, iteration, first_char, switch_cmd, load_game, foreign,
      ticks_base_rate]
  refine ⟨e, ?_⟩
  rw [e]
  norm_num

/-- C17 (amended): no command and no tick assigns kitten_base_rate; only a load
that succeeds replaces it, by the value in the record read. So in every state
the loop reaches from the initial state kitten_base_rate is 0.5, provided the
save file found at start is absent, shorter than one record, or starts with a
record whose kitten_base_rate is 0.5. -/
theorem base_rate_fixed (stdin : List Input) (file : Option SaveFile)
    (hf : half_rate_file file) :
    (main stdin file).2.g.kitten_base_rate = 0.5 := by
  have h0 : initial.kitten_base_rate = 0.5 := rfl
  exact game_loop_half_rate stdin { g := initial, file := file, out := [] } h0 hf

theorem base_rate_fixed_witness :
    (main session (some tidy)).2.g.kitten_base_rate = 0.5 :=
  base_rate_fixed session (some tidy) (by simp [half_rate_file, tidy])

/-! ## The cost of the first kittens -/

/-- C18 fails on the code: with 0, 1, 2, 3 kittens `kitten_cost` returns 10,
12, 14, 16 (10 + 2 * kittens), not the 10, 12, 15, 18 of the comment above the
function. -/
theorem kitten_cost_first_values (y r : ℚ) (b : Int) :
    kitten_cost { yarn := y, kittens := 0, bowls := b, kitten_base_rate := r } = 10 ∧
    kitten_cost { yarn := y, kittens := 1, bowls := b, kitten_base_rate := r } = 12 ∧
    kitten_cost { yarn := y, kittens := 2, bowls := b, kitten_base_rate := r } = 14 ∧
    kitten_cost { yarn := y, kittens := 3, bowls := b, kitten_base_rate := r } = 16 ∧
    kitten_cost { yarn := y, kittens := 2, bowls := b, kitten_base_rate := r } ≠ 15 ∧
    kitten_cost { yarn := y, kittens := 3, bowls := b, kitten_base_rate := r } ≠ 18 := by
  refine ⟨?_, ?_, ?_, ?_, ?_, ?_⟩ <;> norm_num [kitten_cost]

/-! ## Lines longer than the buffer -/

/-- A line of more than 63 characters takes more than one pass of the loop:
of the line `g`, 62 times `x`, `q`, newline, the first `fgets` stores the 63
characters up to the last `x`, dispatched as a gather, and the next one stores
`q` and the newline, dispatched as a quit. -/
theorem long_line_is_split :
    fgets 64 ('g' :: (List.replicate 62 'x' ++ ['q', '\n'])) =
      some ('g' :: List.replicate 62 'x', ['q', '\n']) ∧
    fgets 64 ['q', '\n'] = some (['q', '\n'], []) ∧
    (switch_cmd (first_char ('g' :: List.replicate 62 'x')) Disk.ok start).1.out =
      [Msg.gathered] ∧
    (switch_cmd (first_char ['q', '\n']) Disk.ok start).2 = false := by
  refine ⟨by decide, by decide, ?_, ?_⟩
  · show (switch_cmd 'g' Disk.ok start).1.out = [Msg.gathered]
    rw [switch_gather 'g' Disk.ok start (Or.inl rfl)]
    rfl
  · show (switch_cmd 'q' Disk.ok start).2 = false
    rw [switch_quit 'q' Disk.ok start (Or.inl rfl)]

/-! # Binary64 arithmetic

What the rounding of `Double` guarantees: bounds on the magnitude and on the
error of a result, and the cases in which a result is exact. -/

namespace Double

/-! ### Rounding to the nearest natural number -/

theorem rne_le (a b P : Nat) (hb : 0 < b) (h : a ≤ P * b) : rne a b ≤ P := by
  unfold rne
  have hq : a / b ≤ P := by
    calc a / b ≤ (P * b) / b := Nat.div_le_div_right h
      _ = P := Nat.mul_div_cancel _ hb
  have hdm := Nat.div_add_mod a b
  split_ifs with h1 h2
  · exact hq
  · exact hq
  · rcases Nat.lt_or_ge (a / b) P with h3 | h3
    · omega
    · have e : a / b = P := le_antisymm hq h3
      have : b * (a / b) = P * b := by rw [e, mul_comm]
      have hr : a % b = 0 := by omega
      rw [hr] at h1
      simp at h1
      omega

theorem rne_ge (a b P : Nat) (hb : 0 < b) (h : P * b ≤ a) : P ≤ rne a b := by
  have hq : P ≤ a / b := (Nat.le_div_iff_mul_le hb).mpr h
  unfold rne
  split_ifs <;> omega

theorem rne_mul (P b : Nat) (hb : 0 < b) : rne (P * b) b = P := by
  unfold rne
  rw [Nat.mul_mod_left, Nat.mul_div_cancel _ hb]
  simp [hb]

theorem rne_err (a b : Nat) (hb : 0 < b) :
    2 * (rne a b * b) ≤ 2 * a + b ∧ 2 * a ≤ 2 * (rne a b * b) + b := by
  have hdm := Nat.div_add_mod a b
  have hlt := Nat.mod_lt a hb
  have hc : a / b * b = b * (a / b) := mul_comm _ _
  unfold rne
  split_ifs with h1 h2
  · omega
  · omega
  · rw [Nat.add_mul]
    omega

/-! ### The position of the leading bit -/

theorem log2_step_spec (n k : Nat) (p : Nat × Nat)
    (h : 1 ≤ p.1 ∧ p.1 < 2 ^ (2 * k) ∧ p.1 * 2 ^ p.2 ≤ n ∧ n < (p.1 + 1) * 2 ^ p.2) :
    1 ≤ (log2_step p k).1 ∧ (log2_step p k).1 < 2 ^ k ∧
    (log2_step p k).1 * 2 ^ (log2_step p k).2 ≤ n ∧
    n < ((log2_step p k).1 + 1) * 2 ^ (log2_step p k).2 := by
  obtain ⟨h1, h2, h3, h4⟩ := h
  unfold log2_step
  have hk : 0 < 2 ^ k := Nat.two_pow_pos _
  split_ifs with c
  · have hdm := Nat.div_add_mod p.1 (2 ^ k)
    have hlt := Nat.mod_lt p.1 hk
    refine ⟨(Nat.le_div_iff_mul_le hk).mpr (by simpa using c), ?_, ?_, ?_⟩
    · rw [Nat.div_lt_iff_lt_mul hk, ← pow_add]
      rw [two_mul] at h2
      exact h2
    · show p.1 / 2 ^ k * 2 ^ (p.2 + k) ≤ n
      calc p.1 / 2 ^ k * 2 ^ (p.2 + k) = (p.1 / 2 ^ k * 2 ^ k) * 2 ^ p.2 := by
            rw [pow_add]; ring
        _ ≤ p.1 * 2 ^ p.2 := Nat.mul_le_mul_right _ (Nat.div_mul_le_self _ _)
        _ ≤ n := h3
    · show n < (p.1 / 2 ^ k + 1) * 2 ^ (p.2 + k)
      calc n < (p.1 + 1) * 2 ^ p.2 := h4
        _ ≤ ((p.1 / 2 ^ k + 1) * 2 ^ k) * 2 ^ p.2 := by
            apply Nat.mul_le_mul_right
            have : p.1 < (p.1 / 2 ^ k + 1) * 2 ^ k := by
              rw [Nat.add_mul, mul_comm (p.1 / 2 ^ k)]
              omega
            omega
        _ = (p.1 / 2 ^ k + 1) * 2 ^ (p.2 + k) := by rw [pow_add]; ring
  · exact ⟨h1, by omega, h3, h4⟩

theorem log2_spec (n : Nat) (h0 : 0 < n) (h : n < 2 ^ 8192) :
    2 ^ log2 n ≤ n ∧ n < 2 ^ (log2 n + 1) := by
  have s0 : 1 ≤ ((n, 0) : Nat × Nat).1 ∧ ((n, 0) : Nat × Nat).1 < 2 ^ (2 * 4096) ∧
      ((n, 0) : Nat × Nat).1 * 2 ^ ((n, 0) : Nat × Nat).2 ≤ n ∧
      n < (((n, 0) : Nat × Nat).1 + 1) * 2 ^ ((n, 0) : Nat × Nat).2 := by
    refine ⟨h0, h, ?_, ?_⟩ <;> simp
  have s1 := log2_step_spec n 4096 _ s0
  have s2 := log2_step_spec n 2048 _ s1
  have s3 := log2_step_spec n 1024 _ s2
  have s4 := log2_step_spec n 512 _ s3
  have s5 := log2_step_spec n 256 _ s4
  have s6 := log2_step_spec n 128 _ s5
  have s7 := log2_step_spec n 64 _ s6
  have s8 := log2_step_spec n 32 _ s7
  have s9 := log2_step_spec n 16 _ s8
  have s10 := log2_step_spec n 8 _ s9
  have s11 := log2_step_spec n 4 _ s10
  have s12 := log2_step_spec n 2 _ s11
  have s13 := log2_step_spec n 1 _ s12
  obtain ⟨a, b, c, d⟩ := s13
  have e : log2 n = (log2_step (log2_step (log2_step (log2_step (log2_step (log2_step
      (log2_step (log2_step (log2_step (log2_step (log2_step (log2_step (log2_step (n, 0) 4096)
      2048) 1024) 512) 256) 128) 64) 32) 16) 8) 4) 2) 1).2 := by
    simp only [log2, List.foldl_cons, List.foldl_nil]
  rw [e]
  generalize (log2_step (log2_step (log2_step (log2_step (log2_step (log2_step
      (log2_step (log2_step (log2_step (log2_step (log2_step (log2_step (log2_step (n, 0) 4096)
      2048) 1024) 512) 256) 128) 64) 32) 16) 8) 4) 2) 1) = p at a b c d
  have hp : p.1 = 1 := by
    have : p.1 < 2 := by simpa using b
    omega
  rw [hp] at c d
  constructor
  · simpa using c
  · rw [pow_succ]
    omega

theorem log2_unique (n j : Nat) (h1 : 2 ^ j ≤ n) (h2 : n < 2 ^ (j + 1)) (h : n < 2 ^ 8192) :
    log2 n = j := by
  have h0 : 0 < n := lt_of_lt_of_le (Nat.two_pow_pos _) h1
  obtain ⟨a, b⟩ := log2_spec n h0 h
  have l1 : log2 n < j + 1 := (Nat.pow_lt_pow_iff_right (by norm_num)).mp (lt_of_le_of_lt a h2)
  have l2 : j < log2 n + 1 := (Nat.pow_lt_pow_iff_right (by norm_num)).mp (lt_of_le_of_lt h1 b)
  omega

theorem log2_zero : log2 0 = 0 := by decide!

theorem log2_le (n K : Nat) (h : n ≤ 2 ^ K) (hK : K < 8192) : log2 n ≤ K := by
  rcases Nat.eq_zero_or_pos n with rfl | h0
  · rw [log2_zero]; omega
  · have hb : n < 2 ^ 8192 :=
      lt_of_le_of_lt h (Nat.pow_lt_pow_right (by norm_num) hK)
    obtain ⟨a, -⟩ := log2_spec n h0 hb
    exact (Nat.pow_le_pow_iff_right (by norm_num)).mp (le_trans a h)

/-! ### The rounding of a quotient -/

theorem quantum_le (num den K : Nat) (hden : 0 < den) (hK : K ≤ 2097)
    (h : num ≤ den * 2 ^ K) : log2 (num / den) - 52 ≤ K - 52 := by
  have ht : num / den ≤ 2 ^ K := by
    calc num / den ≤ (den * 2 ^ K) / den := Nat.div_le_div_right h
      _ = 2 ^ K := Nat.mul_div_cancel_left _ hden
  have := log2_le (num / den) K ht (by omega)
  omega

theorem rne_quantum_le (num den : Nat) (hden : 0 < den) (ht : num / den < 2 ^ 8192) :
    rne num (den * 2 ^ (log2 (num / den) - 52)) ≤ 2 ^ 53 := by
  have hD : 0 < den * 2 ^ (log2 (num / den) - 52) := Nat.mul_pos hden (Nat.two_pow_pos _)
  apply rne_le _ _ _ hD
  have hnum : num < (num / den + 1) * den := by
    have := Nat.div_add_mod num den
    have := Nat.mod_lt num hden
    rw [Nat.add_mul, mul_comm (num / den)]
    omega
  have hpow : num / den + 1 ≤ 2 ^ (log2 (num / den) - 52 + 53) := by
    rcases Nat.eq_zero_or_pos (num / den) with h0 | h0
    · rw [h0]
      exact Nat.one_le_two_pow
    · obtain ⟨-, b⟩ := log2_spec (num / den) h0 ht
      have : 2 ^ (log2 (num / den) + 1) ≤ 2 ^ (log2 (num / den) - 52 + 53) :=
        Nat.pow_le_pow_right (by norm_num) (by omega)
      omega
  calc num ≤ (num / den + 1) * den := le_of_lt hnum
    _ ≤ 2 ^ (log2 (num / den) - 52 + 53) * den := Nat.mul_le_mul_right _ hpow
    _ = 2 ^ 53 * (den * 2 ^ (log2 (num / den) - 52)) := by rw [pow_add]; ring

theorem rne_quantum_ge (num den : Nat) (hden : 0 < den) (ht : num / den < 2 ^ 8192)
    (hq : 0 < log2 (num / den) - 52) :
    2 ^ 52 ≤ rne num (den * 2 ^ (log2 (num / den) - 52)) := by
  have hD : 0 < den * 2 ^ (log2 (num / den) - 52) := Nat.mul_pos hden (Nat.two_pow_pos _)
  apply rne_ge _ _ _ hD
  have h0 : 0 < num / den := by
    rcases Nat.eq_zero_or_pos (num / den) with h0 | h0
    · rw [h0, log2_zero] at hq
      omega
    · exact h0
  obtain ⟨a, -⟩ := log2_spec (num / den) h0 ht
  have e : log2 (num / den) = log2 (num / den) - 52 + 52 := by omega
  calc 2 ^ 52 * (den * 2 ^ (log2 (num / den) - 52))
      = 2 ^ (log2 (num / den) - 52 + 52) * den := by rw [pow_add]; ring
    _ = 2 ^ log2 (num / den) * den := by rw [← e]
    _ ≤ num / den * den := Nat.mul_le_mul_right _ a
    _ ≤ num := Nat.div_mul_le_self _ _

theorem round_def (s : Bool) (num den : Nat) :
    round s num den =
      if (if rne num (den * 2 ^ (log2 (num / den) - 52)) = 2 ^ 53
          then log2 (num / den) - 52 + 1 else log2 (num / den) - 52) ≤ 2045
      then fin s (if rne num (den * 2 ^ (log2 (num / den) - 52)) = 2 ^ 53 then 2 ^ 52
                  else rne num (den * 2 ^ (log2 (num / den) - 52)))
            (if rne num (den * 2 ^ (log2 (num / den) - 52)) = 2 ^ 53
              then log2 (num / den) - 52 + 1 else log2 (num / den) - 52)
      else inf s := rfl

theorem round_sign (s : Bool) (num den : Nat) :
    (∃ m e, round s num den = fin s m e) ∨ round s num den = inf s := by
  rw [round_def]
  split_ifs
  · exact Or.inl ⟨_, _, rfl⟩
  · exact Or.inr rfl
  · exact Or.inl ⟨_, _, rfl⟩
  · exact Or.inr rfl

theorem round_zero (s : Bool) (den : Nat) (hden : 0 < den) : round s 0 den = fin s 0 0 := by
  have e : log2 (0 / den) - 52 = 0 := by
    rw [Nat.zero_div, log2_zero]
  have r : rne 0 (den * 2 ^ 0) = 0 := by
    have := rne_mul 0 (den * 2 ^ 0) (by simpa using hden)
    simpa using this
  rw [round_def, e, r]
  have : (0 : Nat) ≠ 2 ^ 53 := by norm_num
  rw [if_neg this, if_neg this, if_pos (by norm_num)]

theorem round_spec (s : Bool) (num den K : Nat) (hden : 0 < den) (hK : K ≤ 2097)
    (h : num ≤ den * 2 ^ K) :
    ∃ m e, round s num den = fin s m e ∧ m * 2 ^ e ≤ 2 ^ K ∧
      2 * (m * 2 ^ e * den) ≤ 2 * num + den * 2 ^ (K - 52) ∧
      2 * num ≤ 2 * (m * 2 ^ e * den) + den * 2 ^ (K - 52) := by
  have hq := quantum_le num den K hden hK h
  have hD : 0 < den * 2 ^ (log2 (num / den) - 52) := Nat.mul_pos hden (Nat.two_pow_pos _)
  have hqK : log2 (num / den) - 52 ≤ K := le_trans hq (Nat.sub_le _ _)
  have hn : rne num (den * 2 ^ (log2 (num / den) - 52)) ≤
      2 ^ (K - (log2 (num / den) - 52)) := by
    apply rne_le _ _ _ hD
    calc num ≤ den * 2 ^ K := h
      _ = den * 2 ^ (K - (log2 (num / den) - 52) + (log2 (num / den) - 52)) := by
          rw [Nat.sub_add_cancel hqK]
      _ = 2 ^ (K - (log2 (num / den) - 52)) * (den * 2 ^ (log2 (num / den) - 52)) := by
          rw [pow_add]; ring
  obtain ⟨e1, e2⟩ := rne_err num (den * 2 ^ (log2 (num / den) - 52)) hD
  have hmono : den * 2 ^ (log2 (num / den) - 52) ≤ den * 2 ^ (K - 52) :=
    Nat.mul_le_mul_left _ (Nat.pow_le_pow_right (by norm_num) hq)
  have hval : rne num (den * 2 ^ (log2 (num / den) - 52)) * 2 ^ (log2 (num / den) - 52) ≤
      2 ^ K := by
    calc rne num (den * 2 ^ (log2 (num / den) - 52)) * 2 ^ (log2 (num / den) - 52)
        ≤ 2 ^ (K - (log2 (num / den) - 52)) * 2 ^ (log2 (num / den) - 52) :=
          Nat.mul_le_mul_right _ hn
      _ = 2 ^ K := by rw [← pow_add, Nat.sub_add_cancel hqK]
  have hassoc : rne num (den * 2 ^ (log2 (num / den) - 52)) *
      (den * 2 ^ (log2 (num / den) - 52)) =
      rne num (den * 2 ^ (log2 (num / den) - 52)) * 2 ^ (log2 (num / den) - 52) * den := by
    ring
  rw [hassoc] at e1 e2
  rw [round_def]
  generalize rne num (den * 2 ^ (log2 (num / den) - 52)) = n at *
  generalize log2 (num / den) - 52 = q at *
  by_cases c : n = 2 ^ 53
  · have hv : 2 ^ 52 * 2 ^ (q + 1) = n * 2 ^ q := by
      rw [c, pow_succ]; ring
    have hq1 : q + 1 ≤ 2045 := by
      have h1 : 2 ^ (53 + q) ≤ 2 ^ K := by
        rw [pow_add, ← c]; exact hval
      have := (Nat.pow_le_pow_iff_right (by norm_num : 1 < 2)).mp h1
      omega
    refine ⟨2 ^ 52, q + 1, by rw [if_pos c, if_pos c, if_pos hq1], ?_, ?_, ?_⟩
    · rw [hv]; exact hval
    · rw [hv]; omega
    · rw [hv]; omega
  · have hq1 : q ≤ 2045 := by omega
    refine ⟨n, q, by rw [if_neg c, if_neg c, if_pos hq1], hval, by omega, by omega⟩

theorem round_exact (s : Bool) (N den n0 j : Nat) (hden : 0 < den) (hN : N = n0 * 2 ^ j)
    (hn0 : n0 < 2 ^ 53) (hb : N < 2 ^ 2098) :
    ∃ m e, round s (N * den) den = fin s m e ∧ m * 2 ^ e = N := by
  rcases Nat.eq_zero_or_pos N with h0 | h0
  · refine ⟨0, 0, ?_, by simp [h0]⟩
    rw [h0, Nat.zero_mul]
    exact round_zero s den hden
  · have ht : N * den / den = N := Nat.mul_div_cancel _ hden
    have hb' : N < 2 ^ 8192 :=
      lt_trans hb (Nat.pow_lt_pow_right (by norm_num : 1 < 2) (by norm_num : 2098 < 8192))
    obtain ⟨l1, l2⟩ := log2_spec N h0 hb'
    have hL : log2 N ≤ 2097 := by
      have := (Nat.pow_lt_pow_iff_right (by norm_num : 1 < 2)).mp (lt_of_le_of_lt l1 hb)
      omega
    have hqj : log2 N - 52 ≤ j := by
      have h1 : N < 2 ^ (j + 53) := by
        rw [hN, pow_add, mul_comm]
        exact Nat.mul_lt_mul_of_pos_left hn0 (Nat.two_pow_pos _)
      have := (Nat.pow_lt_pow_iff_right (by norm_num : 1 < 2)).mp (lt_of_le_of_lt l1 h1)
      omega
    have hP : N = n0 * 2 ^ (j - (log2 N - 52)) * 2 ^ (log2 N - 52) := by
      rw [mul_assoc, ← pow_add, Nat.sub_add_cancel hqj]
      exact hN
    have hD : 0 < den * 2 ^ (log2 N - 52) := Nat.mul_pos hden (Nat.two_pow_pos _)
    have hr : rne (N * den) (den * 2 ^ (log2 N - 52)) = n0 * 2 ^ (j - (log2 N - 52)) := by
      have e : N * den = n0 * 2 ^ (j - (log2 N - 52)) * (den * 2 ^ (log2 N - 52)) := by
        calc N * den = n0 * 2 ^ (j - (log2 N - 52)) * 2 ^ (log2 N - 52) * den := by rw [← hP]
          _ = n0 * 2 ^ (j - (log2 N - 52)) * (den * 2 ^ (log2 N - 52)) := by ring
      rw [e]
      exact rne_mul _ _ hD
    have hlt : n0 * 2 ^ (j - (log2 N - 52)) < 2 ^ 53 := by
      have h1 : n0 * 2 ^ (j - (log2 N - 52)) * 2 ^ (log2 N - 52) <
          2 ^ 53 * 2 ^ (log2 N - 52) := by
        rw [← hP, ← pow_add]
        exact lt_of_lt_of_le l2 (Nat.pow_le_pow_right (by norm_num) (by omega))
      exact lt_of_mul_lt_mul_right h1 (Nat.zero_le _)
    refine ⟨n0 * 2 ^ (j - (log2 N - 52)), log2 N - 52, ?_, hP.symm⟩
    rw [round_def, ht, hr]
    have hne : n0 * 2 ^ (j - (log2 N - 52)) ≠ 2 ^ 53 := ne_of_lt hlt
    have hq1 : log2 N - 52 ≤ 2045 := by omega
    rw [if_neg hne, if_neg hne, if_pos hq1]

theorem round_rel (s : Bool) (T den : Nat) (hden : 0 < den) (hT' : T ≤ 2 ^ 2097) :
    ∃ m e, round s (T * den) den = fin s m e ∧
      2 ^ 53 * (m * 2 ^ e) ≤ 2 ^ 53 * T + T ∧ 2 ^ 53 * T ≤ 2 ^ 53 * (m * 2 ^ e) + T := by
  have hT : T < 2 ^ 2098 :=
    lt_of_le_of_lt hT' (Nat.pow_lt_pow_right (by norm_num : 1 < 2) (by norm_num : 2097 < 2098))
  by_cases hq : log2 T - 52 = 0
  · have hT8 : T < 2 ^ 8192 :=
      lt_trans hT (Nat.pow_lt_pow_right (by norm_num : 1 < 2) (by norm_num : 2098 < 8192))
    have hlt : T < 2 ^ 53 := by
      rcases Nat.eq_zero_or_pos T with h0 | h0
      · rw [h0]; exact Nat.two_pow_pos _
      · obtain ⟨-, b⟩ := log2_spec T h0 hT8
        exact lt_of_lt_of_le b (Nat.pow_le_pow_right (by norm_num) (by omega))
    obtain ⟨m, e, h1, h2⟩ := round_exact s T den T 0 hden (by simp) hlt hT
    exact ⟨m, e, h1, by rw [h2]; omega, by rw [h2]; omega⟩
  · have hK : T * den ≤ den * 2 ^ 2098 := by
      rw [mul_comm]
      exact Nat.mul_le_mul_left _ (le_of_lt hT)
    have ht : T * den / den = T := Nat.mul_div_cancel _ hden
    have hT8 : T < 2 ^ 8192 :=
      lt_trans hT (Nat.pow_lt_pow_right (by norm_num : 1 < 2) (by norm_num : 2098 < 8192))
    have h0 : 0 < T := by
      rcases Nat.eq_zero_or_pos T with h0 | h0
      · rw [h0, log2_zero] at hq
        omega
      · exact h0
    obtain ⟨l1, l2⟩ := log2_spec T h0 hT8
    have hL : log2 T ≤ 2097 := by
      have := (Nat.pow_lt_pow_iff_right (by norm_num : 1 < 2)).mp (lt_of_le_of_lt l1 hT)
      omega
    have hD : 0 < den * 2 ^ (log2 T - 52) := Nat.mul_pos hden (Nat.two_pow_pos _)
    obtain ⟨e1, e2⟩ := rne_err (T * den) (den * 2 ^ (log2 T - 52)) hD
    have hn53 := rne_quantum_le (T * den) den hden (by rw [ht]; exact hT8)
    rw [ht] at hn53
    have hqT : 2 ^ 52 * 2 ^ (log2 T - 52) ≤ T := by
      rw [← pow_add]
      have : 52 + (log2 T - 52) = log2 T := by omega
      rw [this]
      exact l1
    have c1 : 2 * (rne (T * den) (den * 2 ^ (log2 T - 52)) * 2 ^ (log2 T - 52)) ≤
        2 * T + 2 ^ (log2 T - 52) := by
      have : (2 * (rne (T * den) (den * 2 ^ (log2 T - 52)) * 2 ^ (log2 T - 52))) * den ≤
          (2 * T + 2 ^ (log2 T - 52)) * den := by
        calc (2 * (rne (T * den) (den * 2 ^ (log2 T - 52)) * 2 ^ (log2 T - 52))) * den
            = 2 * (rne (T * den) (den * 2 ^ (log2 T - 52)) * (den * 2 ^ (log2 T - 52))) := by
              ring
          _ ≤ 2 * (T * den) + den * 2 ^ (log2 T - 52) := e1
          _ = (2 * T + 2 ^ (log2 T - 52)) * den := by ring
      exact Nat.le_of_mul_le_mul_right this hden
    have c2 : 2 * T ≤
        2 * (rne (T * den) (den * 2 ^ (log2 T - 52)) * 2 ^ (log2 T - 52)) +
          2 ^ (log2 T - 52) := by
      have : (2 * T) * den ≤
          (2 * (rne (T * den) (den * 2 ^ (log2 T - 52)) * 2 ^ (log2 T - 52)) +
            2 ^ (log2 T - 52)) * den := by
        calc (2 * T) * den = 2 * (T * den) := by ring
          _ ≤ 2 * (rne (T * den) (den * 2 ^ (log2 T - 52)) * (den * 2 ^ (log2 T - 52))) +
              den * 2 ^ (log2 T - 52) := e2
          _ = (2 * (rne (T * den) (den * 2 ^ (log2 T - 52)) * 2 ^ (log2 T - 52)) +
              2 ^ (log2 T - 52)) * den := by ring
      exact Nat.le_of_mul_le_mul_right this hden
    rw [round_def, ht]
    generalize rne (T * den) (den * 2 ^ (log2 T - 52)) = n at *
    generalize hqq : log2 T - 52 = q at *
    have step1 : 2 ^ 53 * (n * 2 ^ q) ≤ 2 ^ 53 * T + T := by
      have : 2 ^ 53 * (n * 2 ^ q) = 2 ^ 52 * (2 * (n * 2 ^ q)) := by ring
      rw [this]
      calc 2 ^ 52 * (2 * (n * 2 ^ q)) ≤ 2 ^ 52 * (2 * T + 2 ^ q) := Nat.mul_le_mul_left _ c1
        _ = 2 ^ 53 * T + 2 ^ 52 * 2 ^ q := by ring
        _ ≤ 2 ^ 53 * T + T := Nat.add_le_add_left hqT _
    have step2 : 2 ^ 53 * T ≤ 2 ^ 53 * (n * 2 ^ q) + T := by
      have : 2 ^ 53 * T = 2 ^ 52 * (2 * T) := by ring
      rw [this]
      calc 2 ^ 52 * (2 * T) ≤ 2 ^ 52 * (2 * (n * 2 ^ q) + 2 ^ q) := Nat.mul_le_mul_left _ c2
        _ = 2 ^ 53 * (n * 2 ^ q) + 2 ^ 52 * 2 ^ q := by ring
        _ ≤ 2 ^ 53 * (n * 2 ^ q) + T := Nat.add_le_add_left hqT _
    by_cases c : n = 2 ^ 53
    · have hv : 2 ^ 52 * 2 ^ (q + 1) = n * 2 ^ q := by
        rw [c, pow_succ]; ring
      have hq1 : q + 1 ≤ 2045 := by
        have h1 : 2 ^ (54 + q) ≤ 2 * T + 2 ^ q := by
          calc 2 ^ (54 + q) = 2 * (n * 2 ^ q) := by
                rw [c, show 54 + q = 1 + (53 + q) from by omega, pow_add, pow_add]
                ring
            _ ≤ 2 * T + 2 ^ q := c1
        have h2 : 2 ^ q ≤ T := le_trans (Nat.le_mul_of_pos_left _ (Nat.two_pow_pos 52)) hqT
        have key : ∀ a p A : Nat, a ≤ A → p ≤ a → 0 < A → 2 * a + p < 4 * A := by
          intro a p A h3 h4 h6
          omega
        have e4 : (2 : Nat) ^ 2099 = 4 * 2 ^ 2097 := by
          rw [pow_succ, pow_succ]
          omega
        have h3 : 2 ^ (54 + q) < 2 ^ 2099 := by
          rw [e4]
          exact lt_of_le_of_lt h1 (key T (2 ^ q) (2 ^ 2097) hT' h2 (Nat.two_pow_pos _))
        have h5 := (Nat.pow_lt_pow_iff_right (by norm_num : 1 < 2)).mp h3
        clear * - h5
        omega
      refine ⟨2 ^ 52, q + 1, by rw [if_pos c, if_pos c, if_pos hq1], ?_, ?_⟩
      · rw [hv]; exact step1
      · rw [hv]; exact step2
    · have hq1 : q ≤ 2045 := by
        clear * - hL hqq
        omega
      exact ⟨n, q, by rw [if_neg c, if_neg c, if_pos hq1], step1, step2⟩

/-! ### The operations on finite values -/

theorem finite_fin (d : Double) (h : d.finite = true) : ∃ s m e, d = fin s m e := by
  cases d with
  | fin s m e => exact ⟨s, m, e, rfl⟩
  | inf s => simp [finite] at h
  | nan => simp [finite] at h

theorem units_fin (s : Bool) (m e : Nat) :
    units (fin s m e) = (if s then -1 else 1) * ((m * 2 ^ e : Nat) : Int) := by
  cases s <;> simp [units]

theorem natAbs_units_fin (s : Bool) (m e : Nat) : (units (fin s m e)).natAbs = m * 2 ^ e := by
  cases s
  · exact Int.natAbs_ofNat _
  · show (-((m * 2 ^ e : Nat) : Int)).natAbs = m * 2 ^ e
    rw [Int.natAbs_neg]
    exact Int.natAbs_ofNat _

theorem units_zero (s : Bool) (e : Nat) : units (fin s 0 e) = 0 := by
  cases s <;> simp [units]

theorem units_nonneg (m e : Nat) : 0 ≤ units (fin false m e) :=
  Int.natCast_nonneg _

theorem units_nonpos (m e : Nat) : units (fin true m e) ≤ 0 := by
  show -((m * 2 ^ e : Nat) : Int) ≤ 0
  have := Int.natCast_nonneg (m * 2 ^ e)
  omega

theorem mag_zero_of_nonneg (m e : Nat) (h : 0 ≤ units (fin true m e)) : m * 2 ^ e = 0 := by
  have h' : 0 ≤ -((m * 2 ^ e : Nat) : Int) := h
  have := Int.natCast_nonneg (m * 2 ^ e)
  have hz : ((m * 2 ^ e : Nat) : Int) = 0 := by omega
  exact_mod_cast hz

theorem nonneg_fin (s : Bool) (m e : Nat) : nonneg (fin s m e) ↔ 0 ≤ units (fin s m e) := by
  show decide (units (fin false 0 0) ≤ units (fin s m e)) = true ↔ _
  rw [units_zero]
  simp

theorem nonneg_round (num den : Nat) : nonneg (round false num den) := by
  rcases round_sign false num den with ⟨m, e, h⟩ | h
  · rw [h, nonneg_fin]
    exact units_nonneg _ _
  · rw [h]
    rfl

theorem mul_fin (s t : Bool) (m e n f : Nat) :
    mul (fin s m e) (fin t n f) = round (xor s t) (m * 2 ^ e * (n * 2 ^ f)) (2 ^ 1074) := rfl

theorem add_fin (s t : Bool) (m e n f : Nat) :
    add (fin s m e) (fin t n f) =
      if units (fin s m e) + units (fin t n f) = 0 then fin (s && t) 0 0
      else round (decide (units (fin s m e) + units (fin t n f) < 0))
        (units (fin s m e) + units (fin t n f)).natAbs 1 := rfl

theorem units_mul_units (s t : Bool) (m e n f : Nat) :
    units (fin s m e) * units (fin t n f) =
      (if xor s t then -1 else 1) * ((m * 2 ^ e * (n * 2 ^ f) : Nat) : Int) := by
  cases s <;> cases t <;> simp [units]

theorem mul_within (x y : Double) (K1 K2 K : Nat) (hx : within K1 x) (hy : within K2 y)
    (h : K1 + K2 ≤ K + 1074) (hK : K ≤ 2097) : within K (mul x y) := by
  obtain ⟨s, m, e, rfl⟩ := finite_fin x hx.1
  obtain ⟨t, n, f, rfl⟩ := finite_fin y hy.1
  have h1 := hx.2
  have h2 := hy.2
  rw [natAbs_units_fin] at h1 h2
  have hb : m * 2 ^ e * (n * 2 ^ f) ≤ 2 ^ 1074 * 2 ^ K := by
    calc m * 2 ^ e * (n * 2 ^ f) ≤ 2 ^ K1 * 2 ^ K2 := Nat.mul_le_mul h1 h2
      _ = 2 ^ (K1 + K2) := by rw [pow_add]
      _ ≤ 2 ^ (K + 1074) := Nat.pow_le_pow_right (by norm_num) h
      _ = 2 ^ 1074 * 2 ^ K := by rw [pow_add, mul_comm]
  obtain ⟨m', e', h3, h4, -, -⟩ :=
    round_spec (xor s t) _ (2 ^ 1074) K (Nat.two_pow_pos _) hK hb
  rw [mul_fin, h3]
  exact ⟨rfl, by rw [natAbs_units_fin]; exact h4⟩

theorem mul_nonneg_of (x y : Double) (hx : nonneg x) (hy : nonneg y)
    (fx : x.finite = true) (fy : y.finite = true) : nonneg (mul x y) := by
  obtain ⟨s, m, e, rfl⟩ := finite_fin x fx
  obtain ⟨t, n, f, rfl⟩ := finite_fin y fy
  rw [nonneg_fin] at hx hy
  rw [mul_fin]
  cases s <;> cases t
  · exact nonneg_round _ _
  · rw [mag_zero_of_nonneg n f hy, Nat.mul_zero, round_zero _ _ (Nat.two_pow_pos _),
      nonneg_fin, units_zero]
  · rw [mag_zero_of_nonneg m e hx, Nat.zero_mul, round_zero _ _ (Nat.two_pow_pos _),
      nonneg_fin, units_zero]
  · exact nonneg_round _ _

theorem add_nonneg_of (x y : Double) (hx : nonneg x) (hy : nonneg y) : nonneg (add x y) := by
  cases x with
  | nan => simp [nonneg, le] at hx
  | inf s =>
    have hs : s = false := by simpa [nonneg, le] using hx
    subst hs
    cases y with
    | nan => simp [nonneg, le] at hy
    | inf t =>
      have ht : t = false := by simpa [nonneg, le] using hy
      subst ht
      decide
    | fin t n f => exact hx
  | fin s m e =>
    cases y with
    | nan => simp [nonneg, le] at hy
    | inf t => exact hy
    | fin t n f =>
      rw [nonneg_fin] at hx hy
      rw [add_fin]
      split_ifs with h0
      · rw [nonneg_fin, units_zero]
      · have : decide (units (fin s m e) + units (fin t n f) < 0) = false := by
          rw [decide_eq_false_iff_not]
          omega
        rw [this]
        exact nonneg_round _ _

theorem add_within (x y : Double) (K : Nat) (fx : x.finite = true) (fy : y.finite = true)
    (h : (units x + units y).natAbs ≤ 2 ^ K) (hK : K ≤ 2097) : within K (add x y) := by
  obtain ⟨s, m, e, rfl⟩ := finite_fin x fx
  obtain ⟨t, n, f, rfl⟩ := finite_fin y fy
  rw [add_fin]
  split_ifs with h0
  · refine ⟨rfl, ?_⟩
    rw [natAbs_units_fin]
    simp
  · obtain ⟨m', e', h3, h4, -, -⟩ :=
      round_spec (decide (units (fin s m e) + units (fin t n f) < 0))
        (units (fin s m e) + units (fin t n f)).natAbs 1 K (by norm_num) hK (by simpa using h)
    rw [h3]
    exact ⟨rfl, by rw [natAbs_units_fin]; exact h4⟩

theorem within_mono (K K' : Nat) (d : Double) (h : within K d) (hK : K ≤ K') : within K' d :=
  ⟨h.1, le_trans h.2 (Nat.pow_le_pow_right (by norm_num) hK)⟩

theorem neg_finite (d : Double) : (neg d).finite = d.finite := by
  cases d <;> rfl

theorem units_neg (d : Double) : units (neg d) = - units d := by
  cases d with
  | fin s m e => cases s <;> simp [neg, units]
  | inf s => simp [neg, units]
  | nan => simp [neg, units]

theorem sub_nonneg_of (x y : Double) (h : ge x y = true) (fy : y.finite = true) :
    nonneg (sub x y) := by
  obtain ⟨t, n, f, rfl⟩ := finite_fin y fy
  cases x with
  | nan => simp [ge, le] at h
  | inf s =>
    have hs : s = false := by simpa [ge, le] using h
    subst hs
    rfl
  | fin s m e =>
    have hu : units (fin t n f) ≤ units (fin s m e) := by simpa [ge, le] using h
    show nonneg (add (fin s m e) (neg (fin t n f)))
    show nonneg (add (fin s m e) (fin (!t) n f))
    have hn : units (fin (!t) n f) = - units (fin t n f) := units_neg (fin t n f)
    rw [add_fin]
    split_ifs with h0
    · rw [nonneg_fin, units_zero]
    · have : decide (units (fin s m e) + units (fin (!t) n f) < 0) = false := by
        rw [hn, decide_eq_false_iff_not]
        omega
      rw [this]
      exact nonneg_round _ _

/-! ### Exact results and the size of the rounding error -/

theorem sign_natAbs (z : Int) :
    (if decide (z < 0) = true then -1 else 1) * ((z.natAbs : Nat) : Int) = z := by
  rcases lt_or_le z 0 with h | h
  · rw [if_pos (decide_eq_true h)]
    omega
  · rw [if_neg (by rw [decide_eq_true_iff]; omega)]
    omega

theorem of_int_spec (k : Int) (h : k.natAbs < 2 ^ 53) :
    (of_int k).finite = true ∧ units (of_int k) = k * 2 ^ 1074 := by
  have hb : k.natAbs * 2 ^ 1074 < 2 ^ 2098 := by
    calc k.natAbs * 2 ^ 1074 < 2 ^ 53 * 2 ^ 1074 :=
          Nat.mul_lt_mul_of_pos_right h (Nat.two_pow_pos _)
      _ = 2 ^ 1127 := by rw [← pow_add]
      _ ≤ 2 ^ 2098 := Nat.pow_le_pow_right (by norm_num) (by norm_num)
  obtain ⟨m, e, h1, h2⟩ :=
    round_exact (decide (k < 0)) (k.natAbs * 2 ^ 1074) 1 k.natAbs 1074 (by norm_num) rfl h hb
  rw [Nat.mul_one] at h1
  have e1 : of_int k = fin (decide (k < 0)) m e := h1
  rw [e1]
  refine ⟨rfl, ?_⟩
  rw [units_fin, h2]
  simp only [Nat.cast_mul, Nat.cast_pow, Nat.cast_ofNat]
  rw [← mul_assoc, sign_natAbs]

theorem mul_exact (x y : Double) (N : Int) (n0 j : Nat) (fx : x.finite = true)
    (fy : y.finite = true) (h : units x * units y = N * 2 ^ 1074)
    (hN : N.natAbs = n0 * 2 ^ j) (hn0 : n0 < 2 ^ 53) (hb : N.natAbs < 2 ^ 2098) :
    (mul x y).finite = true ∧ units (mul x y) = N := by
  obtain ⟨s, m, e, rfl⟩ := finite_fin x fx
  obtain ⟨t, n, f, rfl⟩ := finite_fin y fy
  rw [units_mul_units] at h
  have hnum : m * 2 ^ e * (n * 2 ^ f) = N.natAbs * 2 ^ 1074 := by
    have := congrArg Int.natAbs h
    rw [Int.natAbs_mul, Int.natAbs_mul, Int.natAbs_ofNat, Int.natAbs_pow] at this
    have h1 : (if xor s t = true then (-1 : Int) else 1).natAbs = 1 := by
      split_ifs <;> rfl
    rw [h1, Nat.one_mul] at this
    exact this
  obtain ⟨m', e', h1, h2⟩ :=
    round_exact (xor s t) N.natAbs (2 ^ 1074) n0 j (Nat.two_pow_pos _) hN hn0 hb
  rw [mul_fin, hnum, h1]
  refine ⟨rfl, ?_⟩
  rw [units_fin, h2]
  rw [hnum] at h
  simp only [Nat.cast_mul, Nat.cast_pow, Nat.cast_ofNat] at h
  have hpos : (0 : Int) < 2 ^ 1074 := by positivity
  rw [← mul_assoc] at h
  exact mul_right_cancel₀ (ne_of_gt hpos) h

theorem mul_err (x y : Double) (K : Nat) (fx : x.finite = true) (fy : y.finite = true)
    (h : (units x * units y).natAbs ≤ 2 ^ 1074 * 2 ^ K) (hK : K ≤ 2097) :
    (mul x y).finite = true ∧
    2 * (units (mul x y) * 2 ^ 1074) ≤ 2 * (units x * units y) + 2 ^ 1074 * 2 ^ (K - 52) ∧
    2 * (units x * units y) ≤ 2 * (units (mul x y) * 2 ^ 1074) + 2 ^ 1074 * 2 ^ (K - 52) := by
  obtain ⟨s, m, e, rfl⟩ := finite_fin x fx
  obtain ⟨t, n, f, rfl⟩ := finite_fin y fy
  rw [units_mul_units] at h ⊢
  have hnum : m * 2 ^ e * (n * 2 ^ f) ≤ 2 ^ 1074 * 2 ^ K := by
    rw [Int.natAbs_mul, Int.natAbs_ofNat] at h
    have h1 : (if xor s t = true then (-1 : Int) else 1).natAbs = 1 := by
      split_ifs <;> rfl
    rw [h1, Nat.one_mul] at h
    exact h
  obtain ⟨m', e', h1, -, h3, h4⟩ :=
    round_spec (xor s t) _ (2 ^ 1074) K (Nat.two_pow_pos _) hK hnum
  rw [mul_fin, h1]
  refine ⟨rfl, ?_⟩
  rw [units_fin]
  have c3 : (2 : Int) * (((m' * 2 ^ e' : Nat) : Int) * 2 ^ 1074) ≤
      2 * ((m * 2 ^ e * (n * 2 ^ f) : Nat) : Int) + 2 ^ 1074 * 2 ^ (K - 52) := by
    exact_mod_cast h3
  have c4 : (2 : Int) * ((m * 2 ^ e * (n * 2 ^ f) : Nat) : Int) ≤
      2 * (((m' * 2 ^ e' : Nat) : Int) * 2 ^ 1074) + 2 ^ 1074 * 2 ^ (K - 52) := by
    exact_mod_cast h4
  generalize ((m' * 2 ^ e' : Nat) : Int) = a at *
  generalize ((m * 2 ^ e * (n * 2 ^ f) : Nat) : Int) = b at *
  generalize (2 : Int) ^ 1074 * 2 ^ (K - 52) = c at *
  split_ifs
  · constructor <;> nlinarith
  · constructor <;> nlinarith

theorem mul_rel (x y : Double) (T : Int) (fx : x.finite = true) (fy : y.finite = true)
    (h : units x * units y = T * 2 ^ 1074) (hT : T.natAbs ≤ 2 ^ 2097) :
    (mul x y).finite = true ∧
    2 ^ 53 * |units (mul x y) - T| ≤ |T| := by
  obtain ⟨s, m, e, rfl⟩ := finite_fin x fx
  obtain ⟨t, n, f, rfl⟩ := finite_fin y fy
  rw [units_mul_units] at h
  have hnum : m * 2 ^ e * (n * 2 ^ f) = T.natAbs * 2 ^ 1074 := by
    have := congrArg Int.natAbs h
    rw [Int.natAbs_mul, Int.natAbs_mul, Int.natAbs_ofNat, Int.natAbs_pow] at this
    have h1 : (if xor s t = true then (-1 : Int) else 1).natAbs = 1 := by
      split_ifs <;> rfl
    rw [h1, Nat.one_mul] at this
    exact this
  obtain ⟨m', e', h1, h2, h3⟩ := round_rel (xor s t) T.natAbs (2 ^ 1074) (Nat.two_pow_pos _) hT
  rw [mul_fin, hnum, h1]
  refine ⟨rfl, ?_⟩
  rw [units_fin]
  rw [hnum] at h
  simp only [Nat.cast_mul, Nat.cast_pow, Nat.cast_ofNat] at h
  have hpos : (0 : Int) < 2 ^ 1074 := by positivity
  rw [← mul_assoc] at h
  have hT' : (if xor s t = true then (-1 : Int) else 1) * ((T.natAbs : Nat) : Int) = T :=
    mul_right_cancel₀ (ne_of_gt hpos) h
  have c2 : (2 : Int) ^ 53 * ((m' * 2 ^ e' : Nat) : Int) ≤
      2 ^ 53 * ((T.natAbs : Nat) : Int) + ((T.natAbs : Nat) : Int) := by
    exact_mod_cast h2
  have c3 : (2 : Int) ^ 53 * ((T.natAbs : Nat) : Int) ≤
      2 ^ 53 * ((m' * 2 ^ e' : Nat) : Int) + ((T.natAbs : Nat) : Int) := by
    exact_mod_cast h3
  have habs : |T| = ((T.natAbs : Nat) : Int) := Int.abs_eq_natAbs T
  rw [habs, ← hT']
  generalize ((m' * 2 ^ e' : Nat) : Int) = a at *
  generalize ((T.natAbs : Nat) : Int) = b at *
  have e53 : (2 : Int) ^ 53 = 9007199254740992 := by norm_num
  rw [e53] at c2 c3 ⊢
  split_ifs
  · have : |(-1 : Int) * a - -1 * b| = |a - b| := by
      rw [show (-1 : Int) * a - -1 * b = -(a - b) by ring, abs_neg]
    rw [this]
    rcases abs_cases (a - b) with ⟨h5, -⟩ | ⟨h5, -⟩ <;> rw [h5] <;> omega
  · have : |(1 : Int) * a - 1 * b| = |a - b| := by
      rw [one_mul, one_mul]
    rw [this]
    rcases abs_cases (a - b) with ⟨h5, -⟩ | ⟨h5, -⟩ <;> rw [h5] <;> omega

theorem add_exact (x y : Double) (n0 j : Nat) (fx : x.finite = true) (fy : y.finite = true)
    (hN : (units x + units y).natAbs = n0 * 2 ^ j) (hn0 : n0 < 2 ^ 53)
    (hb : (units x + units y).natAbs < 2 ^ 2098) :
    (add x y).finite = true ∧ units (add x y) = units x + units y := by
  obtain ⟨s, m, e, rfl⟩ := finite_fin x fx
  obtain ⟨t, n, f, rfl⟩ := finite_fin y fy
  rw [add_fin]
  split_ifs with h0
  · exact ⟨rfl, by rw [units_zero, h0]⟩
  · obtain ⟨m', e', h1, h2⟩ :=
      round_exact (decide (units (fin s m e) + units (fin t n f) < 0))
        (units (fin s m e) + units (fin t n f)).natAbs 1 n0 j (by norm_num) hN hn0 hb
    rw [Nat.mul_one] at h1
    rw [h1]
    refine ⟨rfl, ?_⟩
    rw [units_fin, h2]
    exact sign_natAbs _

theorem add_err (x y : Double) (K : Nat) (fx : x.finite = true) (fy : y.finite = true)
    (h : (units x + units y).natAbs ≤ 2 ^ K) (hK : K ≤ 2097) :
    (add x y).finite = true ∧
    2 * units (add x y) ≤ 2 * (units x + units y) + 2 ^ (K - 52) ∧
    2 * (units x + units y) ≤ 2 * units (add x y) + 2 ^ (K - 52) := by
  obtain ⟨s, m, e, rfl⟩ := finite_fin x fx
  obtain ⟨t, n, f, rfl⟩ := finite_fin y fy
  rw [add_fin]
  have hpos : (0 : Int) < 2 ^ (K - 52) := by positivity
  split_ifs with h0
  · refine ⟨rfl, ?_⟩
    rw [units_zero, h0]
    constructor <;> omega
  · obtain ⟨m', e', h1, -, h3, h4⟩ :=
      round_spec (decide (units (fin s m e) + units (fin t n f) < 0))
        (units (fin s m e) + units (fin t n f)).natAbs 1 K (by norm_num) hK (by simpa using h)
    rw [h1]
    refine ⟨rfl, ?_⟩
    rw [units_fin]
    have hs := sign_natAbs (units (fin s m e) + units (fin t n f))
    have c3 : (2 : Int) * ((m' * 2 ^ e' : Nat) : Int) ≤
        2 * (((units (fin s m e) + units (fin t n f)).natAbs : Nat) : Int) + 2 ^ (K - 52) := by
      have := h3
      rw [Nat.mul_one, Nat.one_mul] at this
      exact_mod_cast this
    have c4 : (2 : Int) * (((units (fin s m e) + units (fin t n f)).natAbs : Nat) : Int) ≤
        2 * ((m' * 2 ^ e' : Nat) : Int) + 2 ^ (K - 52) := by
      have := h4
      rw [Nat.mul_one, Nat.one_mul] at this
      exact_mod_cast this
    generalize ((m' * 2 ^ e' : Nat) : Int) = a at *
    generalize (((units (fin s m e) + units (fin t n f)).natAbs : Nat) : Int) = b at *
    generalize units (fin s m e) + units (fin t n f) = z at *
    generalize (2 : Int) ^ (K - 52) = c at *
    split_ifs at hs ⊢
    · constructor <;> omega
    · constructor <;> omega

theorem le_fin (x y : Double) (fx : x.finite = true) (fy : y.finite = true) :
    le x y = true ↔ units x ≤ units y := by
  obtain ⟨s, m, e, rfl⟩ := finite_fin x fx
  obtain ⟨t, n, f, rfl⟩ := finite_fin y fy
  show decide (units (fin s m e) ≤ units (fin t n f)) = true ↔ _
  simp

theorem lt_fin (x y : Double) (fx : x.finite = true) (fy : y.finite = true) :
    lt x y = true ↔ units x < units y := by
  obtain ⟨s, m, e, rfl⟩ := finite_fin x fx
  obtain ⟨t, n, f, rfl⟩ := finite_fin y fy
  show decide (units (fin s m e) < units (fin t n f)) = true ↔ _
  simp

end Double

namespace Double

/-! ### The literals of the program -/

theorem natAbs_le_of (z : Int) (N : Nat) (h1 : -(N : Int) ≤ z) (h2 : z ≤ N) : z.natAbs ≤ N := by
  omega

theorem lit_zero : (0.0 : Double) = fin false 0 0 := by decide!

theorem lit_one : (1.0 : Double).finite = true ∧ units (1.0 : Double) = 2 ^ 1074 := by decide!

theorem lit_ten : (10.0 : Double).finite = true ∧ units (10.0 : Double) = 10 * 2 ^ 1074 := by
  decide!

theorem lit_fifth :
    (0.2 : Double).finite = true ∧ units (0.2 : Double) = 7205759403792794 * 2 ^ 1019 := by
  decide!

theorem lit_quarter : (0.25 : Double).finite = true ∧ units (0.25 : Double) = 2 ^ 1072 := by
  decide!

theorem lit_half : (0.5 : Double).finite = true ∧ units (0.5 : Double) = 2 ^ 1073 := by decide!

theorem lit_twenty_five :
    (25.0 : Double).finite = true ∧ units (25.0 : Double) = 25 * 2 ^ 1074 := by decide!

end Double

namespace Machine

open Double

theorem dt_spec : dt.finite = true ∧ units dt = 7205759403792794 * 2 ^ 1018 := by decide!

theorem natAbs_int (k : Int) (h : is_int k) : k.natAbs < 2 ^ 53 := by
  unfold is_int INT_MIN INT_MAX at h
  omega

/-- The cost of a kitten is finite and within `2^(-17)` of `10 + 2 * kittens`. -/
theorem kitten_cost_units (g : Game) (hk : is_int g.kittens) :
    (kitten_cost g).finite = true ∧
    (10 + 2 * g.kittens) * 2 ^ 1074 - 2 ^ 1057 ≤ units (kitten_cost g) ∧
    units (kitten_cost g) ≤ (10 + 2 * g.kittens) * 2 ^ 1074 + 2 ^ 1057 := by
  obtain ⟨fA, uA⟩ := of_int_spec g.kittens (natAbs_int _ hk)
  unfold is_int INT_MIN INT_MAX at hk
  obtain ⟨f5, u5⟩ := lit_fifth
  obtain ⟨f1, u1⟩ := lit_one
  obtain ⟨f10, u10⟩ := lit_ten
  have ha := mul_err (0.2 : Double) (of_int g.kittens) 1103 f5 fA (by
    rw [u5, uA]
    apply natAbs_le_of
    · push_cast
      omega
    · push_cast
      omega) (by norm_num)
  obtain ⟨fa, a1, a2⟩ := ha
  rw [u5, uA] at a1 a2
  have hb := add_err (1.0 : Double) (mul (0.2 : Double) (of_int g.kittens)) 1104 f1 fa (by
    rw [u1]
    apply natAbs_le_of
    · push_cast
      omega
    · push_cast
      omega) (by norm_num)
  obtain ⟨fb, b1, b2⟩ := hb
  rw [u1] at b1 b2
  have hr := mul_err (10.0 : Double) (add (1.0 : Double) (mul (0.2 : Double) (of_int g.kittens)))
    1108 f10 fb (by
    rw [u10]
    apply natAbs_le_of
    · push_cast
      omega
    · push_cast
      omega) (by norm_num)
  obtain ⟨fr, r1, r2⟩ := hr
  rw [u10] at r1 r2
  have e : kitten_cost g =
      mul (10.0 : Double) (add (1.0 : Double) (mul (0.2 : Double) (of_int g.kittens))) := rfl
  rw [e]
  refine ⟨fr, ?_, ?_⟩
  · omega
  · omega

end Machine

namespace Double

theorem within_lits :
    within 1072 (0.2 : Double) ∧ within 1074 (1.0 : Double) ∧ within 1078 (10.0 : Double) ∧
    within 1079 (25.0 : Double) ∧ within 1072 (0.25 : Double) := by decide!

theorem nonneg_lits :
    nonneg (0.2 : Double) ∧ nonneg (1.0 : Double) ∧ nonneg (10.0 : Double) ∧
    nonneg (25.0 : Double) ∧ nonneg (0.25 : Double) := by decide!

theorem add_within_le (x y : Double) (K : Nat) (hx : within K x) (hy : within K y)
    (hK : K + 1 ≤ 2097) : within (K + 1) (add x y) := by
  apply add_within x y (K + 1) hx.1 hy.1 _ hK
  have h1 := hx.2
  have h2 := hy.2
  have := Int.natAbs_add_le (units x) (units y)
  rw [pow_succ]
  omega

theorem of_int_within (k : Int) (h : is_int k) : within 1105 (of_int k) := by
  have hk : k.natAbs < 2 ^ 53 := by
    unfold is_int INT_MIN INT_MAX at h
    omega
  obtain ⟨f, u⟩ := of_int_spec k hk
  refine ⟨f, ?_⟩
  rw [u]
  unfold is_int INT_MIN INT_MAX at h
  apply natAbs_le_of
  · push_cast
    omega
  · push_cast
    omega

theorem of_int_nonneg (k : Int) (h : 0 ≤ k) : nonneg (of_int k) := by
  have : decide (k < 0) = false := by
    rw [decide_eq_false_iff_not]
    omega
  unfold of_int
  rw [this]
  exact nonneg_round _ _

theorem nonneg_iff_ge (d : Double) : nonneg d ↔ Double.ge d 0.0 = true := by
  unfold nonneg Double.ge
  rw [lit_zero]

end Double

namespace Machine

open Double

theorem dt_within : within 1071 dt ∧ nonneg dt := by decide!

theorem kitten_cost_finite (g : Game) (hk : is_int g.kittens) :
    (kitten_cost g).finite = true := (kitten_cost_units g hk).1

theorem bowl_cost_finite (g : Game) (hb : is_int g.bowls) : (bowl_cost g).finite = true := by
  obtain ⟨-, -, w10, w25, -⟩ := within_lits
  have h1 := mul_within (10.0 : Double) (of_int g.bowls) 1078 1105 1109 w10
    (of_int_within _ hb) (by norm_num) (by norm_num)
  have h2 := add_within_le (25.0 : Double) (mul (10.0 : Double) (of_int g.bowls)) 1109
    (within_mono _ _ _ w25 (by norm_num)) h1 (by norm_num)
  exact h2.1

/-! ## Purchases on binary64 values -/

theorem switch_buy_kitten_d (cmd : Char) (d : Disk) (w : World) (h : cmd = 'b' ∨ cmd = 'B') :
    switch_cmd cmd d w =
      ({ w with g := (buy_kitten w.g).1, out := w.out ++ [(buy_kitten w.g).2] }, true) := by
  rcases h with rfl | rfl <;> simp [switch_cmd]

theorem switch_buy_bowl_d (cmd : Char) (d : Disk) (w : World) (h : cmd = 'u' ∨ cmd = 'U') :
    switch_cmd cmd d w =
      ({ w with g := (buy_bowl w.g).1, out := w.out ++ [(buy_bowl w.g).2] }, true) := by
  rcases h with rfl | rfl <;> simp [switch_cmd]

theorem buy_kitten_poor_d (g : Game) (h : Double.ge g.yarn (kitten_cost g) = false) :
    buy_kitten g = (g, Msg.not_enough_yarn) := by
  simp [buy_kitten, h]

theorem buy_bowl_poor_d (g : Game) (h : Double.ge g.yarn (bowl_cost g) = false) :
    buy_bowl g = (g, Msg.not_enough_yarn) := by
  simp [buy_bowl, h]

theorem buy_kitten_rich_d (g : Game) (h : Double.ge g.yarn (kitten_cost g) = true) :
    buy_kitten g =
      ({ g with yarn := g.yarn - kitten_cost g, kittens := int_add g.kittens 1 },
        Msg.kitten_joins (int_add g.kittens 1)) := by
  simp [buy_kitten, h]

theorem buy_bowl_rich_d (g : Game) (h : Double.ge g.yarn (bowl_cost g) = true) :
    buy_bowl g =
      ({ g with yarn := g.yarn - bowl_cost g, bowls := int_add g.bowls 1 },
        Msg.bought_bowl (int_add g.bowls 1)) := by
  simp [buy_bowl, h]

/-- C2, as stated, fails: with 2147483647 kittens and yarn for one more, the
purchase is accepted and the counter wraps around to -2147483648 instead of
becoming kittens + 1. And the new yarn is the difference rounded to a binary64:
with yarn 1e17 and the cost 10 it is 99999999999999984, not 1e17 - 10. -/
theorem purchase_accepted_counter_wraps :
    (full_house.wf ∧ Double.ge full_house.yarn (kitten_cost full_house) = true ∧
      (buy_kitten full_house).1.kittens = -2147483648 ∧
      (buy_kitten full_house).1.kittens ≠ full_house.kittens + 1) ∧
    (hoard.wf ∧ Double.ge hoard.yarn (kitten_cost hoard) = true ∧
      hoard.yarn = Double.of_int 100000000000000000 ∧
      kitten_cost hoard = Double.of_int 10 ∧
      (buy_kitten hoard).1.yarn = Double.of_int 99999999999999984) := by
  decide!

/-- C2 (amended): a purchase command is accepted exactly when the comparison
`yarn >= cost` of the two binary64 values holds (equality included). When
accepted, the new yarn is the binary64 difference `yarn - cost` (the exact
difference rounded to nearest) and is `>= 0`; buying a kitten (`b`/`B`) leaves
bowls and kitten_base_rate unchanged and makes kittens + 1 of kittens when
kittens is below INT_MAX; buying a bowl (`u`/`U`) leaves kittens and
kitten_base_rate unchanged and makes bowls + 1 of bowls when bowls is below
INT_MAX. -/
theorem purchase_accepted (cmd : Char) (d : Disk) (w : World)
    (hk : is_int w.g.kittens) (hb : is_int w.g.bowls) :
    ((cmd = 'b' ∨ cmd = 'B') →
      ((switch_cmd cmd d w).1.out ≠ w.out ++ [Msg.not_enough_yarn] ↔
        Double.ge w.g.yarn (kitten_cost w.g) = true) ∧
      (Double.ge w.g.yarn (kitten_cost w.g) = true →
        (switch_cmd cmd d w).1.g.yarn = w.g.yarn - kitten_cost w.g ∧
        Double.ge (switch_cmd cmd d w).1.g.yarn 0.0 = true ∧
        (switch_cmd cmd d w).1.g.bowls = w.g.bowls ∧
        (switch_cmd cmd d w).1.g.kitten_base_rate = w.g.kitten_base_rate ∧
        (w.g.kittens < INT_MAX →
          (switch_cmd cmd d w).1.g.kittens = w.g.kittens + 1 ∧
          (switch_cmd cmd d w).1.out = w.out ++ [Msg.kitten_joins (w.g.kittens + 1)]))) ∧
    ((cmd = 'u' ∨ cmd = 'U') →
      ((switch_cmd cmd d w).1.out ≠ w.out ++ [Msg.not_enough_yarn] ↔
        Double.ge w.g.yarn (bowl_cost w.g) = true) ∧
      (Double.ge w.g.yarn (bowl_cost w.g) = true →
        (switch_cmd cmd d w).1.g.yarn = w.g.yarn - bowl_cost w.g ∧
        Double.ge (switch_cmd cmd d w).1.g.yarn 0.0 = true ∧
        (switch_cmd cmd d w).1.g.kittens = w.g.kittens ∧
        (switch_cmd cmd d w).1.g.kitten_base_rate = w.g.kitten_base_rate ∧
        (w.g.bowls < INT_MAX →
          (switch_cmd cmd d w).1.g.bowls = w.g.bowls + 1 ∧
          (switch_cmd cmd d w).1.out = w.out ++ [Msg.bought_bowl (w.g.bowls + 1)]))) := by
  constructor
  · intro hc
    rw [switch_buy_kitten_d cmd d w hc]
    constructor
    · constructor
      · intro hne
        by_contra hlt
        exact hne (by rw [buy_kitten_poor_d w.g (by simpa using hlt)])
      · intro hy
        rw [buy_kitten_rich_d w.g hy]
        simp
    · intro hy
      rw [buy_kitten_rich_d w.g hy]
      refine ⟨rfl, ?_, rfl, rfl, ?_⟩
      · exact (nonneg_iff_ge _).mp (sub_nonneg_of _ _ hy (kitten_cost_finite w.g hk))
      · intro hi
        simp [int_add_one w.g.kittens hk.1 hi]
  · intro hc
    rw [switch_buy_bowl_d cmd d w hc]
    constructor
    · constructor
      · intro hne
        by_contra hlt
        exact hne (by rw [buy_bowl_poor_d w.g (by simpa using hlt)])
      · intro hy
        rw [buy_bowl_rich_d w.g hy]
        simp
    · intro hy
      rw [buy_bowl_rich_d w.g hy]
      refine ⟨rfl, ?_, rfl, rfl, ?_⟩
      · exact (nonneg_iff_ge _).mp (sub_nonneg_of _ _ hy (bowl_cost_finite w.g hb))
      · intro hi
        simp [int_add_one w.g.bowls hb.1 hi]

theorem purchase_accepted_witness :
    ((switch_cmd 'b' Disk.ok wealthy).1.g.yarn = Double.of_int 84 ∧
      (switch_cmd 'b' Disk.ok wealthy).1.g.kittens = 4 ∧
      (switch_cmd 'b' Disk.ok wealthy).1.out = [Msg.kitten_joins 4]) ∧
    ((switch_cmd 'U' Disk.ok wealthy).1.g.yarn = Double.of_int 55 ∧
      (switch_cmd 'U' Disk.ok wealthy).1.g.bowls = 3 ∧
      (switch_cmd 'U' Disk.ok wealthy).1.out = [Msg.bought_bowl 3]) := by
  have hk : Double.ge wealthy.g.yarn (kitten_cost wealthy.g) = true := by decide!
  have hb : Double.ge wealthy.g.yarn (bowl_cost wealthy.g) = true := by decide!
  have h := purchase_accepted 'b' Disk.ok wealthy (by decide) (by decide)
  have h2 := purchase_accepted 'U' Disk.ok wealthy (by decide) (by decide)
  obtain ⟨y, -, -, -, k⟩ := (h.1 (Or.inl rfl)).2 hk
  obtain ⟨y2, -, -, -, k2⟩ := (h2.2 (Or.inr rfl)).2 hb
  obtain ⟨k, o⟩ := k (by decide)
  obtain ⟨k2, o2⟩ := k2 (by decide)
  refine ⟨⟨?_, ?_, ?_⟩, ?_, ?_, ?_⟩
  · rw [y]; decide!
  · rw [k]; rfl
  · rw [o]; rfl
  · rw [y2]; decide!
  · rw [k2]; rfl
  · rw [o2]; rfl

end Machine

namespace Machine

open Double

/-! ## Invariants of the loop on binary64 values -/

theorem ticks_kittens_d (n : Nat) (g : Game) : (ticks n g).kittens = g.kittens := by
  induction n generalizing g with
  | zero => rfl
  | succ n ih => exact ih (tick g)

theorem ticks_bowls_d (n : Nat) (g : Game) : (ticks n g).bowls = g.bowls := by
  induction n generalizing g with
  | zero => rfl
  | succ n ih => exact ih (tick g)

theorem ticks_base_rate_d (n : Nat) (g : Game) :
    (ticks n g).kitten_base_rate = g.kitten_base_rate := by
  induction n generalizing g with
  | zero => rfl
  | succ n ih => exact ih (tick g)

theorem safe_is_int (n : Nat) (r : Game) (h : safe_record n r) :
    is_int r.kittens ∧ is_int r.bowls := by
  obtain ⟨-, -, -, h3, h4, h5, h6⟩ := h
  unfold is_int INT_MIN
  unfold INT_MAX at *
  refine ⟨⟨?_, ?_⟩, ?_, ?_⟩ <;> omega

theorem safe_record_mono (n : Nat) (r : Game) (h : safe_record (n + 1) r) : safe_record n r := by
  obtain ⟨h1, h2, h2', h3, h4, h5, h6⟩ := h
  refine ⟨h1, h2, h2', h3, ?_, h5, ?_⟩ <;> push_cast at * <;> omega

theorem safe_record_zero (n : Nat) (r : Game) (h : safe_record n r) : safe_record 0 r := by
  induction n with
  | zero => exact h
  | succ n ih => exact ih (safe_record_mono n r h)

theorem safe_file_mono (n : Nat) (file : Option SaveFile) (h : safe_file (n + 1) file) :
    safe_file n file := by
  unfold safe_file at *
  split
  · trivial
  · rename_i f
    split
    · trivial
    · rename_i r rest hr
      simp only [hr] at h
      exact safe_record_mono n r h

/-- The rate of a kitten is `>= 0` and finite when the base rate is `>= 0` and
at most `2^900` and bowls is a non-negative `int`. -/
theorem kitten_rate_safe (n : Nat) (g : Game) (h : safe_record n g) :
    nonneg (kitten_rate g) ∧ within 2004 (kitten_rate g) := by
  have hb := (safe_is_int n g h).2
  obtain ⟨-, h2, h2', -, -, h5, -⟩ := h
  obtain ⟨-, w1, -, -, w25⟩ := within_lits
  obtain ⟨-, n1, -, -, n25⟩ := nonneg_lits
  have wB := of_int_within g.bowls hb
  have nB := of_int_nonneg g.bowls h5
  have wq := mul_within (0.25 : Double) (of_int g.bowls) 1072 1105 1103 w25 wB
    (by norm_num) (by norm_num)
  have nq := mul_nonneg_of (0.25 : Double) (of_int g.bowls) n25 nB w25.1 wB.1
  have wm := add_within_le (1.0 : Double) (mul (0.25 : Double) (of_int g.bowls)) 1103
    (within_mono _ _ _ w1 (by norm_num)) wq (by norm_num)
  have nm := add_nonneg_of (1.0 : Double) (mul (0.25 : Double) (of_int g.bowls)) n1 nq
  exact ⟨mul_nonneg_of _ _ h2 nm h2'.1 wm.1,
    mul_within _ _ 1974 1104 2004 h2' wm (by norm_num) (by norm_num)⟩

theorem tick_safe (n : Nat) (g : Game) (h : safe_record n g) : safe_record n (tick g) := by
  obtain ⟨nr, wr⟩ := kitten_rate_safe n g h
  have hk := (safe_is_int n g h).1
  obtain ⟨h1, h2, h2', h3, h4, h5, h6⟩ := h
  refine ⟨?_, h2, h2', h3, h4, h5, h6⟩
  have wK := of_int_within g.kittens hk
  have nK := of_int_nonneg g.kittens h3
  have wt := mul_within (of_int g.kittens) (kitten_rate g) 1105 2004 2035 wK wr
    (by norm_num) (by norm_num)
  have nt := mul_nonneg_of (of_int g.kittens) (kitten_rate g) nK nr wK.1 wr.1
  have ni := mul_nonneg_of (mul (of_int g.kittens) (kitten_rate g)) dt nt dt_within.2 wt.1
    dt_within.1.1
  exact add_nonneg_of g.yarn _ h1 ni

theorem ticks_safe (k n : Nat) (g : Game) (h : safe_record n g) : safe_record n (ticks k g) := by
  induction k generalizing g with
  | zero => exact h
  | succ k ih => exact ih (tick g) (tick_safe n g h)

theorem gather_safe (n : Nat) (g : Game) (h : safe_record n g) : safe_record n (gather g).1 := by
  obtain ⟨h1, h2, h2', h3, h4, h5, h6⟩ := h
  exact ⟨add_nonneg_of g.yarn (1.0 : Double) h1 nonneg_lits.2.1, h2, h2', h3, h4, h5, h6⟩

theorem buy_kitten_safe (n : Nat) (g : Game) (h : safe_record (n + 1) g) :
    safe_record n (buy_kitten g).1 := by
  have hk := (safe_is_int _ g h).1
  cases hy : Double.ge g.yarn (kitten_cost g) with
  | true =>
    obtain ⟨h1, h2, h2', h3, h4, h5, h6⟩ := h
    have e : int_add g.kittens 1 = g.kittens + 1 :=
      int_add_one g.kittens hk.1 (by push_cast at h4; omega)
    rw [buy_kitten_rich_d g hy]
    refine ⟨sub_nonneg_of _ _ hy (kitten_cost_finite g hk), h2, h2', ?_, ?_, h5, ?_⟩
    · show 0 ≤ int_add g.kittens 1
      omega
    · show int_add g.kittens 1 + (n : Int) ≤ INT_MAX
      push_cast at h4
      omega
    · show g.bowls + (n : Int) ≤ INT_MAX
      push_cast at h6
      omega
  | false =>
    rw [buy_kitten_poor_d g hy]
    exact safe_record_mono n g h

theorem buy_bowl_safe (n : Nat) (g : Game) (h : safe_record (n + 1) g) :
    safe_record n (buy_bowl g).1 := by
  have hb := (safe_is_int _ g h).2
  cases hy : Double.ge g.yarn (bowl_cost g) with
  | true =>
    obtain ⟨h1, h2, h2', h3, h4, h5, h6⟩ := h
    have e : int_add g.bowls 1 = g.bowls + 1 :=
      int_add_one g.bowls hb.1 (by push_cast at h6; omega)
    rw [buy_bowl_rich_d g hy]
    refine ⟨sub_nonneg_of _ _ hy (bowl_cost_finite g hb), h2, h2', h3, ?_, ?_, ?_⟩
    · show g.kittens + (n : Int) ≤ INT_MAX
      push_cast at h4
      omega
    · show 0 ≤ int_add g.bowls 1
      omega
    · show int_add g.bowls 1 + (n : Int) ≤ INT_MAX
      push_cast at h6
      omega
  | false =>
    rw [buy_bowl_poor_d g hy]
    exact safe_record_mono n g h

theorem save_game_safe (n : Nat) (g : Game) (d : Disk) (file : Option SaveFile)
    (hg : safe_record n g) (hf : safe_file n file) : safe_file n (save_game g d file).2 := by
  cases d with
  | fopen_fails => exact hf
  | fwrite_fails written => simp [save_game, safe_file]
  | fclose_fails written => simp [save_game, safe_file]
  | ok => simpa [save_game, safe_file] using hg

theorem load_game_safe (n : Nat) (g : Game) (file : Option SaveFile)
    (hg : safe_record n g) (hf : safe_file n file) : safe_record n (load_game g file).2 := by
  unfold load_game
  unfold safe_file at hf
  split
  · exact hg
  · rename_i f
    split
    · exact hg
    · rename_i r rest hr
      simp only [hr] at hf
      exact hf

theorem switch_cmd_safe (n : Nat) (cmd : Char) (d : Disk) (w : World)
    (hg : safe_record (n + 1) w.g) (hf : safe_file (n + 1) w.file) :
    safe_record n (switch_cmd cmd d w).1.g ∧ safe_file n (switch_cmd cmd d w).1.file := by
  have hg0 := safe_record_mono n w.g hg
  have hf0 := safe_file_mono n w.file hf
  unfold switch_cmd
  split_ifs <;> dsimp only
  · exact ⟨gather_safe n w.g hg0, hf0⟩
  · exact ⟨buy_kitten_safe n w.g hg, hf0⟩
  · exact ⟨buy_bowl_safe n w.g hg, hf0⟩
  · exact ⟨hg0, save_game_safe n w.g d w.file hg0 hf0⟩
  · exact ⟨hg0, save_game_safe n w.g d w.file hg0 hf0⟩
  · exact ⟨load_game_safe n w.g w.file hg0 hf0, hf0⟩
  · exact ⟨load_game_safe n w.g w.file hg0 hf0, hf0⟩
  · exact ⟨hg0, hf0⟩
  · exact ⟨hg0, hf0⟩

theorem iteration_safe (n : Nat) (i : Input) (w : World)
    (hg : safe_record (n + 1) w.g) (hf : safe_file (n + 1) w.file) :
    safe_record n (iteration i w).1.g ∧ safe_file n (iteration i w).1.file := by
  have h := switch_cmd_safe n (first_char i.buf) i.disk
    { w with out := w.out ++ [print_ui w.g] } hg hf
  unfold iteration
  dsimp only
  split_ifs
  · exact ⟨ticks_safe 5 n _ h.1, h.2⟩
  · exact h

theorem game_loop_safe (stdin : List Input) (w : World)
    (hg : safe_record stdin.length w.g) (hf : safe_file stdin.length w.file) :
    safe_record 0 (game_loop stdin w).g := by
  induction stdin generalizing w with
  | nil => exact hg
  | cons i rest ih =>
    have h := iteration_safe rest.length i w hg hf
    unfold game_loop
    split_ifs
    · exact ih _ h.1 h.2
    · exact safe_record_zero _ _ h.1

set_option maxRecDepth 100000 in
/-- C3, as stated, fails: started with a save file of the right length whose
record has negative yarn, kittens and bowls, the single command load leaves all
three negative. Started with a save file whose record has 2147483647 kittens
and the yarn for one more, load followed by buy-kitten leaves kittens negative.
And started with a save file whose record has yarn 0, no kittens, four bowls and
the base rate 1e308, load leaves yarn a NaN (the tick adds 0 times infinity),
for which `yarn >= 0` is false. -/
theorem negative_after_load :
    (Double.lt (main [⟨['l', '\n'], Disk.ok⟩] (some garbage)).2.g.yarn 0.0 = true ∧
      Double.ge (main [⟨['l', '\n'], Disk.ok⟩] (some garbage)).2.g.yarn 0.0 = false ∧
      (main [⟨['l', '\n'], Disk.ok⟩] (some garbage)).2.g.kittens < 0 ∧
      (main [⟨['l', '\n'], Disk.ok⟩] (some garbage)).2.g.bowls < 0) ∧
    (main [⟨['l', '\n'], Disk.ok⟩, ⟨['b', '\n'], Disk.ok⟩] (some ⟨[full_house], 0⟩)).2.g.kittens
      < 0 ∧
    ((main [⟨['l', '\n'], Disk.ok⟩] (some overflowing)).2.g.yarn = Double.nan ∧
      Double.ge (main [⟨['l', '\n'], Disk.ok⟩] (some overflowing)).2.g.yarn 0.0 = false) := by
  decide!

/-- C3 (amended): when the game is run on an input of n lines, n at most
INT_MAX, and the save file found at start is absent, shorter than one record,
or starts with a record whose yarn is `>= 0` (so not a NaN), whose
kitten_base_rate is `>= 0` and at most `2^900`, and whose kittens and bowls lie
between 0 and INT_MAX - n, then the state the loop ends in (and so every state
on the way, each being the end of a shorter input) has `yarn >= 0`,
kittens >= 0 and bowls >= 0. -/
theorem yarn_and_counters_nonneg (stdin : List Input) (file : Option SaveFile)
    (hn : (stdin.length : Int) ≤ INT_MAX) (hf : safe_file stdin.length file) :
    Double.ge (main stdin file).2.g.yarn 0.0 = true ∧
    0 ≤ (main stdin file).2.g.kittens ∧
    0 ≤ (main stdin file).2.g.bowls := by
  have h0 : safe_record stdin.length initial := by
    have c : nonneg initial.yarn ∧ nonneg initial.kitten_base_rate ∧
        within 1974 initial.kitten_base_rate := by decide!
    refine ⟨c.1, c.2.1, c.2.2, ?_, ?_, ?_, ?_⟩
    · simp [initial]
    · simpa [initial] using hn
    · simp [initial]
    · simpa [initial] using hn
  have h := game_loop_safe stdin { g := initial, file := file, out := [] } h0 hf
  exact ⟨(nonneg_iff_ge _).mp h.1, h.2.2.2.1, h.2.2.2.2.2.1⟩

theorem yarn_and_counters_nonneg_witness :
    Double.ge (main session (some tidy)).2.g.yarn 0.0 = true ∧
    0 ≤ (main session (some tidy)).2.g.kittens ∧
    0 ≤ (main session (some tidy)).2.g.bowls :=
  yarn_and_counters_nonneg session (some tidy) (by decide) (by decide!)

end Machine

namespace Double

/-! ## From units to values -/

theorem pow_div_pow (a b : Nat) : (2 : ℚ) ^ a / 2 ^ (a + b) = 1 / 2 ^ b := by
  have h : (2 : ℚ) ^ a ≠ 0 := pow_ne_zero _ two_ne_zero
  rw [pow_add, ← div_div, div_self h]

/-- A value whose units are `N * 2^a` is `N / 2^b`, where `a + b = 1074`. -/
theorem value_of_units (d : Double) (N : Int) (a b : Nat) (h : units d = N * 2 ^ a)
    (hab : a + b = 1074) : value d = (N : ℚ) / 2 ^ b := by
  unfold value
  rw [h, ← hab]
  push_cast
  rw [mul_div_assoc, pow_div_pow, mul_one_div]

/-- A value whose units are within `2^a` of `c * 2^1074` is within `1 / 2^b` of
`c`, where `a + b = 1074`. -/
theorem value_near (d : Double) (c : Int) (a b : Nat) (hab : a + b = 1074)
    (h1 : c * 2 ^ 1074 - 2 ^ a ≤ units d) (h2 : units d ≤ c * 2 ^ 1074 + 2 ^ a) :
    |value d - (c : ℚ)| ≤ 1 / 2 ^ b := by
  have hP : (0 : ℚ) < 2 ^ 1074 := by positivity
  have q1 : (c : ℚ) * 2 ^ 1074 - 2 ^ a ≤ (units d : ℚ) := by exact_mod_cast h1
  have q2 : (units d : ℚ) ≤ (c : ℚ) * 2 ^ 1074 + 2 ^ a := by exact_mod_cast h2
  have e : (1 : ℚ) / 2 ^ b = 2 ^ a / 2 ^ 1074 := by rw [← hab, pow_div_pow]
  unfold value
  rw [e, abs_le]
  constructor
  · rw [le_sub_iff_add_le, ← sub_eq_neg_add, le_div_iff₀ hP, sub_mul, div_mul_cancel₀ _ hP.ne']
    exact q1
  · rw [sub_le_iff_le_add, div_le_iff₀ hP, add_mul, div_mul_cancel₀ _ hP.ne', add_comm]
    exact q2

end Double

namespace Machine

open Double

/-! ## The cost of a kitten in binary64 -/

/-- C7, as stated, fails: for a record with seven kittens the program computes
the cost `24 + 2^(-48)` (printed as 24.000000000000004), not `10 + 2 * 7 = 24`;
with 24 yarn the kitten is refused. -/
theorem kitten_cost_seven_rounds :
    kitten_cost seven_kittens = Double.fin false 6755399441055745 1026 ∧
    Double.units (kitten_cost seven_kittens) = 24 * 2 ^ 1074 + 2 ^ 1026 ∧
    Double.eq (kitten_cost seven_kittens) (Double.of_int (10 + 2 * 7)) = false ∧
    Double.lt (Double.of_int (10 + 2 * 7)) (kitten_cost seven_kittens) = true ∧
    seven_kittens.yarn = Double.of_int 24 ∧
    buy_kitten seven_kittens = (seven_kittens, Msg.not_enough_yarn) := by
  decide!

/-- C7 (amended): for every `int` kitten count k the cost of a kitten is the
binary64 result of `10.0 * (1.0 + 0.2 * k)`; it is finite and within `2^(-17)`
of `10 + 2 * k`; for k from 0 to 6 it is exactly the binary64 value of
`10 + 2 * k`; and it is strictly increasing in k: k1 < k2 implies
`kitten_cost(k1) < kitten_cost(k2)`. -/
theorem kitten_cost_formula (g g2 : Game) (hk : is_int g.kittens) (hk2 : is_int g2.kittens) :
    kitten_cost g = 10.0 * (1.0 + 0.2 * Double.of_int g.kittens) ∧
    (kitten_cost g).finite = true ∧
    |Double.value (kitten_cost g) - (10 + 2 * (g.kittens : ℚ))| ≤ 1 / 2 ^ 17 ∧
    (0 ≤ g.kittens → g.kittens ≤ 6 → kitten_cost g = Double.of_int (10 + 2 * g.kittens)) ∧
    (g.kittens < g2.kittens → Double.lt (kitten_cost g) (kitten_cost g2) = true) := by
  obtain ⟨f1, a1, b1⟩ := kitten_cost_units g hk
  obtain ⟨f2, a2, b2⟩ := kitten_cost_units g2 hk2
  refine ⟨by unfold kitten_cost; rfl, f1, ?_, ?_, ?_⟩
  · have h := value_near (kitten_cost g) (10 + 2 * g.kittens) 1057 17 (by norm_num) a1 b1
    push_cast at h
    exact h
  · intro h0 h6
    have e : kitten_cost g = 10.0 * (1.0 + 0.2 * Double.of_int g.kittens) := by
      unfold kitten_cost
      rfl
    rw [e]
    generalize g.kittens = k at h0 h6
    interval_cases k <;> decide!
  · intro hlt
    rw [lt_fin _ _ f1 f2]
    have p : (0 : Int) < 2 ^ 1057 := by positivity
    have e : (2 : Int) ^ 1074 = 2 ^ 1057 * 131072 := by
      rw [show (131072 : Int) = 2 ^ 17 by norm_num, ← pow_add]
    rw [e] at b1 a2
    clear a1 b2 e
    generalize (2 : Int) ^ 1057 = P at p b1 a2
    have hstep : 0 ≤ (g2.kittens - g.kittens - 1) * P := mul_nonneg (by omega) p.le
    linarith

theorem kitten_cost_formula_witness :
    kitten_cost seven_kittens = 10.0 * (1.0 + 0.2 * Double.of_int seven_kittens.kittens) ∧
    (kitten_cost seven_kittens).finite = true ∧
    |Double.value (kitten_cost seven_kittens) - (10 + 2 * (seven_kittens.kittens : ℚ))|
      ≤ 1 / 2 ^ 17 ∧
    (0 ≤ seven_kittens.kittens → seven_kittens.kittens ≤ 6 →
      kitten_cost seven_kittens = Double.of_int (10 + 2 * seven_kittens.kittens)) ∧
    (seven_kittens.kittens < full_house.kittens →
      Double.lt (kitten_cost seven_kittens) (kitten_cost full_house) = true) :=
  kitten_cost_formula seven_kittens full_house (by decide) (by decide)

end Machine

namespace Double

/-- A finite value equal to `N / 2^b` with `b <= 1074` has the units
`N * 2^(1074 - b)`. -/
theorem units_of_value (d : Double) (N : Int) (b : Nat) (hb : b ≤ 1074)
    (h : value d = (N : ℚ) / 2 ^ b) : units d = N * 2 ^ (1074 - b) := by
  have hB : (2 : ℚ) ^ b ≠ 0 := pow_ne_zero _ two_ne_zero
  have hP : (2 : ℚ) ^ 1074 ≠ 0 := pow_ne_zero _ two_ne_zero
  have e : (2 : ℚ) ^ 1074 = 2 ^ (1074 - b) * 2 ^ b := by
    rw [← pow_add, Nat.sub_add_cancel hb]
  unfold value at h
  rw [div_eq_div_iff hP hB, e, ← mul_assoc] at h
  have h2 : (units d : ℚ) = (N : ℚ) * 2 ^ (1074 - b) := mul_right_cancel₀ hB h
  exact_mod_cast h2

end Double

namespace Machine

open Double

/-! ## Gather in binary64 -/

theorem switch_gather_d (cmd : Char) (d : Disk) (w : World) (h : cmd = 'g' ∨ cmd = 'G') :
    switch_cmd cmd d w =
      ({ w with g := { w.g with yarn := w.g.yarn + 1.0 }, out := w.out ++ [Msg.gathered] },
        true) := by
  rcases h with rfl | rfl <;> simp [switch_cmd, gather]

/-- Adding `1.0` to a finite `N / 2^b` with `|N| + 2^b <= 2^53` is exact. -/
theorem add_one_exact (y : Double) (N : Int) (b : Nat) (hf : y.finite = true) (hb : b ≤ 1074)
    (hy : value y = (N : ℚ) / 2 ^ b) (hN : N.natAbs + 2 ^ b ≤ 2 ^ 53) :
    (y + 1.0).finite = true ∧ value (y + 1.0) = value y + 1 := by
  have hu := units_of_value y N b hb hy
  obtain ⟨f1, u1⟩ := lit_one
  have e1 : (2 : Int) ^ 1074 = 2 ^ b * 2 ^ (1074 - b) := by
    rw [← pow_add, Nat.add_sub_cancel' hb]
  have hs : units y + units (1.0 : Double) = (N + 2 ^ b) * 2 ^ (1074 - b) := by
    rw [hu, u1, e1]
    ring
  have hp : (0 : Int) < 2 ^ b := by positivity
  have hcast : ((2 ^ b : Nat) : Int) = 2 ^ b := by push_cast; rfl
  have hna : (units y + units (1.0 : Double)).natAbs = (N + 2 ^ b).natAbs * 2 ^ (1074 - b) := by
    rw [hs, Int.natAbs_mul, Int.natAbs_pow]
    rfl
  have hbig : (N + 2 ^ b).natAbs ≤ 2 ^ 53 := by omega
  have hlt : (N + 2 ^ b).natAbs * 2 ^ (1074 - b) < 2 ^ 2098 := by
    calc (N + 2 ^ b).natAbs * 2 ^ (1074 - b) ≤ 2 ^ 53 * 2 ^ 1074 :=
          Nat.mul_le_mul hbig (Nat.pow_le_pow_right (by norm_num) (Nat.sub_le _ _))
      _ = 2 ^ 1127 := by rw [← pow_add]
      _ < 2 ^ 2098 := Nat.pow_lt_pow_right (by norm_num) (by norm_num)
  have key : (add y (1.0 : Double)).finite = true ∧
      units (add y (1.0 : Double)) = units y + units (1.0 : Double) := by
    rcases Nat.lt_or_ge (N + 2 ^ b).natAbs (2 ^ 53) with c | c
    · exact add_exact y (1.0 : Double) (N + 2 ^ b).natAbs (1074 - b) hf f1 hna c
        (by rw [hna]; exact hlt)
    · have c2 : (N + 2 ^ b).natAbs = 2 ^ 53 := le_antisymm hbig c
      refine add_exact y (1.0 : Double) 1 (53 + (1074 - b)) hf f1 ?_ (by norm_num)
        (by rw [hna]; exact hlt)
      rw [hna, c2, pow_add, one_mul]
  refine ⟨key.1, ?_⟩
  show value (add y (1.0 : Double)) = value y + 1
  unfold value
  rw [key.2, u1]
  have hP : (2 : ℚ) ^ 1074 ≠ 0 := pow_ne_zero _ two_ne_zero
  push_cast
  rw [add_div, div_self hP]

/-- C12, as stated, fails: at yarn = 2^53 = 9007199254740992, where the
binary64 values are 2 apart, `g.yarn += 1.0` rounds back to 2^53 and the gather
command leaves the record as it was. -/
theorem gather_at_2_53 :
    yarn_2_53.yarn = Double.of_int (2 ^ 53) ∧
    (gather yarn_2_53).1.yarn = yarn_2_53.yarn ∧
    (switch_cmd 'g' Disk.ok ⟨yarn_2_53, none, []⟩).1.g = yarn_2_53 := by
  decide!

/-- C12 (amended): for every state the gather command (`g` or `G`) succeeds,
tests no condition, prints the gather message and replaces yarn by the binary64
sum `yarn + 1.0`, leaving kittens, bowls, kitten_base_rate and the save file
unchanged. The sum is exactly yarn + 1 whenever yarn is a finite `N / 2^b` with
`b <= 1074` and `|N| + 2^b <= 2^53`, so for every integer yarn from `1 - 2^53`
to `2^53 - 1`. -/
theorem gather_adds_one (cmd : Char) (d : Disk) (w : World) (N : Int) (b : Nat)
    (h : cmd = 'g' ∨ cmd = 'G') :
    switch_cmd cmd d w =
      ({ w with g := { w.g with yarn := w.g.yarn + 1.0 }, out := w.out ++ [Msg.gathered] },
        true) ∧
    (w.g.yarn.finite = true → b ≤ 1074 → Double.value w.g.yarn = (N : ℚ) / 2 ^ b →
      N.natAbs + 2 ^ b ≤ 2 ^ 53 →
      (switch_cmd cmd d w).1.g.yarn.finite = true ∧
      Double.value (switch_cmd cmd d w).1.g.yarn = Double.value w.g.yarn + 1) := by
  refine ⟨switch_gather_d cmd d w h, ?_⟩
  intro hf hb hy hN
  rw [switch_gather_d cmd d w h]
  exact add_one_exact w.g.yarn N b hf hb hy hN

theorem gather_adds_one_witness :
    switch_cmd 'g' Disk.ok wealthy =
      ({ wealthy with g := { wealthy.g with yarn := wealthy.g.yarn + 1.0 },
                      out := wealthy.out ++ [Msg.gathered] }, true) ∧
    (switch_cmd 'g' Disk.ok wealthy).1.g.yarn.finite = true ∧
    Double.value (switch_cmd 'g' Disk.ok wealthy).1.g.yarn = Double.value wealthy.g.yarn + 1 :=
  ⟨(gather_adds_one 'g' Disk.ok wealthy 100 0 (Or.inl rfl)).1,
    (gather_adds_one 'g' Disk.ok wealthy 100 0 (Or.inl rfl)).2 (by decide!) (by decide)
      (Double.value_of_units wealthy.g.yarn 100 1074 0 (by decide!) rfl) (by decide)⟩

end Machine

namespace Double

/-- A relative error bound on units is the same bound on values. -/
theorem value_rel (d : Double) (c : Int) (a b : Nat) (hab : a + b = 1074)
    (h : 2 ^ 53 * |units d - c * 2 ^ a| ≤ |c * 2 ^ a|) :
    2 ^ 53 * |value d - (c : ℚ) / 2 ^ b| ≤ |(c : ℚ) / 2 ^ b| := by
  have hP : (0 : ℚ) < 2 ^ 1074 := by positivity
  have hq : (2 : ℚ) ^ 53 * |(units d : ℚ) - (c : ℚ) * 2 ^ a| ≤ |(c : ℚ) * 2 ^ a| := by
    exact_mod_cast h
  have e : (c : ℚ) / 2 ^ b = (c : ℚ) * 2 ^ a / 2 ^ 1074 := by
    rw [mul_div_assoc, ← hab, pow_div_pow, mul_one_div]
  unfold value
  rw [e, ← sub_div, abs_div, abs_div, abs_of_pos hP, ← mul_div_assoc]
  exact div_le_div_of_nonneg_right hq hP.le

/-- Two finite values with the same units compare equal. -/
theorem eq_of_units (x y : Double) (fx : x.finite = true) (fy : y.finite = true)
    (h : units x = units y) : Double.eq x y = true := by
  unfold Double.eq
  rw [(le_fin x y fx fy).mpr (le_of_eq h), (le_fin y x fy fx).mpr (le_of_eq h.symm)]
  rfl

/-- A value compares equal to `0.0` exactly when it is a finite zero. -/
theorem eq_zero_iff (x : Double) :
    Double.eq x 0.0 = true ↔ x.finite = true ∧ units x = 0 := by
  rw [lit_zero]
  cases x with
  | nan => simp [Double.eq, le, finite]
  | inf s => cases s <;> simp [Double.eq, le, finite]
  | fin s m e =>
    have hz : units (fin false 0 0) = 0 := by simp [units]
    simp only [Double.eq, le, Bool.and_eq_true, decide_eq_true_eq, finite, true_and, hz]
    omega

/-- The product of a finite zero and a finite value is a finite zero. -/
theorem zero_mul_fin (x y : Double) (fx : x.finite = true) (fy : y.finite = true)
    (h : units x = 0) : (mul x y).finite = true ∧ units (mul x y) = 0 :=
  mul_exact x y 0 0 0 fx fy (by rw [h]; ring) (by simp) (by norm_num) (by
    simp only [Int.natAbs_zero]
    exact Nat.two_pow_pos _)

/-- Adding a finite zero to a finite binary64 value gives a value with the
same units. -/
theorem add_zero_fin (x z : Double) (hx : x.wf) (fx : x.finite = true) (fz : z.finite = true)
    (h : units z = 0) : (add x z).finite = true ∧ units (add x z) = units x := by
  obtain ⟨s, m, e, rfl⟩ := finite_fin x fx
  obtain ⟨hm, he, -⟩ := hx
  have hna : (units (fin s m e) + units z).natAbs = m * 2 ^ e := by
    rw [h, add_zero, natAbs_units_fin]
  have hb : m * 2 ^ e < 2 ^ 2098 := by
    calc m * 2 ^ e < 2 ^ 53 * 2 ^ e := Nat.mul_lt_mul_of_pos_right hm (Nat.two_pow_pos _)
      _ ≤ 2 ^ 53 * 2 ^ 2045 := Nat.mul_le_mul_left _ (Nat.pow_le_pow_right (by norm_num) he)
      _ = 2 ^ 2098 := by rw [← pow_add]
  have k := add_exact (fin s m e) z m e fx fz hna hm (by rw [hna]; exact hb)
  rw [h, add_zero] at k
  exact k

end Double

namespace Machine

open Double

/-! ## The passive rate in binary64 -/

/-- The multiplier `1.0 + 0.25 * bowls` is exact for every `int`. -/
theorem mult_exact (b : Int) (hb : is_int b) :
    (1.0 + 0.25 * Double.of_int b : Double).finite = true ∧
    units (1.0 + 0.25 * Double.of_int b : Double) = (4 + b) * 2 ^ 1072 := by
  obtain ⟨fB, uB⟩ := of_int_spec b (natAbs_int _ hb)
  obtain ⟨f1, u1⟩ := lit_one
  obtain ⟨f25, u25⟩ := lit_quarter
  unfold is_int INT_MIN INT_MAX at hb
  have e4 : (2 : Int) ^ 1074 = 4 * 2 ^ 1072 := by
    rw [show (4 : Int) = 2 ^ 2 by norm_num, ← pow_add]
  have hq := mul_exact (0.25 : Double) (Double.of_int b) (b * 2 ^ 1072) b.natAbs 1072 f25 fB
    (by rw [u25, uB]; ring) (by rw [Int.natAbs_mul, Int.natAbs_pow]; rfl) (by omega) (by
      rw [Int.natAbs_mul, Int.natAbs_pow]
      calc b.natAbs * (2 : Int).natAbs ^ 1072 < 2 ^ 53 * 2 ^ 1072 :=
            Nat.mul_lt_mul_of_pos_right (by omega) (Nat.two_pow_pos _)
        _ = 2 ^ 1125 := by rw [← pow_add]
        _ ≤ 2 ^ 2098 := Nat.pow_le_pow_right (by norm_num) (by norm_num))
  obtain ⟨fq, uq⟩ := hq
  have hs : units (1.0 : Double) + units (mul (0.25 : Double) (Double.of_int b)) =
      (4 + b) * 2 ^ 1072 := by
    rw [u1, uq, e4]
    ring
  have hna : (units (1.0 : Double) + units (mul (0.25 : Double) (Double.of_int b))).natAbs =
      (4 + b).natAbs * 2 ^ 1072 := by
    rw [hs, Int.natAbs_mul, Int.natAbs_pow]
    rfl
  have ha := add_exact (1.0 : Double) (mul (0.25 : Double) (Double.of_int b)) (4 + b).natAbs 1072
    f1 fq hna (by omega) (by
      rw [hna]
      calc (4 + b).natAbs * 2 ^ 1072 < 2 ^ 53 * 2 ^ 1072 :=
            Nat.mul_lt_mul_of_pos_right (by omega) (Nat.two_pow_pos _)
        _ = 2 ^ 1125 := by rw [← pow_add]
        _ ≤ 2 ^ 2098 := Nat.pow_le_pow_right (by norm_num) (by norm_num))
  rw [hs] at ha
  exact ha

/-- With the base rate 0.5 the rate of a kitten is exactly `(4 + bowls) / 8`. -/
theorem kitten_rate_half (g : Game) (hb : is_int g.bowls) (hr : g.kitten_base_rate = 0.5) :
    (kitten_rate g).finite = true ∧ units (kitten_rate g) = (4 + g.bowls) * 2 ^ 1071 := by
  obtain ⟨fm, um⟩ := mult_exact g.bowls hb
  obtain ⟨fh, uh⟩ := lit_half
  unfold is_int INT_MIN INT_MAX at hb
  have e : (2 : Int) ^ 1073 * 2 ^ 1072 = 2 ^ 1071 * 2 ^ 1074 := by
    rw [← pow_add, ← pow_add]
  have h := mul_exact (0.5 : Double) (1.0 + 0.25 * Double.of_int g.bowls)
    ((4 + g.bowls) * 2 ^ 1071) (4 + g.bowls).natAbs 1071 fh fm
    (by rw [uh, um]; linear_combination (4 + g.bowls) * e)
    (by rw [Int.natAbs_mul, Int.natAbs_pow]; rfl) (by omega) (by
      rw [Int.natAbs_mul, Int.natAbs_pow]
      calc (4 + g.bowls).natAbs * (2 : Int).natAbs ^ 1071 < 2 ^ 53 * 2 ^ 1071 :=
            Nat.mul_lt_mul_of_pos_right (by omega) (Nat.two_pow_pos _)
        _ = 2 ^ 1124 := by rw [← pow_add]
        _ ≤ 2 ^ 2098 := Nat.pow_le_pow_right (by norm_num) (by norm_num))
  unfold kitten_rate
  rw [hr]
  exact h

end Machine

namespace Machine

open Double

theorem int_prod_bound (k b : Int) (hk : is_int k) (hb : is_int b) :
    (k * (4 + b)).natAbs < 2 ^ 63 := by
  unfold is_int INT_MIN INT_MAX at hk hb
  rw [Int.natAbs_mul]
  calc k.natAbs * (4 + b).natAbs ≤ 2 ^ 31 * (2 ^ 31 + 4) :=
        Nat.mul_le_mul (by omega) (by omega)
    _ < 2 ^ 63 := by norm_num

/-- With the base rate 0.5 the total passive rate is within the relative error
`2^(-53)` of `kittens * (4 + bowls) / 8`, and equal to it when
`|kittens * (4 + bowls)| < 2^53`. -/
theorem passive_rate_half (g : Game) (hk : is_int g.kittens) (hb : is_int g.bowls)
    (hr : g.kitten_base_rate = 0.5) :
    (passive_rate g).finite = true ∧
    2 ^ 53 * |units (passive_rate g) - g.kittens * (4 + g.bowls) * 2 ^ 1071| ≤
      |g.kittens * (4 + g.bowls) * 2 ^ 1071| ∧
    ((g.kittens * (4 + g.bowls)).natAbs < 2 ^ 53 →
      units (passive_rate g) = g.kittens * (4 + g.bowls) * 2 ^ 1071) := by
  obtain ⟨fK, uK⟩ := of_int_spec g.kittens (natAbs_int _ hk)
  obtain ⟨fR, uR⟩ := kitten_rate_half g hb hr
  have hp := int_prod_bound g.kittens g.bowls hk hb
  have hprod : units (Double.of_int g.kittens) * units (kitten_rate g) =
      g.kittens * (4 + g.bowls) * 2 ^ 1071 * 2 ^ 1074 := by
    rw [uK, uR]
    ring
  have hna : (g.kittens * (4 + g.bowls) * 2 ^ 1071).natAbs =
      (g.kittens * (4 + g.bowls)).natAbs * 2 ^ 1071 := by
    rw [Int.natAbs_mul, Int.natAbs_pow]
    rfl
  have hbig : (g.kittens * (4 + g.bowls)).natAbs * 2 ^ 1071 ≤ 2 ^ 2097 := by
    calc (g.kittens * (4 + g.bowls)).natAbs * 2 ^ 1071 ≤ 2 ^ 63 * 2 ^ 1071 :=
          Nat.mul_le_mul_right _ hp.le
      _ = 2 ^ 1134 := by rw [← pow_add]
      _ ≤ 2 ^ 2097 := Nat.pow_le_pow_right (by norm_num) (by norm_num)
  have h := mul_rel (Double.of_int g.kittens) (kitten_rate g)
    (g.kittens * (4 + g.bowls) * 2 ^ 1071) fK fR hprod (by rw [hna]; exact hbig)
  refine ⟨h.1, h.2, ?_⟩
  intro hsmall
  exact (mul_exact (Double.of_int g.kittens) (kitten_rate g)
    (g.kittens * (4 + g.bowls) * 2 ^ 1071) (g.kittens * (4 + g.bowls)).natAbs 1071 fK fR hprod
    hna hsmall (by
      rw [hna]
      exact lt_of_le_of_lt hbig (Nat.pow_lt_pow_right (by norm_num) (by norm_num)))).2

/-- With no kittens the total passive rate compares equal to zero exactly when
the rate of a kitten is finite. -/
theorem passive_rate_no_kittens (g : Game) (hk : g.kittens = 0) :
    Double.eq (passive_rate g) 0.0 = true ↔ (kitten_rate g).finite = true := by
  have h0 : Double.of_int 0 = fin false 0 0 := by decide!
  have e : passive_rate g = mul (fin false 0 0) (kitten_rate g) := by
    unfold passive_rate
    rw [hk, h0]
    rfl
  rw [e, eq_zero_iff]
  cases hr : kitten_rate g with
  | nan => simp [mul, finite]
  | inf s => simp [mul, finite]
  | fin t n f =>
    have z := zero_mul_fin (fin false 0 0) (fin t n f) rfl rfl (by simp [units])
    exact ⟨fun _ => rfl, fun _ => z⟩

theorem kitten_rate_within (g : Game) (hb : is_int g.bowls)
    (h : within 1974 g.kitten_base_rate) : within 2004 (kitten_rate g) := by
  obtain ⟨-, w1, -, -, w25⟩ := within_lits
  have wB := of_int_within g.bowls hb
  have wq := mul_within (0.25 : Double) (Double.of_int g.bowls) 1072 1105 1103 w25 wB
    (by norm_num) (by norm_num)
  have wm := add_within_le (1.0 : Double) (mul (0.25 : Double) (Double.of_int g.bowls)) 1103
    (within_mono _ _ _ w1 (by norm_num)) wq (by norm_num)
  exact mul_within _ _ 1974 1104 2004 h wm (by norm_num) (by norm_num)

/-- With no kittens and a finite rate of a kitten a tick leaves a finite yarn
equal to what it was. -/
theorem tick_no_kittens (g : Game) (hk : g.kittens = 0) (hr : (kitten_rate g).finite = true)
    (hw : g.yarn.wf) (hy : g.yarn.finite = true) :
    (tick g).yarn.finite = true ∧ Double.eq (tick g).yarn g.yarn = true := by
  have hz := (eq_zero_iff _).mp ((passive_rate_no_kittens g hk).mpr hr)
  have hd := zero_mul_fin (passive_rate g) dt hz.1 dt_spec.1 hz.2
  have ha := add_zero_fin g.yarn (mul (passive_rate g) dt) hw hy hd.1 hd.2
  exact ⟨ha.1, eq_of_units _ _ ha.1 hy ha.2⟩

end Machine

namespace Machine

open Double

/-! ## Purchases and income in binary64 -/

/-- A relative error of `2^(-53)` on both sides keeps `a * r < b * r` when
`(2^53 + 1) * a < (2^53 - 1) * b`. -/
theorem lt_of_rel (u v s t : Int) (hs : 0 ≤ s) (ht : 0 ≤ t)
    (hu : 2 ^ 53 * |u - s| ≤ |s|) (hv : 2 ^ 53 * |v - t| ≤ |t|)
    (h : (2 ^ 53 + 1) * s < (2 ^ 53 - 1) * t) : u < v := by
  rw [abs_of_nonneg hs] at hu
  rw [abs_of_nonneg ht] at hv
  have h1 : u - s ≤ |u - s| := le_abs_self _
  have h2 : -(v - t) ≤ |v - t| := neg_le_abs _
  omega

theorem le_of_rel (u v s t : Int) (hs : 0 ≤ s) (ht : 0 ≤ t)
    (hu : 2 ^ 53 * |u - s| ≤ |s|) (hv : 2 ^ 53 * |v - t| ≤ |t|)
    (h : (2 ^ 53 + 1) * s ≤ (2 ^ 53 - 1) * t) : u ≤ v := by
  rw [abs_of_nonneg hs] at hu
  rw [abs_of_nonneg ht] at hv
  have h1 : u - s ≤ |u - s| := le_abs_self _
  have h2 : -(v - t) ≤ |v - t| := neg_le_abs _
  omega

end Machine

namespace Double

/-- The units of a moderate value are a multiple of 4. -/
theorem moderate_units (d : Double) (h : moderate d) : ∃ X : Int, units d = 4 * X := by
  obtain ⟨hw, hf, lo, -⟩ := h
  obtain ⟨s, m, e, rfl⟩ := finite_fin d hf
  obtain ⟨hm, -, -⟩ := hw
  rw [natAbs_units_fin] at lo
  have he : 2 ≤ e := by
    by_contra hc
    have h1 : e ≤ 1 := by omega
    have h2 : m * 2 ^ e < 2 ^ 54 := by
      calc m * 2 ^ e < 2 ^ 53 * 2 ^ e := Nat.mul_lt_mul_of_pos_right hm (Nat.two_pow_pos _)
        _ ≤ 2 ^ 53 * 2 ^ 1 := Nat.mul_le_mul_left _ (Nat.pow_le_pow_right (by norm_num) h1)
        _ = 2 ^ 54 := by norm_num
    omega
  have e2 : (2 : Nat) ^ e = 4 * 2 ^ (e - 2) := by
    rw [show (4 : Nat) = 2 ^ 2 by norm_num, ← pow_add, Nat.add_sub_cancel' he]
  cases s with
  | false =>
    refine ⟨((m * 2 ^ (e - 2) : Nat) : Int), ?_⟩
    simp only [units, Bool.false_eq_true, if_false]
    rw [e2]
    push_cast
    ring
  | true =>
    refine ⟨-((m * 2 ^ (e - 2) : Nat) : Int), ?_⟩
    simp only [units, if_true]
    rw [e2]
    push_cast
    ring

end Double

namespace Machine

open Double

/-! ## The passive rate for a moderate base rate -/

/-- Two roundings of relative error `2^(-53)` compose. -/
theorem rel_compose (u R S k : Int) (h1 : 2 ^ 53 * |u - k * R| ≤ |k * R|)
    (h2 : 2 ^ 53 * |R - S| ≤ |S|) : 2 ^ 106 * |u - k * S| ≤ (2 ^ 54 + 1) * |k * S| := by
  rw [abs_mul] at h1
  rw [abs_mul]
  have t1 : |u - k * S| ≤ |u - k * R| + |k| * |R - S| := by
    have e : u - k * S = (u - k * R) + k * (R - S) := by ring
    rw [e]
    calc |(u - k * R) + k * (R - S)| ≤ |u - k * R| + |k * (R - S)| := abs_add _ _
      _ = |u - k * R| + |k| * |R - S| := by rw [abs_mul]
  have t2 : |R| ≤ |S| + |R - S| := by
    have e : R = S + (R - S) := by ring
    calc |R| = |S + (R - S)| := by rw [← e]
      _ ≤ |S| + |R - S| := abs_add _ _
  have a0 : 0 ≤ |k| := abs_nonneg _
  have m1 : |k| * |R| ≤ |k| * (|S| + |R - S|) := mul_le_mul_of_nonneg_left t2 a0
  have m2 : |k| * (2 ^ 53 * |R - S|) ≤ |k| * |S| := mul_le_mul_of_nonneg_left h2 a0
  generalize |u - k * S| = x at *
  generalize |u - k * R| = p at *
  generalize hq : |R - S| = q at *
  generalize |R| = r at *
  generalize |S| = s at *
  generalize |k| = a at *
  have e1 : a * (s + q) = a * s + a * q := by ring
  have e2 : a * (2 ^ 53 * q) = 2 ^ 53 * (a * q) := by ring
  rw [e1] at m1
  rw [e2] at m2
  generalize a * q = aq at *
  generalize a * s = as at *
  generalize a * r = ar at *
  omega

/-- For a moderate base rate the rate of a kitten is finite and within the
relative error `2^(-53)` of `kitten_base_rate * (4 + bowls) / 4`. -/
theorem kitten_rate_rel (g : Game) (hb : is_int g.bowls) (hm : moderate g.kitten_base_rate) :
    ∃ X : Int, units g.kitten_base_rate = 4 * X ∧ within 2004 (kitten_rate g) ∧
      2 ^ 53 * |units (kitten_rate g) - (4 + g.bowls) * X| ≤ |(4 + g.bowls) * X| := by
  obtain ⟨X, hX⟩ := moderate_units _ hm
  obtain ⟨fm, um⟩ := mult_exact g.bowls hb
  have hw : within 1974 g.kitten_base_rate := ⟨hm.2.1, hm.2.2.2⟩
  have hR := kitten_rate_within g hb hw
  refine ⟨X, hX, hR, ?_⟩
  have e4 : (2 : Int) ^ 1074 = 4 * 2 ^ 1072 := by
    rw [show (4 : Int) = 2 ^ 2 by norm_num, ← pow_add]
  have hprod : units g.kitten_base_rate * units (1.0 + 0.25 * Double.of_int g.bowls : Double) =
      (4 + g.bowls) * X * 2 ^ 1074 := by
    rw [hX, um, e4]
    ring
  have hXb : X.natAbs ≤ 2 ^ 1972 := by
    have h2 := hm.2.2.2
    rw [hX, Int.natAbs_mul] at h2
    have e : (2 : Nat) ^ 1974 = 4 * 2 ^ 1972 := by
      rw [show (4 : Nat) = 2 ^ 2 by norm_num, ← pow_add]
    rw [e] at h2
    have e4' : (4 : Int).natAbs = 4 := rfl
    rw [e4'] at h2
    exact Nat.le_of_mul_le_mul_left h2 (by norm_num)
  have hT : ((4 + g.bowls) * X).natAbs ≤ 2 ^ 2097 := by
    unfold is_int INT_MIN INT_MAX at hb
    rw [Int.natAbs_mul]
    calc (4 + g.bowls).natAbs * X.natAbs ≤ 2 ^ 32 * 2 ^ 1972 :=
          Nat.mul_le_mul (by omega) hXb
      _ = 2 ^ 2004 := by rw [← pow_add]
      _ ≤ 2 ^ 2097 := Nat.pow_le_pow_right (by norm_num) (by norm_num)
  exact (mul_rel g.kitten_base_rate (1.0 + 0.25 * Double.of_int g.bowls) ((4 + g.bowls) * X)
    hm.2.1 fm hprod hT).2

/-- When the rate of a kitten is finite and at most `2^930` in magnitude the
total passive rate is finite and within the relative error `2^(-53)` of
`kittens * kitten_rate`. -/
theorem passive_rate_rel (g : Game) (hk : is_int g.kittens) (hR : within 2004 (kitten_rate g)) :
    (passive_rate g).finite = true ∧
    2 ^ 53 * |units (passive_rate g) - g.kittens * units (kitten_rate g)| ≤
      |g.kittens * units (kitten_rate g)| := by
  obtain ⟨fK, uK⟩ := of_int_spec g.kittens (natAbs_int _ hk)
  have hprod : units (Double.of_int g.kittens) * units (kitten_rate g) =
      g.kittens * units (kitten_rate g) * 2 ^ 1074 := by
    rw [uK]
    ring
  have hT : (g.kittens * units (kitten_rate g)).natAbs ≤ 2 ^ 2097 := by
    unfold is_int INT_MIN INT_MAX at hk
    rw [Int.natAbs_mul]
    calc g.kittens.natAbs * (units (kitten_rate g)).natAbs ≤ 2 ^ 31 * 2 ^ 2004 :=
          Nat.mul_le_mul (by omega) hR.2
      _ = 2 ^ 2035 := by rw [← pow_add]
      _ ≤ 2 ^ 2097 := Nat.pow_le_pow_right (by norm_num) (by norm_num)
  exact mul_rel (Double.of_int g.kittens) (kitten_rate g) _ fK hR.1 hprod hT

/-- For a moderate base rate the total passive rate is within the relative
error `(2^54 + 1) / 2^106` of `kittens * kitten_base_rate * (1 + bowls / 4)`. -/
theorem passive_rate_value (g : Game) (hk : is_int g.kittens) (hb : is_int g.bowls)
    (hm : moderate g.kitten_base_rate) :
    (passive_rate g).finite = true ∧
    2 ^ 106 * |Double.value (passive_rate g) -
        (g.kittens : ℚ) * Double.value g.kitten_base_rate * (1 + (1 / 4) * (g.bowls : ℚ))| ≤
      (2 ^ 54 + 1) *
        |(g.kittens : ℚ) * Double.value g.kitten_base_rate * (1 + (1 / 4) * (g.bowls : ℚ))| := by
  obtain ⟨X, hX, hR, r1⟩ := kitten_rate_rel g hb hm
  obtain ⟨fP, r2⟩ := passive_rate_rel g hk hR
  refine ⟨fP, ?_⟩
  have h := rel_compose _ _ _ _ r2 r1
  have hq : (2 : ℚ) ^ 106 * |(units (passive_rate g) : ℚ) - (g.kittens : ℚ) * ((4 + g.bowls) * X)| ≤
      (2 ^ 54 + 1) * |(g.kittens : ℚ) * ((4 + g.bowls) * X)| := by
    exact_mod_cast h
  have hP : (0 : ℚ) < 2 ^ 1074 := by positivity
  have e : (g.kittens : ℚ) * Double.value g.kitten_base_rate * (1 + (1 / 4) * (g.bowls : ℚ)) =
      (g.kittens : ℚ) * ((4 + g.bowls) * X) / 2 ^ 1074 := by
    unfold Double.value
    rw [hX]
    push_cast
    field_simp
    ring
  rw [e]
  unfold Double.value
  rw [← sub_div, abs_div, abs_div, abs_of_pos hP, ← mul_div_assoc, ← mul_div_assoc]
  exact div_le_div_of_nonneg_right hq hP.le

end Machine

namespace Machine

open Double

/-! ## Purchases and income for a moderate base rate -/

/-- One more kitten raises the total passive rate when the rate of a kitten is
positive, finite and at most `2^930`. -/
theorem more_kittens_raise (g g2 : Game) (hk : 0 ≤ g.kittens) (hk2 : is_int g2.kittens)
    (hR : within 2004 (kitten_rate g)) (hpos : 0 < units (kitten_rate g))
    (e1 : g2.kittens = g.kittens + 1) (e2 : g2.bowls = g.bowls)
    (e3 : g2.kitten_base_rate = g.kitten_base_rate) :
    Double.lt (passive_rate g) (passive_rate g2) = true := by
  have hki : is_int g.kittens := by
    unfold is_int INT_MIN INT_MAX at *
    omega
  have er : kitten_rate g2 = kitten_rate g := by
    unfold kitten_rate
    rw [e2, e3]
  obtain ⟨f1, r1⟩ := passive_rate_rel g hki hR
  obtain ⟨f2, r2⟩ := passive_rate_rel g2 hk2 (er ▸ hR)
  rw [lt_fin _ _ f1 f2]
  rw [er, e1] at r2
  unfold is_int INT_MIN INT_MAX at hk2
  generalize units (kitten_rate g) = R at r1 r2 hpos
  have hkR : 0 ≤ g.kittens * R := mul_nonneg hk hpos.le
  have hkR2 : 0 ≤ (g.kittens + 1) * R := mul_nonneg (by omega) hpos.le
  apply lt_of_rel _ _ _ _ hkR hkR2 r1 r2
  have h : 0 < R * (2 ^ 53 - 1 - 2 * g.kittens) := mul_pos hpos (by omega)
  linarith

/-- For a moderate, positive base rate one more bowl raises the rate of a
kitten, does not lower the total passive rate, and raises it when there is a
kitten. -/
theorem more_bowls_raise (g g2 : Game) (hk : 0 ≤ g.kittens) (hki : is_int g.kittens)
    (hb0 : 0 ≤ g.bowls) (hb2 : is_int g2.bowls) (hm : moderate g.kitten_base_rate)
    (hpos : 0 < units g.kitten_base_rate)
    (e1 : g2.kittens = g.kittens) (e2 : g2.bowls = g.bowls + 1)
    (e3 : g2.kitten_base_rate = g.kitten_base_rate) :
    Double.lt (kitten_rate g) (kitten_rate g2) = true ∧
    Double.le (passive_rate g) (passive_rate g2) = true ∧
    (0 < g.kittens → Double.lt (passive_rate g) (passive_rate g2) = true) := by
  have hb : is_int g.bowls := by
    unfold is_int INT_MIN INT_MAX at *
    omega
  obtain ⟨X, hX, w1, q1⟩ := kitten_rate_rel g hb hm
  obtain ⟨X2, hX2, w2, q2⟩ := kitten_rate_rel g2 hb2 (e3 ▸ hm)
  obtain ⟨f1, r1⟩ := passive_rate_rel g hki w1
  obtain ⟨f2, r2⟩ := passive_rate_rel g2 (e1 ▸ hki) w2
  rw [lt_fin _ _ w1.1 w2.1, le_fin _ _ f1 f2, lt_fin _ _ f1 f2]
  have hXX : X2 = X := by
    rw [e3, hX] at hX2
    omega
  rw [hXX, e2] at q2
  rw [e1] at r2
  have hXpos : 0 < X := by omega
  unfold is_int INT_MIN INT_MAX at hb2 hki
  have s1 : 0 ≤ (4 + g.bowls) * X := mul_nonneg (by omega) hXpos.le
  have s2 : 0 ≤ (4 + (g.bowls + 1)) * X := mul_nonneg (by omega) hXpos.le
  have key : (2 ^ 53 + 1) * units (kitten_rate g) < (2 ^ 53 - 1) * units (kitten_rate g2) := by
    rw [abs_of_nonneg s1] at q1
    rw [abs_of_nonneg s2] at q2
    have a1 := le_abs_self (units (kitten_rate g) - (4 + g.bowls) * X)
    have a2 := neg_le_abs (units (kitten_rate g2) - (4 + (g.bowls + 1)) * X)
    have hgap : 0 < X * ((2 ^ 53 - 1) ^ 2 - 2 ^ 55 * (4 + g.bowls)) :=
      mul_pos hXpos (by omega)
    have e5 : (4 + (g.bowls + 1)) * X = (4 + g.bowls) * X + X := by ring
    have e6 : X * ((2 ^ 53 - 1) ^ 2 - 2 ^ 55 * (4 + g.bowls)) =
        (2 ^ 53 - 1) ^ 2 * X - 2 ^ 55 * ((4 + g.bowls) * X) := by ring
    rw [e5] at q2 a2
    rw [e6] at hgap
    generalize (4 + g.bowls) * X = S at q1 q2 a1 a2 hgap s1
    generalize units (kitten_rate g) = R at q1 a1
    generalize units (kitten_rate g2) = R2 at q2 a2
    omega
  have hR0 : 0 ≤ units (kitten_rate g) := by
    rw [abs_of_nonneg s1] at q1
    have a2 := neg_le_abs (units (kitten_rate g) - (4 + g.bowls) * X)
    generalize (4 + g.bowls) * X = S at q1 a2 s1
    omega
  have hR2 : 0 ≤ units (kitten_rate g2) := by
    have : 0 ≤ (2 ^ 53 + 1) * units (kitten_rate g) := mul_nonneg (by norm_num) hR0
    omega
  have t1 : 0 ≤ g.kittens * units (kitten_rate g) := mul_nonneg hk hR0
  have t2 : 0 ≤ g.kittens * units (kitten_rate g2) := mul_nonneg hk hR2
  have c1 : (2 ^ 53 + 1) * (g.kittens * units (kitten_rate g)) =
      g.kittens * ((2 ^ 53 + 1) * units (kitten_rate g)) := by ring
  have c2 : (2 ^ 53 - 1) * (g.kittens * units (kitten_rate g2)) =
      g.kittens * ((2 ^ 53 - 1) * units (kitten_rate g2)) := by ring
  refine ⟨?_, ?_, ?_⟩
  · have : 0 ≤ units (kitten_rate g) := hR0
    omega
  · apply le_of_rel _ _ _ _ t1 t2 r1 r2
    rw [c1, c2]
    exact mul_le_mul_of_nonneg_left key.le hk
  · intro h
    apply lt_of_rel _ _ _ _ t1 t2 r1 r2
    rw [c1, c2]
    exact mul_lt_mul_of_pos_left key h

end Machine

namespace Machine

open Double

/-! ## The claims on the passive rate -/

/-- C9, as stated, fails: for the record with no kittens, four bowls and the
base rate 1e308 the rate of a kitten overflows to infinity, the total passive
rate is `0 * inf`, a NaN and not 0, and a tick turns yarn 0 into a NaN. And for
the record with three kittens, one bowl and the base rate 0.1 the total passive
rate differs from `kittens * kitten_base_rate * (1 + 0.25 * bowls)`, which is
no binary64 value. -/
theorem passive_rate_not_zero :
    (overflowing_record.kittens = 0 ∧
      kitten_rate overflowing_record = Double.inf false ∧
      passive_rate overflowing_record = Double.nan ∧
      Double.eq (passive_rate overflowing_record) 0.0 = false ∧
      (tick overflowing_record).yarn = Double.nan) ∧
    ((passive_rate tenth_rate).finite = true ∧
      4 * Double.units (passive_rate tenth_rate) ≠
        tenth_rate.kittens * Double.units tenth_rate.kitten_base_rate * (4 + tenth_rate.bowls)) := by
  decide!

/-- C9 (amended): the total passive rate the program shows and uses in a tick
is the binary64 product `kittens * (kitten_base_rate * (1.0 + 0.25 * bowls))`,
each operation rounded. For a state with kittens = 0 it compares equal to 0
exactly when the rate of a kitten is finite, which it is whenever
kitten_base_rate is finite and at most `2^900` in magnitude; a tick then leaves
a finite yarn equal to what it was. For a state whose kitten_base_rate is a
finite binary64 with `2^(-1020) <= |kitten_base_rate| <= 2^900` the total
passive rate is finite and within the relative error `(2^54 + 1) / 2^106`
(below `2^(-51)`) of `kittens * kitten_base_rate * (1 + 0.25 * bowls)`. For a
state with kitten_base_rate = 0.5 the rate of a kitten is exactly
`0.5 * (1 + 0.25 * bowls)`, the total passive rate is within the relative error
`2^(-53)` of `kittens * 0.5 * (1 + 0.25 * bowls)`, and equal to it when
`|kittens * (4 + bowls)| < 2^53`. -/
theorem passive_rate_formula (g : Game) (hk : is_int g.kittens) (hb : is_int g.bowls) :
    passive_rate g =
      Double.of_int g.kittens * (g.kitten_base_rate * (1.0 + 0.25 * Double.of_int g.bowls)) ∧
    print_ui g = Msg.ui g.yarn g.kittens g.bowls (passive_rate g) (kitten_cost g) (bowl_cost g) ∧
    (tick g).yarn = g.yarn + passive_rate g * dt ∧
    (g.kittens = 0 →
      (Double.eq (passive_rate g) 0.0 = true ↔ (kitten_rate g).finite = true) ∧
      (Double.within 1974 g.kitten_base_rate → (kitten_rate g).finite = true) ∧
      ((kitten_rate g).finite = true → g.yarn.wf → g.yarn.finite = true →
        (tick g).yarn.finite = true ∧ Double.eq (tick g).yarn g.yarn = true)) ∧
    (Double.moderate g.kitten_base_rate →
      (passive_rate g).finite = true ∧
      2 ^ 106 * |Double.value (passive_rate g) -
          (g.kittens : ℚ) * Double.value g.kitten_base_rate * (1 + (1 / 4) * (g.bowls : ℚ))| ≤
        (2 ^ 54 + 1) *
          |(g.kittens : ℚ) * Double.value g.kitten_base_rate * (1 + (1 / 4) * (g.bowls : ℚ))|) ∧
    (g.kitten_base_rate = 0.5 →
      (kitten_rate g).finite = true ∧
      Double.value (kitten_rate g) = (1 / 2) * (1 + (1 / 4) * (g.bowls : ℚ)) ∧
      (passive_rate g).finite = true ∧
      2 ^ 53 * |Double.value (passive_rate g) -
          (g.kittens : ℚ) * (1 / 2) * (1 + (1 / 4) * (g.bowls : ℚ))| ≤
        |(g.kittens : ℚ) * (1 / 2) * (1 + (1 / 4) * (g.bowls : ℚ))| ∧
      ((g.kittens * (4 + g.bowls)).natAbs < 2 ^ 53 →
        Double.value (passive_rate g) =
          (g.kittens : ℚ) * (1 / 2) * (1 + (1 / 4) * (g.bowls : ℚ)))) := by
  refine ⟨rfl, rfl, rfl, ?_, ?_, ?_⟩
  · intro h0
    exact ⟨passive_rate_no_kittens g h0, fun hw => (kitten_rate_within g hb hw).1,
      fun hr hw hy => tick_no_kittens g h0 hr hw hy⟩
  · intro hm
    exact passive_rate_value g hk hb hm
  · intro hr
    obtain ⟨fR, uR⟩ := kitten_rate_half g hb hr
    obtain ⟨fP, rP, eP⟩ := passive_rate_half g hk hb hr
    have c1 : (1 / 2 : ℚ) * (1 + (1 / 4) * (g.bowls : ℚ)) = ((4 + g.bowls : Int) : ℚ) / 2 ^ 3 := by
      push_cast
      ring
    have c2 : (g.kittens : ℚ) * (1 / 2) * (1 + (1 / 4) * (g.bowls : ℚ)) =
        ((g.kittens * (4 + g.bowls) : Int) : ℚ) / 2 ^ 3 := by
      push_cast
      ring
    rw [c1, c2]
    refine ⟨fR, value_of_units _ _ 1071 3 uR (by norm_num), fP,
      value_rel _ _ 1071 3 (by norm_num) rP, fun hs => ?_⟩
    exact value_of_units _ _ 1071 3 (eP hs) (by norm_num)

theorem passive_rate_formula_witness :
    (Double.eq (passive_rate initial) 0.0 = true ↔ (kitten_rate initial).finite = true) ∧
    (kitten_rate initial).finite = true ∧
    (passive_rate tenth_rate).finite = true ∧
    Double.value (kitten_rate wealthy.g) = (1 / 2) * (1 + (1 / 4) * (wealthy.g.bowls : ℚ)) ∧
    Double.value (passive_rate wealthy.g) =
      (wealthy.g.kittens : ℚ) * (1 / 2) * (1 + (1 / 4) * (wealthy.g.bowls : ℚ)) :=
  ⟨((passive_rate_formula initial (by decide) (by decide)).2.2.2.1 rfl).1,
    ((passive_rate_formula initial (by decide) (by decide)).2.2.2.1 rfl).2.1 (by decide!),
    ((passive_rate_formula tenth_rate (by decide) (by decide)).2.2.2.2.1 (by decide!)).1,
    ((passive_rate_formula wealthy.g (by decide) (by decide)).2.2.2.2.2 (by decide!)).2.1,
    ((passive_rate_formula wealthy.g (by decide) (by decide)).2.2.2.2.2 (by decide!)).2.2.2.2
      (by decide)⟩

end Machine

namespace Machine

open Double

/-! ## The claims on income after a purchase -/

/-- C19, as stated, fails: with 2147483647 kittens a successful buy-kitten
wraps the counter and the total passive rate falls below what it was. With
one kitten and the base rate 5e-324, the smallest positive binary64, a
successful buy-bowl leaves the rate of a kitten and the total passive rate
exactly as they were: `5e-324 * 1.25` rounds back to 5e-324. And with the base
rate 0.1 a successful buy-bowl adds to the rate of a kitten something else than
`0.25 * kitten_base_rate`, the sum being rounded. -/
theorem purchase_lowers_income :
    (Double.ge full_house.yarn (kitten_cost full_house) = true ∧
      Double.lt (passive_rate (buy_kitten full_house).1) (passive_rate full_house) = true) ∧
    (Double.lt 0.0 tiny_rate.kitten_base_rate = true ∧
      Double.ge tiny_rate.yarn (bowl_cost tiny_rate) = true ∧
      (buy_bowl tiny_rate).1.bowls = tiny_rate.bowls + 1 ∧
      kitten_rate (buy_bowl tiny_rate).1 = kitten_rate tiny_rate ∧
      passive_rate (buy_bowl tiny_rate).1 = passive_rate tiny_rate ∧
      Double.lt (passive_rate tiny_rate) (passive_rate (buy_bowl tiny_rate).1) = false) ∧
    (Double.ge tenth_rate.yarn (bowl_cost tenth_rate) = true ∧
      (buy_bowl tenth_rate).1.bowls = tenth_rate.bowls + 1 ∧
      4 * (Double.units (kitten_rate (buy_bowl tenth_rate).1) -
          Double.units (kitten_rate tenth_rate)) ≠
        Double.units tenth_rate.kitten_base_rate) := by
  decide!

/-- C19 (amended): for every state with 0 <= kittens, 0 <= bowls and a
kitten_base_rate that is a finite binary64 with
`2^(-1020) <= kitten_base_rate <= 2^900`: a successful buy-kitten with
kittens < INT_MAX strictly increases the total passive rate
`kittens * kitten_rate`; a successful buy-bowl with bowls < INT_MAX strictly
increases the rate of a kitten, does not decrease the total passive rate and
strictly increases it when kittens > 0; and when kitten_base_rate = 0.5, the
value the program starts with, the bowl adds exactly `0.25 * kitten_base_rate`
to the rate of a kitten. -/
theorem purchases_raise_income (g : Game) (hk0 : 0 ≤ g.kittens) (hk : g.kittens ≤ INT_MAX)
    (hb0 : 0 ≤ g.bowls) (hb : g.bowls ≤ INT_MAX) (hm : Double.moderate g.kitten_base_rate)
    (hpos : Double.lt 0.0 g.kitten_base_rate = true) :
    (Double.ge g.yarn (kitten_cost g) = true → g.kittens < INT_MAX →
      Double.lt (passive_rate g) (passive_rate (buy_kitten g).1) = true) ∧
    (Double.ge g.yarn (bowl_cost g) = true → g.bowls < INT_MAX →
      Double.lt (kitten_rate g) (kitten_rate (buy_bowl g).1) = true ∧
      Double.le (passive_rate g) (passive_rate (buy_bowl g).1) = true ∧
      (0 < g.kittens → Double.lt (passive_rate g) (passive_rate (buy_bowl g).1) = true) ∧
      (g.kitten_base_rate = 0.5 →
        Double.value (kitten_rate (buy_bowl g).1) =
          Double.value (kitten_rate g) + (1 / 4) * Double.value g.kitten_base_rate)) := by
  have ik : is_int g.kittens := by
    unfold is_int INT_MIN INT_MAX at *
    omega
  have ib : is_int g.bowls := by
    unfold is_int INT_MIN INT_MAX at *
    omega
  have hu : 0 < units g.kitten_base_rate := by
    have h := (lt_fin _ _ (by decide!) hm.2.1).mp hpos
    rw [lit_zero, units_zero] at h
    exact h
  constructor
  · intro hy hlt
    have e : int_add g.kittens 1 = g.kittens + 1 := int_add_one g.kittens ik.1 hlt
    have hkk : (buy_kitten g).1.kittens = g.kittens + 1 := by
      rw [buy_kitten_rich_d g hy]
      exact e
    have hbb : (buy_kitten g).1.bowls = g.bowls := by rw [buy_kitten_rich_d g hy]
    have hrr : (buy_kitten g).1.kitten_base_rate = g.kitten_base_rate := by
      rw [buy_kitten_rich_d g hy]
    have i2 : is_int (buy_kitten g).1.kittens := by
      rw [hkk]
      unfold is_int INT_MIN INT_MAX at *
      omega
    obtain ⟨X, hX, wR, q⟩ := kitten_rate_rel g ib hm
    have hRpos : 0 < units (kitten_rate g) := by
      have hXpos : 0 < X := by omega
      have s1 : 0 < (4 + g.bowls) * X := mul_pos (by omega) hXpos
      rw [abs_of_pos s1] at q
      have a2 := neg_le_abs (units (kitten_rate g) - (4 + g.bowls) * X)
      generalize (4 + g.bowls) * X = S at q a2 s1
      omega
    exact more_kittens_raise g _ hk0 i2 wR hRpos hkk hbb hrr
  · intro hy hlt
    have e : int_add g.bowls 1 = g.bowls + 1 := int_add_one g.bowls ib.1 hlt
    have hkk : (buy_bowl g).1.kittens = g.kittens := by rw [buy_bowl_rich_d g hy]
    have hbb : (buy_bowl g).1.bowls = g.bowls + 1 := by
      rw [buy_bowl_rich_d g hy]
      exact e
    have hrr : (buy_bowl g).1.kitten_base_rate = g.kitten_base_rate := by
      rw [buy_bowl_rich_d g hy]
    have i2 : is_int (buy_bowl g).1.bowls := by
      rw [hbb]
      unfold is_int INT_MIN INT_MAX at *
      omega
    obtain ⟨h1, h2, h3⟩ := more_bowls_raise g _ hk0 ik hb0 i2 hm hu hkk hbb hrr
    refine ⟨h1, h2, h3, ?_⟩
    intro hr
    obtain ⟨-, u1⟩ := kitten_rate_half g ib hr
    obtain ⟨-, u2⟩ := kitten_rate_half (buy_bowl g).1 i2 (hrr.trans hr)
    rw [hbb] at u2
    have v1 := value_of_units _ _ 1071 3 u1 (by norm_num)
    have v2 := value_of_units _ _ 1071 3 u2 (by norm_num)
    have vh : Double.value g.kitten_base_rate = ((1 : Int) : ℚ) / 2 ^ 1 := by
      rw [hr]
      exact value_of_units _ 1 1073 1 (by rw [lit_half.2, one_mul]) (by norm_num)
    rw [v1, v2, vh]
    push_cast
    ring

theorem purchases_raise_income_witness :
    Double.lt (passive_rate wealthy.g) (passive_rate (buy_kitten wealthy.g).1) = true ∧
    Double.lt (kitten_rate wealthy.g) (kitten_rate (buy_bowl wealthy.g).1) = true ∧
    Double.lt (passive_rate wealthy.g) (passive_rate (buy_bowl wealthy.g).1) = true ∧
    Double.value (kitten_rate (buy_bowl wealthy.g).1) =
      Double.value (kitten_rate wealthy.g) + (1 / 4) * Double.value wealthy.g.kitten_base_rate ∧
    Double.lt (passive_rate tenth_rate) (passive_rate (buy_bowl tenth_rate).1) = true :=
  ⟨(purchases_raise_income wealthy.g (by decide) (by decide) (by decide) (by decide)
      (by decide!) (by decide!)).1 (by decide!) (by decide),
    ((purchases_raise_income wealthy.g (by decide) (by decide) (by decide) (by decide)
      (by decide!) (by decide!)).2 (by decide!) (by decide)).1,
    ((purchases_raise_income wealthy.g (by decide) (by decide) (by decide) (by decide)
      (by decide!) (by decide!)).2 (by decide!) (by decide)).2.2.1 (by decide),
    ((purchases_raise_income wealthy.g (by decide) (by decide) (by decide) (by decide)
      (by decide!) (by decide!)).2 (by decide!) (by decide)).2.2.2 (by decide!),
    ((purchases_raise_income tenth_rate (by decide) (by decide) (by decide) (by decide)
      (by decide!) (by decide!)).2 (by decide!) (by decide)).2.2.1 (by decide)⟩

end Machine

namespace Machine

/-! ## Saving and loading -/

theorem switch_save_d (cmd : Char) (d : Disk) (w : World) (h : cmd = 's' ∨ cmd = 'S') :
    switch_cmd cmd d w =
      ({ w with file := (save_game w.g d w.file).2,
                out := w.out ++ [if (save_game w.g d w.file).1 then Msg.saved
                  else Msg.save_failed] }, true) := by
  rcases h with rfl | rfl <;> cases hs : (save_game w.g d w.file).1 <;> simp [switch_cmd, hs]

/-- C5: when the record is written in full, `save_game` returns true and a
`load_game` on the same file returns true and gives back exactly the saved
record, whatever the record in memory had become. But `save_game` does not look
at the result of `fclose`: when the flush in `fclose` fails (a full disk, for
one) it returns true all the same, the file holds less than one record, and the
`load_game` that follows returns false and leaves the record in memory as it
was; so after the commands save and load the game prints the messages for a
save that succeeded and for a load that failed. -/
theorem save_then_load (S S2 : Game) (file : Option SaveFile) (n : Nat) :
    ((save_game S Disk.ok file).1 = true ∧
      load_game S2 (save_game S Disk.ok file).2 = (true, S)) ∧
    ((save_game S (Disk.fclose_fails n) file).1 = true ∧
      (save_game S (Disk.fclose_fails n) file).2 = some ⟨[], n⟩ ∧
      load_game S2 (save_game S (Disk.fclose_fails n) file).2 = (false, S2)) ∧
    (Msg.saved ∈ (main [⟨['s', '\n'], Disk.fclose_fails 0⟩, ⟨['l', '\n'], Disk.ok⟩] none).2.out ∧
      Msg.load_failed ∈
        (main [⟨['s', '\n'], Disk.fclose_fails 0⟩, ⟨['l', '\n'], Disk.ok⟩] none).2.out) := by
  refine ⟨⟨rfl, rfl⟩, ⟨rfl, rfl, rfl⟩, ?_⟩
  decide!

/-- C20: the save command (`s` or `S`) never changes the record in memory and
never ends the loop, whatever happens to the file. When the file cannot be
opened it keeps its content and the failure is reported; when `fwrite` fails
the file holds less than one record and the failure is reported; when the
record is written in full the file holds exactly that record and the success is
reported. But when only the flush in `fclose` fails, whose result `save_game`
does not look at, the success is reported although the file holds less than one
record. -/
theorem save_keeps_game (cmd : Char) (d : Disk) (n : Nat) (w : World)
    (h : cmd = 's' ∨ cmd = 'S') :
    (switch_cmd cmd d w).1.g = w.g ∧
    (switch_cmd cmd d w).2 = true ∧
    switch_cmd cmd Disk.fopen_fails w = ({ w with out := w.out ++ [Msg.save_failed] }, true) ∧
    switch_cmd cmd (Disk.fwrite_fails n) w =
      ({ w with file := some ⟨[], n⟩, out := w.out ++ [Msg.save_failed] }, true) ∧
    switch_cmd cmd Disk.ok w =
      ({ w with file := some ⟨[w.g], 0⟩, out := w.out ++ [Msg.saved] }, true) ∧
    switch_cmd cmd (Disk.fclose_fails n) w =
      ({ w with file := some ⟨[], n⟩, out := w.out ++ [Msg.saved] }, true) := by
  refine ⟨?_, ?_, ?_, ?_, ?_, ?_⟩ <;> rw [switch_save_d _ _ _ h] <;> rfl

theorem save_keeps_game_witness :
    (switch_cmd 's' (Disk.fclose_fails 0) wealthy).1.g = wealthy.g ∧
    (switch_cmd 's' (Disk.fclose_fails 0) wealthy).2 = true ∧
    switch_cmd 's' Disk.fopen_fails wealthy =
      ({ wealthy with out := wealthy.out ++ [Msg.save_failed] }, true) ∧
    switch_cmd 's' (Disk.fwrite_fails 0) wealthy =
      ({ wealthy with file := some ⟨[], 0⟩, out := wealthy.out ++ [Msg.save_failed] }, true) ∧
    switch_cmd 's' Disk.ok wealthy =
      ({ wealthy with file := some ⟨[wealthy.g], 0⟩, out := wealthy.out ++ [Msg.saved] }, true) ∧
    switch_cmd 's' (Disk.fclose_fails 0) wealthy =
      ({ wealthy with file := some ⟨[], 0⟩, out := wealthy.out ++ [Msg.saved] }, true) :=
  save_keeps_game 's' (Disk.fclose_fails 0) 0 wealthy (Or.inl rfl)

end Machine

namespace Machine

/-! ## The ticks and the scenarios in binary64 -/

/-- In binary64 each tick rounds its sum: from 100 yarn with three kittens, two
bowls and the base rate 0.5 the five ticks give 101.12499999999997, two
binary64 values below the 101.125 of exact arithmetic; kittens, bowls and the
base rate are as before. -/
theorem five_ticks_rounded :
    (ticks 5 wealthy.g).yarn = Double.fin false 7116039254966270 1028 ∧
    (101.125 : Double) = Double.fin false 7116039254966272 1028 ∧
    Double.lt (ticks 5 wealthy.g).yarn 101.125 = true ∧
    (ticks 5 wealthy.g).kittens = 3 ∧
    (ticks 5 wealthy.g).bowls = 2 ∧
    (ticks 5 wealthy.g).kitten_base_rate = 0.5 := by
  decide!

/-- The values of the scenarios are the same in binary64 as in exact
arithmetic: the first kittens cost 10, 12, 14 and 16, the first bowls 25, 35
and 45; with two kittens, one bowl and the base rate 0.5 the rate of a kitten
is 0.625, the total passive rate 1.25, and a tick adds 0.125 to a yarn of 3. -/
theorem scenario_values_binary64 :
    (kitten_cost ⟨0.0, 0, 0, 0.5⟩ = 10.0 ∧ kitten_cost ⟨0.0, 1, 0, 0.5⟩ = 12.0 ∧
      kitten_cost ⟨0.0, 2, 0, 0.5⟩ = 14.0 ∧ kitten_cost ⟨0.0, 3, 0, 0.5⟩ = 16.0) ∧
    (bowl_cost ⟨0.0, 0, 0, 0.5⟩ = 25.0 ∧ bowl_cost ⟨0.0, 0, 1, 0.5⟩ = 35.0 ∧
      bowl_cost ⟨0.0, 0, 2, 0.5⟩ = 45.0) ∧
    (kitten_rate ⟨3.0, 2, 1, 0.5⟩ = 0.625 ∧ passive_rate ⟨3.0, 2, 1, 0.5⟩ = 1.25 ∧
      passive_rate ⟨3.0, 2, 1, 0.5⟩ * dt = 0.125 ∧ (tick ⟨3.0, 2, 1, 0.5⟩).yarn = 3.125) := by
  decide!

/-- In binary64 the cost of a bowl is exactly `25 + 10 * bowls` for every `int`
number of bowls: nothing is rounded. -/
theorem bowl_cost_exact (g : Game) (hb : is_int g.bowls) :
    (bowl_cost g).finite = true ∧
    Double.value (bowl_cost g) = 25 + 10 * (g.bowls : ℚ) := by
  obtain ⟨fB, uB⟩ := Double.of_int_spec g.bowls (natAbs_int _ hb)
  obtain ⟨f10, u10⟩ := Double.lit_ten
  obtain ⟨f25, u25⟩ := Double.lit_twenty_five
  unfold is_int INT_MIN INT_MAX at hb
  have hq := Double.mul_exact (10.0 : Double) (Double.of_int g.bowls) (10 * g.bowls * 2 ^ 1074)
    (10 * g.bowls).natAbs 1074 f10 fB (by rw [u10, uB]; ring)
    (by rw [Int.natAbs_mul, Int.natAbs_pow]; rfl) (by omega) (by
      rw [Int.natAbs_mul, Int.natAbs_pow]
      calc (10 * g.bowls).natAbs * (2 : Int).natAbs ^ 1074 < 2 ^ 53 * 2 ^ 1074 :=
            Nat.mul_lt_mul_of_pos_right (by omega) (Nat.two_pow_pos _)
        _ = 2 ^ 1127 := by rw [← pow_add]
        _ ≤ 2 ^ 2098 := Nat.pow_le_pow_right (by norm_num) (by norm_num))
  obtain ⟨fq, uq⟩ := hq
  have hs : Double.units (25.0 : Double) +
      Double.units (Double.mul (10.0 : Double) (Double.of_int g.bowls)) =
      (25 + 10 * g.bowls) * 2 ^ 1074 := by
    rw [u25, uq]
    ring
  have hna : (Double.units (25.0 : Double) +
      Double.units (Double.mul (10.0 : Double) (Double.of_int g.bowls))).natAbs =
      (25 + 10 * g.bowls).natAbs * 2 ^ 1074 := by
    rw [hs, Int.natAbs_mul, Int.natAbs_pow]
    rfl
  have ha := Double.add_exact (25.0 : Double) (Double.mul (10.0 : Double) (Double.of_int g.bowls))
    (25 + 10 * g.bowls).natAbs 1074 f25 fq hna (by omega) (by
      rw [hna]
      calc (25 + 10 * g.bowls).natAbs * 2 ^ 1074 < 2 ^ 53 * 2 ^ 1074 :=
            Nat.mul_lt_mul_of_pos_right (by omega) (Nat.two_pow_pos _)
        _ = 2 ^ 1127 := by rw [← pow_add]
        _ ≤ 2 ^ 2098 := Nat.pow_le_pow_right (by norm_num) (by norm_num))
  rw [hs] at ha
  refine ⟨ha.1, ?_⟩
  have hv := Double.value_of_units (bowl_cost g) (25 + 10 * g.bowls) 1074 0 ha.2 (by norm_num)
  rw [hv]
  push_cast
  ring

end Machine

namespace Machine

/-! ## The properties that do not depend on rounding, on binary64 values

The properties of the purchases, the counters, the scenario and the base rate
that were proved in exact arithmetic hold of the program on binary64 values as
well, with the comparison `yarn >= cost` of the two binary64 values. -/

/-- A purchase command given when the comparison `yarn >= cost` fails (yarn is
below the cost the program computes, or one of the two is a NaN) leaves the
record and the save file as they were, prints "Not enough yarn." and lets the
loop go on. -/
theorem purchase_rejected_d (cmd : Char) (d : Disk) (w : World)
    (h : ((cmd = 'b' ∨ cmd = 'B') ∧ Double.ge w.g.yarn (kitten_cost w.g) = false) ∨
         ((cmd = 'u' ∨ cmd = 'U') ∧ Double.ge w.g.yarn (bowl_cost w.g) = false)) :
    (switch_cmd cmd d w).1.g = w.g ∧
    (switch_cmd cmd d w).1.file = w.file ∧
    (switch_cmd cmd d w).1.out = w.out ++ [Msg.not_enough_yarn] ∧
    (switch_cmd cmd d w).2 = true := by
  rcases h with ⟨hc, hy⟩ | ⟨hc, hy⟩
  · rw [switch_buy_kitten_d cmd d w hc, buy_kitten_poor_d w.g hy]
    exact ⟨rfl, rfl, rfl, rfl⟩
  · rw [switch_buy_bowl_d cmd d w hc, buy_bowl_poor_d w.g hy]
    exact ⟨rfl, rfl, rfl, rfl⟩

theorem iteration_kittens_d (i : Input) (w : World) :
    (iteration i w).1.g.kittens =
      (switch_cmd (first_char i.buf) i.disk { w with out := w.out ++ [print_ui w.g] }).1.g.kittens := by
  unfold iteration
  dsimp only
  split_ifs
  · exact ticks_kittens_d 5 _
  · rfl

theorem iteration_bowls_d (i : Input) (w : World) :
    (iteration i w).1.g.bowls =
      (switch_cmd (first_char i.buf) i.disk { w with out := w.out ++ [print_ui w.g] }).1.g.bowls := by
  unfold iteration
  dsimp only
  split_ifs
  · exact ticks_bowls_d 5 _
  · rfl

theorem buy_kitten_counters_d (g : Game) (lo : INT_MIN ≤ g.kittens) (hi : g.kittens < INT_MAX) :
    g.kittens ≤ (buy_kitten g).1.kittens ∧ (buy_kitten g).1.bowls = g.bowls := by
  cases hy : Double.ge g.yarn (kitten_cost g) with
  | true =>
    rw [buy_kitten_rich_d g hy]
    refine ⟨?_, rfl⟩
    show g.kittens ≤ int_add g.kittens 1
    rw [int_add_one g.kittens lo hi]
    omega
  | false =>
    rw [buy_kitten_poor_d g hy]
    exact ⟨le_refl _, rfl⟩

theorem buy_bowl_counters_d (g : Game) (lo : INT_MIN ≤ g.bowls) (hi : g.bowls < INT_MAX) :
    (buy_bowl g).1.kittens = g.kittens ∧ g.bowls ≤ (buy_bowl g).1.bowls := by
  cases hy : Double.ge g.yarn (bowl_cost g) with
  | true =>
    rw [buy_bowl_rich_d g hy]
    refine ⟨rfl, ?_⟩
    show g.bowls ≤ int_add g.bowls 1
    rw [int_add_one g.bowls lo hi]
    omega
  | false =>
    rw [buy_bowl_poor_d g hy]
    exact ⟨rfl, le_refl _⟩

theorem load_game_failed_d (g : Game) (file : Option SaveFile)
    (h : (load_game g file).1 = false) : (load_game g file).2 = g := by
  unfold load_game at *
  split
  · rfl
  · split
    · rfl
    · rename_i hr
      simp [hr] at h

/-- One pass of the loop body never lowers kittens or bowls, provided the
command is not a load that succeeds and, when it buys a kitten (a bowl), the
kittens (bowls) counter is an `int` below INT_MAX. -/
theorem counters_never_drop_d (i : Input) (w : World)
    (hl : (first_char i.buf = 'l' ∨ first_char i.buf = 'L') → (load_game w.g w.file).1 = false)
    (hk : (first_char i.buf = 'b' ∨ first_char i.buf = 'B') →
      INT_MIN ≤ w.g.kittens ∧ w.g.kittens < INT_MAX)
    (hb : (first_char i.buf = 'u' ∨ first_char i.buf = 'U') →
      INT_MIN ≤ w.g.bowls ∧ w.g.bowls < INT_MAX) :
    w.g.kittens ≤ (iteration i w).1.g.kittens ∧ w.g.bowls ≤ (iteration i w).1.g.bowls := by
  rw [iteration_kittens_d, iteration_bowls_d]
  unfold switch_cmd
  split_ifs with c1 c2 c3 c4 c5 c6 c7 c8
  all_goals try dsimp only
  · exact ⟨le_refl _, le_refl _⟩
  · have h := buy_kitten_counters_d w.g (hk c2).1 (hk c2).2
    exact ⟨h.1, le_of_eq h.2.symm⟩
  · have h := buy_bowl_counters_d w.g (hb c3).1 (hb c3).2
    exact ⟨le_of_eq h.1.symm, h.2⟩
  · exact ⟨le_refl _, le_refl _⟩
  · exact ⟨le_refl _, le_refl _⟩
  · have h := hl c6
    simp [h] at c7
  · have h := load_game_failed_d w.g w.file (hl c6)
    rw [h]
    exact ⟨le_refl _, le_refl _⟩
  · exact ⟨le_refl _, le_refl _⟩
  · exact ⟨le_refl _, le_refl _⟩

set_option maxRecDepth 100000 in
/-- The scenario of the two purchases on binary64 values, the handlers applied
in sequence from the initial state: after 10 gathers yarn is 10 and a kitten
costs 10; the purchase leaves yarn 0 and 1 kitten; after 15 more gathers yarn
is 15 and a kitten costs 12; the purchase leaves yarn 3 and 2 kittens; bowls is
0 and kitten_base_rate 0.5 throughout. Every value is exact. -/
theorem scenario_two_purchases_d :
    (handlers (List.replicate 10 'g') start).g =
      { yarn := 10.0, kittens := 0, bowls := 0, kitten_base_rate := 0.5 } ∧
    kitten_cost (handlers (List.replicate 10 'g') start).g = 10.0 ∧
    (handlers (List.replicate 10 'g' ++ ['b']) start).g =
      { yarn := 0.0, kittens := 1, bowls := 0, kitten_base_rate := 0.5 } ∧
    (handlers (List.replicate 10 'g' ++ ['b'] ++ List.replicate 15 'g') start).g =
      { yarn := 15.0, kittens := 1, bowls := 0, kitten_base_rate := 0.5 } ∧
    kitten_cost (handlers (List.replicate 10 'g' ++ ['b'] ++ List.replicate 15 'g') start).g
      = 12.0 ∧
    (handlers (List.replicate 10 'g' ++ ['b'] ++ List.replicate 15 'g' ++ ['b']) start).g =
      { yarn := 3.0, kittens := 2, bowls := 0, kitten_base_rate := 0.5 } := by
  decide!

theorem buy_kitten_base_rate_d (g : Game) :
    (buy_kitten g).1.kitten_base_rate = g.kitten_base_rate := by
  cases hy : Double.ge g.yarn (kitten_cost g) with
  | true => rw [buy_kitten_rich_d g hy]
  | false => rw [buy_kitten_poor_d g hy]

theorem buy_bowl_base_rate_d (g : Game) :
    (buy_bowl g).1.kitten_base_rate = g.kitten_base_rate := by
  cases hy : Double.ge g.yarn (bowl_cost g) with
  | true => rw [buy_bowl_rich_d g hy]
  | false => rw [buy_bowl_poor_d g hy]

theorem save_game_half_rate_d (g : Game) (d : Disk) (file : Option SaveFile)
    (hg : g.kitten_base_rate = 0.5) (hf : half_rate_file file) :
    half_rate_file (save_game g d file).2 := by
  cases d with
  | fopen_fails => exact hf
  | fwrite_fails written => simp [save_game, half_rate_file]
  | fclose_fails written => simp [save_game, half_rate_file]
  | ok => simpa [save_game, half_rate_file] using hg

theorem load_game_half_rate_d (g : Game) (file : Option SaveFile)
    (hg : g.kitten_base_rate = 0.5) (hf : half_rate_file file) :
    (load_game g file).2.kitten_base_rate = 0.5 := by
  unfold load_game
  unfold half_rate_file at hf
  split
  · exact hg
  · rename_i f
    split
    · exact hg
    · rename_i r rest hr
      simp only [hr] at hf
      exact hf

theorem switch_cmd_half_rate_d (cmd : Char) (d : Disk) (w : World)
    (hg : w.g.kitten_base_rate = 0.5) (hf : half_rate_file w.file) :
    (switch_cmd cmd d w).1.g.kitten_base_rate = 0.5 ∧
    half_rate_file (switch_cmd cmd d w).1.file := by
  unfold switch_cmd
  split_ifs <;> dsimp only
  · exact ⟨hg, hf⟩
  · exact ⟨(buy_kitten_base_rate_d w.g).trans hg, hf⟩
  · exact ⟨(buy_bowl_base_rate_d w.g).trans hg, hf⟩
  · exact ⟨hg, save_game_half_rate_d w.g d w.file hg hf⟩
  · exact ⟨hg, save_game_half_rate_d w.g d w.file hg hf⟩
  · exact ⟨load_game_half_rate_d w.g w.file hg hf, hf⟩
  · exact ⟨load_game_half_rate_d w.g w.file hg hf, hf⟩
  · exact ⟨hg, hf⟩
  · exact ⟨hg, hf⟩

theorem iteration_half_rate_d (i : Input) (w : World)
    (hg : w.g.kitten_base_rate = 0.5) (hf : half_rate_file w.file) :
    (iteration i w).1.g.kitten_base_rate = 0.5 ∧ half_rate_file (iteration i w).1.file := by
  have h := switch_cmd_half_rate_d (first_char i.buf) i.disk
    { w with out := w.out ++ [print_ui w.g] } hg hf
  unfold iteration
  dsimp only
  split_ifs
  · exact ⟨(ticks_base_rate_d 5 _).trans h.1, h.2⟩
  · exact h

theorem game_loop_half_rate_d (stdin : List Input) (w : World)
    (hg : w.g.kitten_base_rate = 0.5) (hf : half_rate_file w.file) :
    (game_loop stdin w).g.kitten_base_rate = 0.5 := by
  induction stdin generalizing w with
  | nil => exact hg
  | cons i rest ih =>
    have h := iteration_half_rate_d i w hg hf
    unfold game_loop
    split_ifs
    · exact ih _ h.1 h.2
    · exact h.1

/-- On binary64 values too, no command and no tick assigns kitten_base_rate:
in every state the loop reaches from the initial state it is 0.5, provided the
save file found at start is absent, shorter than one record, or starts with a
record whose kitten_base_rate is 0.5. -/
theorem base_rate_fixed_d (stdin : List Input) (file : Option SaveFile)
    (hf : half_rate_file file) :
    (main stdin file).2.g.kitten_base_rate = 0.5 := by
  have h0 : initial.kitten_base_rate = 0.5 := rfl
  exact game_loop_half_rate_d stdin { g := initial, file := file, out := [] } h0 hf

end Machine

end Kittremental
